import Mathlib

/-!
# Chess server: game service, rules adapter, rating calculator, matchmaking and session hub

A shallow embedding of `internal/chess/engine.go`, `internal/models`,
`internal/game/elo.go`, `internal/game/service.go`, `internal/game/matchmaking.go`,
`internal/game/hub.go`, the method `HandleWebSocket` of `internal/game/websocket.go`,
the token validation of `internal/auth/jwt.go` and the `Register` operation of
`internal/auth/service.go`.

Modelling conventions.

* The rules library `github.com/notnil/chess` is not part of the repository.
  Its operations are the fields of `ChessLib`; every definition that calls the
  library takes an `L : ChessLib P G M`.
* The relational store behind gorm is a record of three tables, each a list of
  rows in insertion order. A primary key names at most one row, so a lookup by
  key returns the first row with that key and an update by key rewrites that
  row. The sequence behind an auto-increment key returns a value above every
  key in the table. Time stamps (`CreatedAt`, `UpdatedAt`) and the preloaded
  relation fields are left out of the rows.
* Every gorm call can report an error. `Faults` says which calls of one
  service operation do so; a failing call changes nothing.
  A transaction works on a copy of the store that replaces the store on
  commit and is dropped on rollback.
* Go `uint` is `Nat`; Go `int` is `Int` (`Nat` for the ply number, which is a
  row count plus one). A Go `int` has 64 bits: the integer arithmetic of the
  rating calculator wraps around (`wrapInt`). The counters of a user, which grow
  by one per finished game, the row counts, and the difference of two ratings,
  which are not negative, in the matchmaking queue stay within the 64-bit limits.
* `float64` arithmetic in the rating calculator is exact arithmetic on `ℚ`.
  `math.Pow` is the parameter `Pow`; `math.Round` rounds half away from zero.
* The hub is the sequential loop of `Run`: a state of the registry and of the
  outbound channels, and one function per branch of the `select`. A Go channel
  is its buffer, its capacity and a closed flag; closing a closed channel and
  sending on a closed channel are panics, which end a run.
-/

namespace ChessGame

deriving instance DecidableEq for Except

/-! ## Rules library interface -/

/-- Side colours of the rules library (`chess.Color`). -/
inductive Color where
  | White
  | Black
  | NoColor
deriving DecidableEq

/-- Text of a colour (`Color.String` of the rules library). -/
def Color.str : Color → String
  | .White => "w"
  | .Black => "b"
  | .NoColor => "-"

/-- Game outcomes of the rules library (`chess.Outcome`). -/
inductive Outcome where
  | NoOutcome
  | WhiteWon
  | BlackWon
  | Draw
deriving DecidableEq

/-- Operations of the rules library used by the engine adapter. `P` is the type
of positions, `G` of games, `M` of decoded moves. -/
structure ChessLib (P G M : Type) where
  /-- Parser `chess.FEN`; `none` is a parse error. -/
  FEN : String → Option P
  /-- Constructor `chess.NewGame`; `none` is the call without a position. -/
  NewGame : Option P → G
  /-- Current position of a game. -/
  Position : G → P
  /-- Side to move. -/
  Turn : P → Color
  /-- FEN text of a position. -/
  PositionString : P → String
  /-- Outcome of a game. -/
  Outcome : G → Outcome
  /-- Decoder `UCINotation.Decode`; `none` is a decode error. -/
  Decode : P → String → Option M
  /-- Legal moves of the current position. -/
  ValidMoves : G → List M
  /-- Text of a move. -/
  MoveString : M → String
  /-- Method `Game.Move`; `none` is a rejected move, the game is then unchanged. -/
  Move : G → M → Option G
  /-- PGN text of a game. -/
  GameString : G → String

/-! ## Errors -/

/-- Error values of packages `chess` and `game`, the two errors `JoinGame`
creates in place, and the errors that come from outside the repository. -/
inductive Error where
  /-- Value `chess.ErrInvalidMove`. -/
  | chessErrInvalidMove
  /-- Value `chess.ErrIllegalMove`. -/
  | chessErrIllegalMove
  /-- Value `chess.ErrNotYourTurn`. -/
  | chessErrNotYourTurn
  /-- Value `chess.ErrGameFinished`. -/
  | chessErrGameFinished
  /-- Parse error returned by `chess.FEN`. -/
  | fenError
  | ErrGameNotFound
  | ErrGameFull
  | ErrNotInGame
  | ErrInvalidMove
  | ErrIllegalMove
  | ErrNotYourTurn
  | ErrGameFinished
  /-- Value of `errors.New("game is not waiting for players")`. -/
  | notWaiting
  /-- Value of `errors.New("cannot join as both players")`. -/
  | bothPlayers
  /-- Any error reported by gorm other than record-not-found. -/
  | storage
  /-- Value of `errors.New("username, email, and password are required")`. -/
  | fieldsRequired
  | ErrEmailExists
  | ErrUsernameExists
  /-- Error returned by `bcrypt.GenerateFromPassword`. -/
  | hashError
deriving DecidableEq

/-- The failures of `JoinGame` that the specification calls `GameNotJoinable`. -/
def Error.isGameNotJoinable : Error → Bool
  | .notWaiting => true
  | .bothPlayers => true
  | _ => false

/-! ## Engine adapter (`internal/chess/engine.go`) -/

/-- Wrapper of a library game. -/
structure Engine (G : Type) where
  game : G
deriving DecidableEq

variable {P G M : Type}

def NewEngine (L : ChessLib P G M) : Engine G :=
  { game := L.NewGame none }

def NewEngineFromFEN (L : ChessLib P G M) (fen : String) : Except Error (Engine G) :=
  match L.FEN fen with
  | none => .error .fenError
  | some pos => .ok { game := L.NewGame (some pos) }

def Engine.GetFEN (L : ChessLib P G M) (e : Engine G) : String :=
  L.PositionString (L.Position e.game)

def Engine.GetTurn (L : ChessLib P G M) (e : Engine G) : String :=
  (L.Turn (L.Position e.game)).str

def Engine.IsWhiteTurn (L : ChessLib P G M) (e : Engine G) : Bool :=
  Engine.GetTurn L e == "w"

def Engine.IsBlackTurn (L : ChessLib P G M) (e : Engine G) : Bool :=
  Engine.GetTurn L e == "b"

/-- Method `Engine.MakeMove`: the engine after the move, or the error. -/
def Engine.MakeMove (L : ChessLib P G M) (e : Engine G) (uci : String) :
    Except Error (Engine G) :=
  if L.Outcome e.game ≠ .NoOutcome then .error .chessErrGameFinished
  else
    match L.Decode (L.Position e.game) uci with
    | none => .error .chessErrInvalidMove
    | some move =>
      match L.Move e.game move with
      | none => .error .chessErrIllegalMove
      | some g => .ok { game := g }

/-- Method `Engine.ValidateMove`: `none` is the nil error. -/
def Engine.ValidateMove (L : ChessLib P G M) (e : Engine G) (uci : String) : Option Error :=
  if L.Outcome e.game ≠ .NoOutcome then some .chessErrGameFinished
  else
    match L.Decode (L.Position e.game) uci with
    | none => some .chessErrInvalidMove
    | some move =>
      if (L.ValidMoves e.game).any (fun validMove => L.MoveString validMove == L.MoveString move)
      then none
      else some .chessErrIllegalMove

def Engine.GetOutcome (L : ChessLib P G M) (e : Engine G) : String :=
  match L.Outcome e.game with
  | .WhiteWon => "white_wins"
  | .BlackWon => "black_wins"
  | .Draw => "draw"
  | .NoOutcome => ""

/-- Modelled from the spec: `Engine.GetPGN` is called by the game service but is
not defined in `engine.go`; it is the notation log of the engine, the full
PGN-style text of the wrapped game. -/
def Engine.GetPGN (L : ChessLib P G M) (e : Engine G) : String :=
  L.GameString e.game

/-! ## Rows (`internal/models`) -/

inductive GameStatus where
  | waiting
  | active
  | finished
deriving DecidableEq

/-- Type `GameResult`, a string: `""`, `"white_wins"`, `"black_wins"`, `"draw"`. -/
abbrev GameResult := String

def GameResultNone : GameResult := ""

def GameResultWhiteWins : GameResult := "white_wins"

def GameResultBlackWins : GameResult := "black_wins"

def GameResultDraw : GameResult := "draw"

structure User where
  ID : Nat
  Username : String
  Email : String
  PasswordHash : String
  AvatarURL : String
  ELORating : Int
  GamesPlayed : Int
  Wins : Int
  Losses : Int
  Draws : Int
deriving DecidableEq

structure Game where
  ID : Nat
  WhitePlayerID : Option Nat
  BlackPlayerID : Option Nat
  Status : GameStatus
  Result : GameResult
  CurrentFEN : String
  PGN : String
  TimeControl : Int
  WhiteTimeLeft : Int
  BlackTimeLeft : Int
deriving DecidableEq

structure Move where
  ID : Nat
  GameID : Nat
  PlayerID : Nat
  MoveNotation : String
  BoardState : String
  PlyNumber : Nat
deriving DecidableEq

/-! ## Store -/

structure DB where
  users : List User
  games : List Game
  moves : List Move
deriving DecidableEq

/-- Which gorm calls of one service operation report an error. -/
structure Faults where
  /-- `First` of the game row in `GetGame`. -/
  getGame : Bool
  /-- `Create` of a row. -/
  create : Bool
  /-- `Count` of the move rows. -/
  count : Bool
  /-- `First` of the white player row. -/
  firstWhite : Bool
  /-- `First` of the black player row. -/
  firstBlack : Bool
  /-- `Updates` of the white player row. -/
  updatesWhite : Bool
  /-- `Updates` of the black player row. -/
  updatesBlack : Bool
  /-- `Save` of the game row. -/
  save : Bool
  /-- `Commit` of the transaction. -/
  commit : Bool
deriving DecidableEq

/-- No call fails. -/
def noFaults : Faults :=
  { getGame := false, create := false, count := false, firstWhite := false,
    firstBlack := false, updatesWhite := false, updatesBlack := false,
    save := false, commit := false }

/-- Next value of an auto-increment key: above every key in use. -/
def freshID (ids : List Nat) : Nat :=
  ids.foldr max 0 + 1

/-- Row of `games` with the given key. -/
def findGame (games : List Game) (id : Nat) : Option Game :=
  games.find? (fun g => g.ID == id)

/-- Row of `users` with the given key. -/
def findUser (users : List User) (id : Nat) : Option User :=
  users.find? (fun u => u.ID == id)

/-- Rewrite the `games` row that has the key of `g`. -/
def replaceGame (g : Game) : List Game → List Game
  | [] => []
  | r :: rs => if r.ID = g.ID then g :: rs else r :: replaceGame g rs

/-- Statement `Save(game)`: update the row with the key of `g`, insert `g` when there is none. -/
def saveGame (games : List Game) (g : Game) : List Game :=
  match findGame games g.ID with
  | some _ => replaceGame g games
  | none => games ++ [g]

/-- Rewrite the columns of the `users` row with key `id`. -/
def updateUser (id : Nat) (f : User → User) : List User → List User
  | [] => []
  | r :: rs => if r.ID = id then f r :: rs else r :: updateUser id f rs

/-- Query `Where("game_id = ?", gameID).Count`. -/
def countMoves (moves : List Move) (gameID : Nat) : Nat :=
  (moves.filter (fun m => m.GameID == gameID)).length

/-! ## Rating calculator (`internal/game/elo.go`) -/

/-- Function `math.Round`: nearest integer, halves away from zero. -/
def Round (x : ℚ) : ℚ :=
  if x < 0 then -((⌊-x + 1 / 2⌋ : Int) : ℚ) else ((⌊x + 1 / 2⌋ : Int) : ℚ)

/-- Conversion `int(x)` of a float: truncation toward zero. -/
def toInt (x : ℚ) : Int :=
  x.num.tdiv x.den

/-- Largest value of a Go `int`, which has 64 bits (`math.MaxInt`). -/
def MaxInt : Int := 2 ^ 63 - 1

/-- Value of a Go `int` expression whose exact value is `x`: the 64-bit two's
complement number that `x` wraps around to. -/
def wrapInt (x : Int) : Int :=
  (x + 2 ^ 63) % 2 ^ 64 - 2 ^ 63

def CalculateELO (Pow : ℚ → ℚ → ℚ) (whiteRating blackRating : Int) (result : String) :
    Int × Int :=
  let K : ℚ := 32
  let expectedWhite : ℚ := 1 / (1 + Pow 10 ((wrapInt (blackRating - whiteRating) : ℚ) / 400))
  let expectedBlack : ℚ := 1 - expectedWhite
  let actual : Option (ℚ × ℚ) :=
    if result = "white_wins" then some (1, 0)
    else if result = "black_wins" then some (0, 1)
    else if result = "draw" then some (1 / 2, 1 / 2)
    else none
  match actual with
  | none => (whiteRating, blackRating)
  | some (actualWhite, actualBlack) =>
    let newWhiteRating := wrapInt (whiteRating + toInt (Round (K * (actualWhite - expectedWhite))))
    let newBlackRating := wrapInt (blackRating + toInt (Round (K * (actualBlack - expectedBlack))))
    let newWhiteRating := if newWhiteRating < 0 then 0 else newWhiteRating
    let newBlackRating := if newBlackRating < 0 then 0 else newBlackRating
    (newWhiteRating, newBlackRating)

/-! ## Game service (`internal/game/service.go`) -/

def CreateGame (L : ChessLib P G M) (f : Faults) (db : DB) (whitePlayerID : Nat)
    (timeControl : Int) : DB × Except Error Game :=
  let engine := NewEngine L
  let timeControl := if timeControl ≤ 0 then 600 else timeControl
  let game : Game :=
    { ID := 0
      WhitePlayerID := some whitePlayerID
      BlackPlayerID := none
      Status := .waiting
      Result := GameResultNone
      CurrentFEN := Engine.GetFEN L engine
      PGN := ""
      TimeControl := timeControl
      WhiteTimeLeft := timeControl
      BlackTimeLeft := timeControl }
  if f.create then (db, .error .storage)
  else
    let game := { game with ID := freshID (db.games.map (fun g => g.ID)) }
    ({ db with games := db.games ++ [game] }, .ok game)

def GetGame (f : Faults) (db : DB) (gameID : Nat) : Except Error Game :=
  if f.getGame then .error .storage
  else
    match findGame db.games gameID with
    | none => .error .ErrGameNotFound
    | some game => .ok game

def JoinGame (f : Faults) (db : DB) (gameID blackPlayerID : Nat) : DB × Except Error Game :=
  match GetGame f db gameID with
  | .error err => (db, .error err)
  | .ok game =>
    if game.Status ≠ .waiting then (db, .error .notWaiting)
    else if game.WhitePlayerID = some blackPlayerID then (db, .error .bothPlayers)
    else
      let game := { game with BlackPlayerID := some blackPlayerID, Status := .active }
      if f.save then (db, .error .storage)
      else ({ db with games := saveGame db.games game }, .ok game)

/-- Columns that `MakeMove` writes to the white player row, from the loaded row. -/
def whiteUpdates (whitePlayer : User) (newWhiteELO : Int) (outcomeStr : String) (row : User) :
    User :=
  let row := { row with ELORating := newWhiteELO, GamesPlayed := whitePlayer.GamesPlayed + 1 }
  if outcomeStr = GameResultWhiteWins then { row with Wins := whitePlayer.Wins + 1 }
  else if outcomeStr = GameResultBlackWins then { row with Losses := whitePlayer.Losses + 1 }
  else if outcomeStr = GameResultDraw then { row with Draws := whitePlayer.Draws + 1 }
  else row

/-- Columns that `MakeMove` writes to the black player row, from the loaded row. -/
def blackUpdates (blackPlayer : User) (newBlackELO : Int) (outcomeStr : String) (row : User) :
    User :=
  let row := { row with ELORating := newBlackELO, GamesPlayed := blackPlayer.GamesPlayed + 1 }
  if outcomeStr = GameResultWhiteWins then { row with Losses := blackPlayer.Losses + 1 }
  else if outcomeStr = GameResultBlackWins then { row with Wins := blackPlayer.Wins + 1 }
  else if outcomeStr = GameResultDraw then { row with Draws := blackPlayer.Draws + 1 }
  else row

/-- Rating and statistics block of `MakeMove` (lines 180-222): the `users` table
of the transaction after it. A player row that fails to load skips the block; the
result of each `Updates` call is not inspected. -/
def MakeMove.updateStats (Pow : ℚ → ℚ → ℚ) (f : Faults) (game : Game) (outcomeStr : String)
    (users : List User) : List User :=
  match game.WhitePlayerID, game.BlackPlayerID with
  | some whiteID, some blackID =>
    match (if f.firstWhite then none else findUser users whiteID) with
    | none => users
    | some whitePlayer =>
      match (if f.firstBlack then none else findUser users blackID) with
      | none => users
      | some blackPlayer =>
        let newELO := CalculateELO Pow whitePlayer.ELORating blackPlayer.ELORating outcomeStr
        let users :=
          if f.updatesWhite then users
          else updateUser whitePlayer.ID (whiteUpdates whitePlayer newELO.1 outcomeStr) users
        if f.updatesBlack then users
        else updateUser blackPlayer.ID (blackUpdates blackPlayer newELO.2 outcomeStr) users
  | _, _ => users

/-- Transaction of `MakeMove` (lines 149-235), entered with the loaded game, the
engine after the move and the move count. -/
def MakeMove.transaction (L : ChessLib P G M) (Pow : ℚ → ℚ → ℚ) (f : Faults) (db : DB)
    (game : Game) (engine : Engine G) (gameID playerID : Nat) (uci : String) (moveCount : Nat) :
    DB × Except Error Move :=
  let move : Move :=
    { ID := 0
      GameID := gameID
      PlayerID := playerID
      MoveNotation := uci
      BoardState := Engine.GetFEN L engine
      PlyNumber := moveCount + 1 }
  if f.create then (db, .error .storage)
  else
    let move := { move with ID := freshID (db.moves.map (fun m => m.ID)) }
    let tx : DB := { db with moves := db.moves ++ [move] }
    let game := { game with CurrentFEN := Engine.GetFEN L engine, PGN := Engine.GetPGN L engine }
    let outcomeStr := Engine.GetOutcome L engine
    let game :=
      if outcomeStr ≠ "" then { game with Status := .finished, Result := outcomeStr } else game
    let tx : DB :=
      if outcomeStr ≠ "" then
        { tx with users := MakeMove.updateStats Pow f game outcomeStr tx.users }
      else tx
    if f.save then (db, .error .storage)
    else
      let tx : DB := { tx with games := saveGame tx.games game }
      if f.commit then (db, .error .storage)
      else (tx, .ok move)

def MakeMove (L : ChessLib P G M) (Pow : ℚ → ℚ → ℚ) (f : Faults) (db : DB)
    (gameID playerID : Nat) (uci : String) : DB × Except Error Move :=
  match GetGame f db gameID with
  | .error err => (db, .error err)
  | .ok game =>
    let isWhite : Bool := decide (game.WhitePlayerID = some playerID)
    let isBlack : Bool := decide (game.BlackPlayerID = some playerID)
    if !isWhite && !isBlack then (db, .error .ErrNotInGame)
    else
      match NewEngineFromFEN L game.CurrentFEN with
      | .error err => (db, .error err)
      | .ok engine =>
        if isWhite && !Engine.IsWhiteTurn L engine then (db, .error .ErrNotYourTurn)
        else if isBlack && !Engine.IsBlackTurn L engine then (db, .error .ErrNotYourTurn)
        else
          match Engine.ValidateMove L engine uci with
          | some .chessErrInvalidMove => (db, .error .ErrInvalidMove)
          | some .chessErrIllegalMove => (db, .error .ErrIllegalMove)
          | some .chessErrGameFinished => (db, .error .ErrGameFinished)
          | some err => (db, .error err)
          | none =>
            match Engine.MakeMove L engine uci with
            | .error err => (db, .error err)
            | .ok engine =>
              let moveCount := if f.count then 0 else countMoves db.moves gameID
              MakeMove.transaction L Pow f db game engine gameID playerID uci moveCount

/-- Move row that the transaction of `MakeMove` inserts. -/
def MakeMove.moveRow (L : ChessLib P G M) (db : DB) (engine : Engine G) (gameID playerID : Nat)
    (uci : String) (moveCount : Nat) : Move :=
  { ID := freshID (db.moves.map (fun m => m.ID))
    GameID := gameID
    PlayerID := playerID
    MoveNotation := uci
    BoardState := Engine.GetFEN L engine
    PlyNumber := moveCount + 1 }

/-- Game row that the transaction of `MakeMove` saves. -/
def MakeMove.gameRow (L : ChessLib P G M) (game : Game) (engine : Engine G) : Game :=
  if Engine.GetOutcome L engine ≠ "" then
    { game with
      CurrentFEN := Engine.GetFEN L engine
      PGN := Engine.GetPGN L engine
      Status := .finished
      Result := Engine.GetOutcome L engine }
  else { game with CurrentFEN := Engine.GetFEN L engine, PGN := Engine.GetPGN L engine }

/-- Table `users` of the transaction of `MakeMove` when it commits. -/
def MakeMove.usersRows (L : ChessLib P G M) (Pow : ℚ → ℚ → ℚ) (f : Faults) (game : Game)
    (engine : Engine G) (users : List User) : List User :=
  if Engine.GetOutcome L engine ≠ "" then
    MakeMove.updateStats Pow f (MakeMove.gameRow L game engine) (Engine.GetOutcome L engine) users
  else users

/-- One call of `MakeMove` with the storage errors that occur during it. -/
structure MoveCall where
  faults : Faults
  gameID : Nat
  playerID : Nat
  uci : String
deriving DecidableEq

/-- Store after a sequence of `MakeMove` calls. -/
def runMoves (L : ChessLib P G M) (Pow : ℚ → ℚ → ℚ) : DB → List MoveCall → DB
  | db, [] => db
  | db, c :: cs => runMoves L Pow (MakeMove L Pow c.faults db c.gameID c.playerID c.uci).1 cs

/-- Move records returned by the successful calls of a sequence, in call order. -/
def returnedMoves (L : ChessLib P G M) (Pow : ℚ → ℚ → ℚ) : DB → List MoveCall → List Move
  | _, [] => []
  | db, c :: cs =>
    match MakeMove L Pow c.faults db c.gameID c.playerID c.uci with
    | (db', .ok move) => move :: returnedMoves L Pow db' cs
    | (db', .error _) => returnedMoves L Pow db' cs

/-- Move rows of one game, in insertion order. -/
def movesOf (db : DB) (gameID : Nat) : List Move :=
  db.moves.filter (fun m => m.GameID == gameID)

/-- User invariant of the data model: `games_played = wins + losses + draws`. -/
def User.statsConsistent (u : User) : Prop :=
  u.GamesPlayed = u.Wins + u.Losses + u.Draws

instance (u : User) : Decidable u.statsConsistent :=
  inferInstanceAs (Decidable (u.GamesPlayed = u.Wins + u.Losses + u.Draws))

/-- Game invariant of the data model: the two player ids differ when both are set. -/
def Game.playersDistinct (g : Game) : Prop :=
  g.WhitePlayerID = none ∨ g.WhitePlayerID ≠ g.BlackPlayerID

instance (g : Game) : Decidable g.playersDistinct :=
  inferInstanceAs (Decidable (g.WhitePlayerID = none ∨ g.WhitePlayerID ≠ g.BlackPlayerID))

/-! ## Registration (`internal/auth/service.go`) -/

/-- Library functions used by `Register`. -/
structure AuthEnv where
  /-- Function `strings.TrimSpace`. -/
  TrimSpace : String → String
  /-- Function `strings.ToLower`. -/
  ToLower : String → String
  /-- Function `bcrypt.GenerateFromPassword` at the default cost; `none` is an error. -/
  GenerateFromPassword : String → Option String

/-- Which gorm calls of `Register` report an error other than record-not-found. -/
structure RegisterFaults where
  firstEmail : Bool
  firstUsername : Bool
  create : Bool
deriving DecidableEq

def Register (env : AuthEnv) (f : RegisterFaults) (db : DB) (username email password : String) :
    DB × Except Error User :=
  let username := env.TrimSpace username
  let email := env.TrimSpace (env.ToLower email)
  let password := env.TrimSpace password
  if username = "" ∨ email = "" ∨ password = "" then (db, .error .fieldsRequired)
  else if f.firstEmail then (db, .error .storage)
  else if (db.users.find? (fun u => u.Email == email)).isSome then (db, .error .ErrEmailExists)
  else if f.firstUsername then (db, .error .storage)
  else if (db.users.find? (fun u => u.Username == username)).isSome then
    (db, .error .ErrUsernameExists)
  else
    match env.GenerateFromPassword password with
    | none => (db, .error .hashError)
    | some hashedPassword =>
      let user : User :=
        { ID := 0
          Username := username
          Email := email
          PasswordHash := hashedPassword
          AvatarURL := ""
          ELORating := 1200
          GamesPlayed := 0
          Wins := 0
          Losses := 0
          Draws := 0 }
      if f.create then (db, .error .storage)
      else
        let user := { user with ID := freshID (db.users.map (fun u => u.ID)) }
        ({ db with users := db.users ++ [user] }, .ok user)

/-! ## Sequences of service calls and the status invariants of the data model -/

/-- One call of the game service with the storage errors that occur during it. -/
inductive ServiceCall where
  | createGame (f : Faults) (whitePlayerID : Nat) (timeControl : Int)
  | joinGame (f : Faults) (gameID blackPlayerID : Nat)
  | makeMove (f : Faults) (gameID playerID : Nat) (uci : String)
deriving DecidableEq

/-- Store after one call of the game service. -/
def ServiceCall.run (L : ChessLib P G M) (Pow : ℚ → ℚ → ℚ) (db : DB) : ServiceCall → DB
  | .createGame f whitePlayerID timeControl => (CreateGame L f db whitePlayerID timeControl).1
  | .joinGame f gameID blackPlayerID => (JoinGame f db gameID blackPlayerID).1
  | .makeMove f gameID playerID uci => (MakeMove L Pow f db gameID playerID uci).1

/-- Store after a sequence of calls of the game service. -/
def runCalls (L : ChessLib P G M) (Pow : ℚ → ℚ → ℚ) : DB → List ServiceCall → DB
  | db, [] => db
  | db, c :: cs => runCalls L Pow (c.run L Pow db) cs

/-- Game row that `CreateGame` inserts. -/
def CreateGame.row (L : ChessLib P G M) (db : DB) (whitePlayerID : Nat) (timeControl : Int) :
    Game :=
  { ID := freshID (db.games.map (fun g => g.ID))
    WhitePlayerID := some whitePlayerID
    BlackPlayerID := none
    Status := .waiting
    Result := GameResultNone
    CurrentFEN := Engine.GetFEN L (NewEngine L)
    PGN := ""
    TimeControl := if timeControl ≤ 0 then 600 else timeControl
    WhiteTimeLeft := if timeControl ≤ 0 then 600 else timeControl
    BlackTimeLeft := if timeControl ≤ 0 then 600 else timeControl }

/-- Place of a status in the order waiting, active, finished. -/
def GameStatus.rank : GameStatus → Nat
  | .waiting => 0
  | .active => 1
  | .finished => 2

/-- Waiting-game invariant of the data model: a waiting game has no black player,
no result and the canonical starting position. -/
def Game.waitingInvariant (L : ChessLib P G M) (g : Game) : Prop :=
  g.Status = .waiting →
    g.BlackPlayerID = none ∧ g.Result = GameResultNone ∧
      g.CurrentFEN = Engine.GetFEN L (NewEngine L)

instance (L : ChessLib P G M) (g : Game) : Decidable (g.waitingInvariant L) :=
  inferInstanceAs (Decidable (_ → _))

/-- Waiting-game invariant that the service keeps: a waiting game has no black
player and no result, and it has the canonical starting position as long as no
move row of the game is stored. -/
def Game.waitingUntilMove (L : ChessLib P G M) (db : DB) (g : Game) : Prop :=
  g.Status = .waiting →
    g.BlackPlayerID = none ∧ g.Result = GameResultNone ∧
      (movesOf db g.ID = [] → g.CurrentFEN = Engine.GetFEN L (NewEngine L))

instance (L : ChessLib P G M) (db : DB) (g : Game) : Decidable (g.waitingUntilMove L db) :=
  inferInstanceAs (Decidable (_ → _))

/-- Invariants of the data model for active and finished games, and the
distinctness of the two players. -/
def Game.statusInvariant (g : Game) : Prop :=
  (g.Status = .active →
      g.WhitePlayerID ≠ none ∧ g.BlackPlayerID ≠ none ∧ g.WhitePlayerID ≠ g.BlackPlayerID ∧
        g.Result = GameResultNone) ∧
    (g.Status = .finished →
      g.WhitePlayerID ≠ none ∧ g.BlackPlayerID ≠ none ∧ g.Result ≠ GameResultNone) ∧
    g.playersDistinct

instance (g : Game) : Decidable g.statusInvariant :=
  inferInstanceAs (Decidable (_ ∧ _ ∧ _))

/-- Facts of chess about the first move, as the service meets them: a move made
in the starting position, loaded from its FEN text, does not end the game, and in
the position after it, loaded from its FEN text, white is not to move. -/
def ChessLib.firstMoveSound (L : ChessLib P G M) : Prop :=
  ∀ (engine engine2 : Engine G) (uci : String),
    NewEngineFromFEN L (Engine.GetFEN L (NewEngine L)) = .ok engine →
    Engine.MakeMove L engine uci = .ok engine2 →
    Engine.GetOutcome L engine2 = "" ∧
      ∀ engine3, NewEngineFromFEN L (Engine.GetFEN L engine2) = .ok engine3 →
        Engine.IsWhiteTurn L engine3 = false

/-- Invariant of the game rows kept by the three service calls, from which the
status invariants follow: white is set, the players are distinct, a waiting game has
no black player and no result and is in the starting position or in a position in
which white is not to move, an active game has a black player and no result, a
finished game has a black player and a result. -/
def Game.serviceInvariant (L : ChessLib P G M) (g : Game) : Prop :=
  g.WhitePlayerID ≠ none ∧ g.playersDistinct ∧
    (g.Status = .waiting →
      g.BlackPlayerID = none ∧ g.Result = GameResultNone ∧
        (g.CurrentFEN = Engine.GetFEN L (NewEngine L) ∨
          ∀ engine, NewEngineFromFEN L g.CurrentFEN = .ok engine →
            Engine.IsWhiteTurn L engine = false)) ∧
    (g.Status = .active → g.BlackPlayerID ≠ none ∧ g.Result = GameResultNone) ∧
    (g.Status = .finished → g.BlackPlayerID ≠ none ∧ g.Result ≠ GameResultNone)

/-- Fact of chess about final positions, as the service meets them: when a move
made in a position loaded from FEN text ends the game, the FEN text of the position
after the move loads, and the game loaded from it has ended. -/
def ChessLib.finalPositionSound (L : ChessLib P G M) : Prop :=
  ∀ (fen : String) (engine engine2 : Engine G) (uci : String),
    NewEngineFromFEN L fen = .ok engine →
    Engine.MakeMove L engine uci = .ok engine2 →
    Engine.GetOutcome L engine2 ≠ "" →
    ∃ engine3, NewEngineFromFEN L (Engine.GetFEN L engine2) = .ok engine3 ∧
      L.Outcome engine3.game ≠ .NoOutcome

/-- Invariant of the finished game rows kept by the three service calls: the
position of a finished game loads, and the game loaded from it has ended. -/
def Game.finishedTerminal (L : ChessLib P G M) (g : Game) : Prop :=
  g.Status = .finished →
    ∃ engine, NewEngineFromFEN L g.CurrentFEN = .ok engine ∧ L.Outcome engine.game ≠ .NoOutcome

/-! ## Matchmaking (`internal/game/matchmaking.go`)

Instants and durations are integers, in nanoseconds as in package `time`. One call
of `JoinQueue` reads the clock once: `now` stands for `time.Now()` and
`time.Since(t)` is `now - t`. The calls of `CreateGame` in this file pass one
argument to a function of two; the time control that is passed is the parameter
`timeControl`. -/

def ELOMatchRange : Int := 100

/-- Duration `time.Second`. -/
def Second : Int := 1000000000

def MaxWaitTime : Int := 30 * Second

def ExpandedELORange : Int := 200

structure QueueEntry where
  UserID : Nat
  ELO : Int
  EnteredAt : Int
deriving DecidableEq

structure MatchmakingService where
  queue : List QueueEntry
  db : DB
deriving DecidableEq

def abs (x : Int) : Int :=
  if x < 0 then -x else x

/-- Loop `for i, entry := range queue` that stops at the first entry for which
the test holds: the index and the entry, `none` when the loop runs to the end. -/
def rangeFind (p : QueueEntry → Bool) : List QueueEntry → Option (Nat × QueueEntry)
  | [] => none
  | entry :: rest =>
    if p entry then some (0, entry)
    else
      match rangeFind p rest with
      | some (i, found) => some (i + 1, found)
      | none => none

/-- Test of the second loop of `JoinQueue` (lines 59-69). -/
def JoinQueue.compatible (elo now : Int) (entry : QueueEntry) : Bool :=
  let eloDiff := abs (elo - entry.ELO)
  let waitTime := now - entry.EnteredAt
  let maxDiff := if waitTime > MaxWaitTime then ExpandedELORange else ELOMatchRange
  decide (eloDiff ≤ maxDiff)

/-- Method `JoinQueue`: the service after the call and the returned pair, where
`.ok none` is `nil, nil` (still waiting) and `.ok (some game)` is the matched game. -/
def JoinQueue (L : ChessLib P G M) (f : Faults) (now timeControl : Int) (m : MatchmakingService)
    (userID : Nat) (elo : Int) : MatchmakingService × Except Error (Option Game) :=
  match rangeFind (fun entry => entry.UserID == userID) m.queue with
  | some (i, entry) => ({ m with queue := m.queue.set i { entry with ELO := elo } }, .ok none)
  | none =>
    match rangeFind (JoinQueue.compatible elo now) m.queue with
    | some (i, entry) =>
      let queue := m.queue.take i ++ m.queue.drop (i + 1)
      match CreateGame L f m.db userID timeControl with
      | (db, .error err) => ({ queue := queue, db := db }, .error err)
      | (db, .ok game) =>
        match JoinGame f db game.ID entry.UserID with
        | (db, .error err) => ({ queue := queue, db := db }, .error err)
        | (db, .ok game) => ({ queue := queue, db := db }, .ok (some game))
    | none =>
      ({ m with queue := m.queue ++ [{ UserID := userID, ELO := elo, EnteredAt := now }] },
        .ok none)

def LeaveQueue (m : MatchmakingService) (userID : Nat) : MatchmakingService :=
  match rangeFind (fun entry => entry.UserID == userID) m.queue with
  | some (i, _) => { m with queue := m.queue.take i ++ m.queue.drop (i + 1) }
  | none => m

def GetQueuePosition (m : MatchmakingService) (userID : Nat) : Int :=
  match rangeFind (fun entry => entry.UserID == userID) m.queue with
  | some (i, _) => i + 1
  | none => -1

/-- Rating band of the specification for a waiting entry: 200 when the entry has
waited strictly more than 30 seconds, 100 otherwise. -/
def specBand (now : Int) (e : QueueEntry) : Int :=
  if now - e.EnteredAt > 30 * Second then 200 else 100

/-- Pairing condition of the specification: the rating difference is within the band. -/
def specWithinBand (r now : Int) (e : QueueEntry) : Prop :=
  |r - e.ELO| ≤ specBand now e

instance (r now : Int) (e : QueueEntry) : Decidable (specWithinBand r now e) :=
  inferInstanceAs (Decidable (|r - e.ELO| ≤ specBand now e))

/-- One call of the matchmaking service that changes it. -/
inductive QueueCall where
  | join (f : Faults) (now timeControl : Int) (userID : Nat) (elo : Int)
  | leave (userID : Nat)
deriving DecidableEq

/-- Matchmaking service after a sequence of calls. -/
def runQueue (L : ChessLib P G M) : MatchmakingService → List QueueCall → MatchmakingService
  | m, [] => m
  | m, .join f now timeControl userID elo :: cs =>
    runQueue L (JoinQueue L f now timeControl m userID elo).1 cs
  | m, .leave userID :: cs => runQueue L (LeaveQueue m userID) cs

/-! ## Session hub (`internal/game/hub.go`)

A `*Client` is the record of its fields together with the address the pointer
holds; no field of a client is written after its creation. The channel `Send` of
a client lives on the heap: the state of the hub keeps, next to the registry, the
state of the channel of every client. The inner map of the registry, a set of
clients, is the list of its keys, each client once; a `range` over a map visits
the keys in an order that Go does not fix, and `deliverAll_perm` shows that the
order does not matter to a broadcast. The loop of `Run` takes one
event at a time from its three channels; it is the only code that reads or writes
the registry. A step of the loop that panics ends the run. -/

/-- Frames that `internal/game/websocket.go` puts on an outbound channel. -/
inductive Frame where
  | gameState (gameId : Nat) (fen : String) (status : GameStatus) (result : GameResult)
      (whitePlayerId blackPlayerId : Option Nat) (isWhite : Bool)
  | move (move : Move) (fen : String) (status : GameStatus) (result : GameResult)
  | error (error : String)
deriving DecidableEq

structure Client where
  /-- Address of the client, the value of the pointer. -/
  addr : Nat
  GameID : Nat
  UserID : Nat
deriving DecidableEq

/-- State of a buffered Go channel of frames: the pending frames, oldest first,
the capacity, and whether the channel is closed. -/
structure Chan where
  buf : List Frame
  cap : Nat
  closed : Bool
deriving DecidableEq

/-- Run-time panics of channel operations. -/
inductive Panic where
  /-- Panic `close of closed channel`. -/
  | closeOfClosedChannel
  /-- Panic `send on closed channel`. -/
  | sendOnClosedChannel
deriving DecidableEq

/-- Expression `make(chan interface{}, cap)`. -/
def Chan.make (cap : Nat) : Chan :=
  { buf := [], cap := cap, closed := false }

/-- Statement `close(ch)`. -/
def Chan.close (ch : Chan) : Except Panic Chan :=
  if ch.closed then .error .closeOfClosedChannel else .ok { ch with closed := true }

/-- Non-blocking send `select { case ch <- v: default: }`: the channel after the
send, `none` when the buffer is full and the `default` branch runs. -/
def Chan.trySend (ch : Chan) (v : Frame) : Except Panic (Option Chan) :=
  if ch.closed then .error .sendOnClosedChannel
  else if ch.buf.length < ch.cap then .ok (some { ch with buf := ch.buf ++ [v] })
  else .ok none

structure BroadcastMessage where
  GameID : Nat
  Data : Frame
deriving DecidableEq

/-- Registry of the hub and the heap of outbound channels: `clients gameID` is the
inner map of the key `gameID`, `none` when the registry has no such key, and
`Send client` is the state of the channel `client.Send`. -/
structure Hub where
  clients : Nat → Option (List Client)
  Send : Client → Chan

/-- Function `NewHub`: the empty registry, over a heap of channels. -/
def NewHub (Send : Client → Chan) : Hub :=
  { clients := fun _ => none, Send := Send }

/-- Branch `case client := <-h.register` of `Run` (lines 44-50). -/
def Hub.onRegister (h : Hub) (client : Client) : Hub :=
  let clients :=
    match h.clients client.GameID with
    | none => []
    | some clients => clients
  { h with
    clients := Function.update h.clients client.GameID
      (some (if client ∈ clients then clients else clients ++ [client])) }

/-- Branch `case client := <-h.unregister` of `Run` (lines 52-63). -/
def Hub.onUnregister (h : Hub) (client : Client) : Except Panic Hub :=
  match h.clients client.GameID with
  | some clients =>
    if client ∈ clients then
      let clients := clients.filter (fun c => c ≠ client)
      match (h.Send client).close with
      | .error p => .error p
      | .ok ch =>
        .ok { clients :=
                if clients.length = 0 then Function.update h.clients client.GameID none
                else Function.update h.clients client.GameID (some clients)
              Send := Function.update h.Send client ch }
    else .ok h
  | none => .ok h

/-- Statement `delete(h.clients[client.GameID], client)` on the registry. Deleting
from the inner map of a key that the registry does not have is a no-op. -/
def Hub.delete (clients : Nat → Option (List Client)) (client : Client) :
    Nat → Option (List Client) :=
  match clients client.GameID with
  | none => clients
  | some inner =>
    Function.update clients client.GameID (some (inner.filter (fun c => c ≠ client)))

/-- Body of the loop over `clientsCopy` in `Run` (lines 75-82), for one client. -/
def Hub.deliver (Data : Frame) (h : Hub) (client : Client) : Except Panic Hub :=
  match (h.Send client).trySend Data with
  | .error p => .error p
  | .ok (some ch) => .ok { h with Send := Function.update h.Send client ch }
  | .ok none =>
    match (h.Send client).close with
    | .error p => .error p
    | .ok ch =>
      .ok { clients := Hub.delete h.clients client
            Send := Function.update h.Send client ch }

/-- Loop `for _, client := range clientsCopy` of `Run` (lines 74-83). -/
def Hub.deliverAll (Data : Frame) : Hub → List Client → Except Panic Hub
  | h, [] => .ok h
  | h, client :: rest =>
    match Hub.deliver Data h client with
    | .error p => .error p
    | .ok h => Hub.deliverAll Data h rest

/-- Branch `case message := <-h.broadcast` of `Run` (lines 65-83): the snapshot
`clientsCopy` of the inner map of the game, then the loop over it. -/
def Hub.onBroadcast (h : Hub) (message : BroadcastMessage) : Except Panic Hub :=
  let clients :=
    match h.clients message.GameID with
    | none => []
    | some clients => clients
  let clientsCopy := clients
  Hub.deliverAll message.Data h clientsCopy

/-- An event that the loop of `Run` receives. -/
inductive HubEvent where
  | register (client : Client)
  | unregister (client : Client)
  | broadcast (message : BroadcastMessage)
deriving DecidableEq

/-- One iteration of the loop of `Run`. -/
def Hub.step (h : Hub) : HubEvent → Except Panic Hub
  | .register client => .ok (h.onRegister client)
  | .unregister client => h.onUnregister client
  | .broadcast message => h.onBroadcast message

/-- Method `Run` on a finite sequence of events. -/
def Hub.Run : Hub → List HubEvent → Except Panic Hub
  | h, [] => .ok h
  | h, event :: events =>
    match h.step event with
    | .error p => .error p
    | .ok h => Hub.Run h events

/-- The client is in the inner map of the game. -/
def Hub.registered (h : Hub) (gameID : Nat) (client : Client) : Prop :=
  match h.clients gameID with
  | none => False
  | some clients => client ∈ clients

instance (h : Hub) (gameID : Nat) (client : Client) : Decidable (h.registered gameID client) := by
  unfold Hub.registered
  split <;> infer_instance

/-- The registry of the hub is well formed: an inner map holds each of its
clients once, under the game of the client, and the channel of a registered client
is open. -/
def Hub.wellFormed (h : Hub) : Prop :=
  ∀ gameID clients, h.clients gameID = some clients →
    clients.Nodup ∧
      ∀ client ∈ clients, client.GameID = gameID ∧ (h.Send client).closed = false

/-- The clients of the register events of a sequence, in order. -/
def registrations : List HubEvent → List Client
  | [] => []
  | .register client :: events => client :: registrations events
  | _ :: events => registrations events

/-- Invariant of a run of the hub in which the clients of `seen` have been
registered: the registry is well formed, a registered client is in `seen`, and so
is a client whose channel is closed. -/
def Hub.invariant (h : Hub) (seen : List Client) : Prop :=
  h.wellFormed ∧
    (∀ gameID clients, h.clients gameID = some clients → ∀ client ∈ clients, client ∈ seen) ∧
    ∀ client, (h.Send client).closed = true → client ∈ seen

/-! ## Tokens (`internal/auth/jwt.go`)

The library `github.com/golang-jwt/jwt/v5` is not part of the repository. Its
function `ParseWithClaims`, called with a key function that returns the secret,
is the field of `JWTLib`; it stands for the call at the instant of the request,
which is what the expiry of a token is compared with. -/

structure Claims where
  UserID : Nat
  Username : String
  /-- Field `Type` of the source: `"access"` or `"refresh"`. -/
  TokenType : String
deriving DecidableEq

def TokenTypeAccess : String := "access"

def TokenTypeRefresh : String := "refresh"

inductive TokenError where
  /-- An error of `jwt.ParseWithClaims`: the token is malformed, its signature does
  not match the secret, or it has expired. -/
  | parse
  /-- Value `jwt.ErrTokenInvalidClaims`. -/
  | ErrTokenInvalidClaims
deriving DecidableEq

/-- Function `jwt.ParseWithClaims` applied to the token string and the secret: an
error, or the claims of the token and its field `Valid`. -/
structure JWTLib where
  ParseWithClaims : String → String → Except TokenError (Claims × Bool)

def ValidateToken (J : JWTLib) (tokenString secret : String) : Except TokenError Claims :=
  match J.ParseWithClaims tokenString secret with
  | .error err => .error err
  | .ok (claims, valid) =>
    if !valid then .error .ErrTokenInvalidClaims
    else .ok claims

def ValidateAccessToken (J : JWTLib) (tokenString secret : String) :
    Except TokenError Claims :=
  match ValidateToken J tokenString secret with
  | .error err => .error err
  | .ok claims =>
    if claims.TokenType ≠ TokenTypeAccess then .error .ErrTokenInvalidClaims
    else .ok claims

def ValidateRefreshToken (J : JWTLib) (tokenString secret : String) :
    Except TokenError Claims :=
  match ValidateToken J tokenString secret with
  | .error err => .error err
  | .ok claims =>
    if claims.TokenType ≠ TokenTypeRefresh then .error .ErrTokenInvalidClaims
    else .ok claims

/-! ## Session endpoint (`internal/game/websocket.go`)

`HandleWebSocket` hands the new client to the loop of the hub and then puts the
first frame on the channel of the client; here the loop registers the client
before anything else happens. The address of the new client is an argument, as is
the outcome of `upgrader.Upgrade`. -/

/-- Function `strconv.ParseUint(s, 10, bitSize)`: a non-empty string of decimal
digits whose value is below `2 ^ bitSize`. -/
def ParseUint (s : String) (bitSize : Nat) : Option Nat :=
  if s.data = [] then none
  else if s.data.all Char.isDigit then
    let n := s.data.foldl (fun n c => 10 * n + (c.toNat - 48)) 0
    if n < 2 ^ bitSize then some n else none
  else none

def StatusBadRequest : Nat := 400

def StatusUnauthorized : Nat := 401

def StatusForbidden : Nat := 403

def StatusNotFound : Nat := 404

/-- What `HandleWebSocket` answers. -/
inductive Response where
  /-- Call `c.JSON(status, gin.H{"error": error})`. -/
  | json (status : Nat) (error : String)
  /-- The upgrade failed; `upgrader.Upgrade` has replied. -/
  | upgradeFailed
  /-- The connection is upgraded and the two pumps run for the client. -/
  | session (client : Client)
deriving DecidableEq

structure WSHandler where
  hub : Hub
  /-- Store of the game service. -/
  service : DB
  /-- Field `config.JWTSecret`. -/
  JWTSecret : String

/-- Method `HandleWebSocket` for the path parameter `id` and the query parameter
`token`: the hub afterwards and the answer. -/
def HandleWebSocket (J : JWTLib) (f : Faults) (upgrade : Bool) (addr : Nat) (h : WSHandler)
    (id token : String) : Hub × Response :=
  match ParseUint id 32 with
  | none => (h.hub, .json StatusBadRequest "invalid game ID")
  | some gameID =>
    if token = "" then (h.hub, .json StatusUnauthorized "token required")
    else
      match ValidateToken J token h.JWTSecret with
      | .error _ => (h.hub, .json StatusUnauthorized "invalid token")
      | .ok claims =>
        let userID := claims.UserID
        match GetGame f h.service gameID with
        | .error _ => (h.hub, .json StatusNotFound "game not found")
        | .ok game =>
          let isWhite := decide (game.WhitePlayerID = some userID)
          let isBlack := decide (game.BlackPlayerID = some userID)
          if !isWhite && !isBlack then
            (h.hub, .json StatusForbidden "not a player in this game")
          else if !upgrade then (h.hub, .upgradeFailed)
          else
            let client : Client := { addr := addr, GameID := gameID, UserID := userID }
            let hub := { h.hub with Send := Function.update h.hub.Send client (Chan.make 256) }
            let hub := hub.onRegister client
            let initialState :=
              Frame.gameState game.ID game.CurrentFEN game.Status game.Result
                game.WhitePlayerID game.BlackPlayerID isWhite
            let ch := hub.Send client
            ({ hub with
                Send := Function.update hub.Send client
                  { ch with buf := ch.buf ++ [initialState] } },
              .session client)

/-! ## A finite excerpt of the rules: the Fool's mate line

The positions of the line `f2f3 e7e5 g2g4 d8h4` from the starting position, with
the moves of that line as the legal moves. It serves to run the service on
concrete stores. -/

def fen0 : String := "rnbqkbnr/pppppppp/8/8/8/8/PPPPPPPP/RNBQKBNR w KQkq - 0 1"

def fen1 : String := "rnbqkbnr/pppppppp/8/8/8/5P2/PPPPP1PP/RNBQKBNR b KQkq - 0 1"

def fen2 : String := "rnbqkbnr/pppp1ppp/8/4p3/8/5P2/PPPPP1PP/RNBQKBNR w KQkq e6 0 2"

def fen3 : String := "rnbqkbnr/pppp1ppp/8/4p3/6P1/5P2/PPPPP2P/RNBQKBNR b KQkq g3 0 2"

def fen4 : String := "rnb1kbnr/pppp1ppp/8/4p3/6Pq/5P2/PPPPP2P/RNBQKBNR w KQkq - 1 3"

/-- Game of the excerpt: the position and the moves played. -/
structure LineGame where
  pos : String
  log : List String
deriving DecidableEq

/-- Legal moves of the excerpt: position, move, position after the move. -/
def lineTable : List (String × String × String) :=
  [(fen0, "f2f3", fen1), (fen1, "e7e5", fen2), (fen2, "g2g4", fen3), (fen3, "d8h4", fen4)]

/-- Rules library restricted to the Fool's mate line. A move text decodes when it
has four or five characters; the last position is checkmate of white. -/
def lineLib : ChessLib String LineGame String where
  FEN s := if s ∈ [fen0, fen1, fen2, fen3, fen4] then some s else none
  NewGame o := { pos := o.getD fen0, log := [] }
  Position g := g.pos
  Turn p := if p ∈ [fen0, fen2, fen4] then .White else if p ∈ [fen1, fen3] then .Black else .NoColor
  PositionString p := p
  Outcome g := if g.pos = fen4 then .BlackWon else .NoOutcome
  Decode _ s := if s.length = 4 ∨ s.length = 5 then some s else none
  ValidMoves g := (lineTable.filter (fun t => t.1 == g.pos)).map (fun t => t.2.1)
  MoveString m := m
  Move g m :=
    match lineTable.find? (fun t => t.1 == g.pos && t.2.1 == m) with
    | some t => some { pos := t.2.2, log := g.log ++ [m] }
    | none => none
  GameString g := " ".intercalate g.log

/-- Stand-in for `math.Pow`, exact at integral exponents: the power at the floor
of the exponent. -/
def powFloor (b x : ℚ) : ℚ :=
  b ^ ⌊x⌋

def alice : User :=
  { ID := 1, Username := "alice", Email := "alice@example.org", PasswordHash := "h1",
    AvatarURL := "", ELORating := 1200, GamesPlayed := 0, Wins := 0, Losses := 0, Draws := 0 }

def bob : User :=
  { ID := 2, Username := "bob", Email := "bob@example.org", PasswordHash := "h2",
    AvatarURL := "", ELORating := 1200, GamesPlayed := 0, Wins := 0, Losses := 0, Draws := 0 }

/-- Game 1 of the scenario at a given status, result, position and log. -/
def game1 (black : Option Nat) (st : GameStatus) (res fen pgn : String) : Game :=
  { ID := 1, WhitePlayerID := some 1, BlackPlayerID := black, Status := st, Result := res,
    CurrentFEN := fen, PGN := pgn, TimeControl := 600, WhiteTimeLeft := 600,
    BlackTimeLeft := 600 }

def move1 : Move :=
  { ID := 1, GameID := 1, PlayerID := 1, MoveNotation := "f2f3", BoardState := fen1,
    PlyNumber := 1 }

def move2 : Move :=
  { ID := 2, GameID := 1, PlayerID := 2, MoveNotation := "e7e5", BoardState := fen2,
    PlyNumber := 2 }

def move3 : Move :=
  { ID := 3, GameID := 1, PlayerID := 1, MoveNotation := "g2g4", BoardState := fen3,
    PlyNumber := 3 }

def move4 : Move :=
  { ID := 4, GameID := 1, PlayerID := 2, MoveNotation := "d8h4", BoardState := fen4,
    PlyNumber := 4 }

/-- Store with the two registered users and no game. -/
def dbUsers : DB :=
  { users := [alice, bob], games := [], moves := [] }

/-- Store after alice created game 1. -/
def dbWaiting : DB :=
  { users := [alice, bob], games := [game1 none .waiting "" fen0 ""], moves := [] }

/-- Store after bob joined game 1. -/
def dbActive : DB :=
  { users := [alice, bob], games := [game1 (some 2) .active "" fen0 ""], moves := [] }

/-- Store after `f2f3`. -/
def dbPly1 : DB :=
  { users := [alice, bob], games := [game1 (some 2) .active "" fen1 "f2f3"], moves := [move1] }

/-- Store after `f2f3 e7e5 g2g4`. -/
def dbPly3 : DB :=
  { users := [alice, bob], games := [game1 (some 2) .active "" fen3 "g2g4"],
    moves := [move1, move2, move3] }

/-- The four moves of the line, with a rejected call of white after the first. -/
def lineCalls : List MoveCall :=
  [{ faults := noFaults, gameID := 1, playerID := 1, uci := "f2f3" },
   { faults := noFaults, gameID := 1, playerID := 1, uci := "f3f4" },
   { faults := noFaults, gameID := 1, playerID := 2, uci := "e7e5" },
   { faults := noFaults, gameID := 1, playerID := 1, uci := "g2g4" },
   { faults := noFaults, gameID := 1, playerID := 2, uci := "d8h4" }]

/-- Store after the mating move `d8h4`. -/
def dbMate : DB :=
  { users := [{ alice with ELORating := 1184, GamesPlayed := 1, Losses := 1 },
              { bob with ELORating := 1216, GamesPlayed := 1, Wins := 1 }],
    games := [game1 (some 2) .finished "black_wins" fen4 "d8h4"],
    moves := [move1, move2, move3, move4] }

/-- Queue entry of user 1, rated 1500, entered at instant 0. -/
def entryA : QueueEntry :=
  { UserID := 1, ELO := 1500, EnteredAt := 0 }

/-- Queue entry of user 2, rated 1700, entered at instant 0. -/
def entryB : QueueEntry :=
  { UserID := 2, ELO := 1700, EnteredAt := 0 }

/-- Game 1 as `JoinQueue` stores it when user 2 calls and user 1 waits. -/
def gamePaired : Game :=
  { ID := 1, WhitePlayerID := some 2, BlackPlayerID := some 1, Status := .active, Result := "",
    CurrentFEN := fen0, PGN := "", TimeControl := 600, WhiteTimeLeft := 600,
    BlackTimeLeft := 600 }

/-- Store after that pairing. -/
def dbPaired : DB :=
  { users := [alice, bob], games := [gamePaired], moves := [] }

/-- Store after alice created game 1 and moved `f2f3` in it before anyone joined. -/
def dbWaitingMoved : DB :=
  { users := [alice, bob], games := [game1 none .waiting "" fen1 "f2f3"], moves := [move1] }

/-- Client of user 1 on game 1. -/
def clientA : Client :=
  { addr := 1, GameID := 1, UserID := 1 }

/-- Client of user 2 on game 1. -/
def clientB : Client :=
  { addr := 2, GameID := 1, UserID := 2 }

def frameErr : Frame :=
  .error "not your turn"

/-- Heap on which every channel is as `HandleWebSocket` makes it. -/
def heapFresh : Client → Chan :=
  fun _ => Chan.make 256

/-- Tokens of user 1 under the secret `"key"`: the token `"a1"` of type access and
the token `"r1"` of type refresh, both signed with the secret and not expired. -/
def tokenLib : JWTLib :=
  { ParseWithClaims := fun tokenString secret =>
      if secret = "key" then
        if tokenString = "a1" then
          .ok ({ UserID := 1, Username := "alice", TokenType := "access" }, true)
        else if tokenString = "r1" then
          .ok ({ UserID := 1, Username := "alice", TokenType := "refresh" }, true)
        else .error .parse
      else .error .parse }

/-- Handler over the empty hub and the store in which game 1 is active. -/
def wsHandler : WSHandler :=
  { hub := NewHub heapFresh, service := dbActive, JWTSecret := "key" }

/-- Heap on which the channel of `clientA` holds 256 pending frames and every
other channel is fresh. -/
def heapSlow : Client → Chan :=
  fun c =>
    if c = clientA then { buf := List.replicate 256 frameErr, cap := 256, closed := false }
    else Chan.make 256

/-- Hub with `clientA`, which does not drain its channel, and `clientB` on game 1. -/
def hubSlow : Hub :=
  ((NewHub heapSlow).onRegister clientA).onRegister clientB

/-- Hub with `clientA` and `clientB` on game 1, their channels fresh. -/
def hubPair : Hub :=
  ((NewHub heapFresh).onRegister clientA).onRegister clientB

/-- Hub `hubPair` after `clientA` is unregistered. -/
def hubLeft : Hub :=
  { clients := Function.update hubPair.clients 1 (some [clientB])
    Send := Function.update hubPair.Send clientA { buf := [], cap := 256, closed := true } }

/-- Calls of the game service that play the Fool's mate: alice creates game 1, bob
joins it, and the four moves follow. -/
def mateCalls : List ServiceCall :=
  [.createGame noFaults 1 600, .joinGame noFaults 1 2, .makeMove noFaults 1 1 "f2f3",
   .makeMove noFaults 1 2 "e7e5", .makeMove noFaults 1 1 "g2g4", .makeMove noFaults 1 2 "d8h4"]

/-! ## Rating calculator: lemmas -/

theorem toInt_intCast (n : Int) : toInt (n : ℚ) = n := by
  simp [toInt]

theorem toInt_Round (x : ℚ) :
    toInt (Round x) = if x < 0 then -⌊-x + 1 / 2⌋ else ⌊x + 1 / 2⌋ := by
  unfold Round
  split_ifs
  · rw [← Int.cast_neg, toInt_intCast]
  · exact toInt_intCast _

theorem toInt_Round_neg (x : ℚ) : toInt (Round (-x)) = -toInt (Round x) := by
  rw [toInt_Round, toInt_Round]
  rcases lt_trichotomy x 0 with h | h | h
  · have h2 : ¬ (-x < 0) := by linarith
    simp [h, h2]
  · subst h
    norm_num
  · have h2 : ¬ (x < 0) := by linarith
    have h3 : -x < 0 := by linarith
    simp [h2, h3]

theorem toInt_Round_nonneg (x : ℚ) (h : 0 ≤ x) : 0 ≤ toInt (Round x) := by
  rw [toInt_Round, if_neg (not_lt.mpr h)]
  exact Int.floor_nonneg.mpr (by linarith)

theorem toInt_Round_le (x : ℚ) (h : 0 ≤ x) (h32 : x ≤ 32) : toInt (Round x) ≤ 32 := by
  rw [toInt_Round, if_neg (not_lt.mpr h)]
  have : ⌊x + 1 / 2⌋ < 33 := by
    rw [Int.floor_lt]
    push_cast
    linarith
  omega

theorem toInt_Round_bounds (x : ℚ) (hlo : -32 ≤ x) (hhi : x ≤ 32) :
    -32 ≤ toInt (Round x) ∧ toInt (Round x) ≤ 32 := by
  rcases le_or_lt 0 x with h | h
  · have h1 := toInt_Round_nonneg x h
    have h2 := toInt_Round_le x h hhi
    omega
  · have h1 := toInt_Round_nonneg (-x) (by linarith)
    have h2 := toInt_Round_le (-x) (by linarith) (by linarith)
    rw [toInt_Round_neg] at h1 h2
    omega

theorem expected_bounds (Pow : ℚ → ℚ → ℚ) (hPow : ∀ x, 0 ≤ Pow 10 x) (x : ℚ) :
    0 ≤ 1 / (1 + Pow 10 x) ∧ 1 / (1 + Pow 10 x) ≤ 1 := by
  have h := hPow x
  constructor
  · positivity
  · rw [div_le_one (by linarith)]
    linarith

theorem powFloor_nonneg (x : ℚ) : 0 ≤ powFloor 10 x := by
  unfold powFloor
  positivity

theorem wrapInt_eq (x : Int) (hlo : -9223372036854775808 ≤ x)
    (hhi : x ≤ 9223372036854775807) : wrapInt x = x := by
  unfold wrapInt
  norm_num
  omega

theorem MaxInt_eq : MaxInt = 9223372036854775807 := by
  norm_num [MaxInt]

/-- Result of `CalculateELO` on a known outcome, from the two actual scores. -/
theorem CalculateELO_scored (Pow : ℚ → ℚ → ℚ) (w b : Int) (result : String) (aw ab : ℚ)
    (h : result = "white_wins" ∧ aw = 1 ∧ ab = 0 ∨ result = "black_wins" ∧ aw = 0 ∧ ab = 1 ∨
      result = "draw" ∧ aw = 1 / 2 ∧ ab = 1 / 2) :
    CalculateELO Pow w b result =
      (if wrapInt (w + toInt (Round (32 * (aw - 1 / (1 + Pow 10 ((wrapInt (b - w) : ℚ) / 400)))))) < 0
        then 0
        else wrapInt (w + toInt (Round (32 * (aw - 1 / (1 + Pow 10 ((wrapInt (b - w) : ℚ) / 400)))))),
       if wrapInt (b +
            toInt (Round (32 * (ab - (1 - 1 / (1 + Pow 10 ((wrapInt (b - w) : ℚ) / 400))))))) < 0
        then 0
        else wrapInt (b +
          toInt (Round (32 * (ab - (1 - 1 / (1 + Pow 10 ((wrapInt (b - w) : ℚ) / 400)))))))) := by
  rcases h with ⟨h, h1, h2⟩ | ⟨h, h1, h2⟩ | ⟨h, h1, h2⟩ <;> subst h h1 h2 <;>
    simp [CalculateELO]

/-- The two rating changes that `CalculateELO` adds on a known outcome lie between
-32 and 32, and on a decisive outcome they are opposite, the change of the winner
not negative. The power function has non-negative values at base 10. -/
theorem delta_bounds (Pow : ℚ → ℚ → ℚ) (hPow : ∀ x, 0 ≤ Pow 10 x) (x : ℚ) (result : String)
    (aw ab : ℚ)
    (h : result = "white_wins" ∧ aw = 1 ∧ ab = 0 ∨ result = "black_wins" ∧ aw = 0 ∧ ab = 1 ∨
      result = "draw" ∧ aw = 1 / 2 ∧ ab = 1 / 2) :
    -32 ≤ toInt (Round (32 * (aw - 1 / (1 + Pow 10 x)))) ∧
      toInt (Round (32 * (aw - 1 / (1 + Pow 10 x)))) ≤ 32 ∧
      -32 ≤ toInt (Round (32 * (ab - (1 - 1 / (1 + Pow 10 x))))) ∧
      toInt (Round (32 * (ab - (1 - 1 / (1 + Pow 10 x))))) ≤ 32 ∧
      (result = "white_wins" → 0 ≤ toInt (Round (32 * (aw - 1 / (1 + Pow 10 x)))) ∧
        toInt (Round (32 * (ab - (1 - 1 / (1 + Pow 10 x))))) =
          -toInt (Round (32 * (aw - 1 / (1 + Pow 10 x))))) ∧
      (result = "black_wins" → 0 ≤ toInt (Round (32 * (ab - (1 - 1 / (1 + Pow 10 x))))) ∧
        toInt (Round (32 * (aw - 1 / (1 + Pow 10 x)))) =
          -toInt (Round (32 * (ab - (1 - 1 / (1 + Pow 10 x)))))) := by
  obtain ⟨e0, e1⟩ := expected_bounds Pow hPow x
  have hab : 0 ≤ aw ∧ aw ≤ 1 ∧ 0 ≤ ab ∧ ab ≤ 1 := by
    rcases h with ⟨_, h1, h2⟩ | ⟨_, h1, h2⟩ | ⟨_, h1, h2⟩ <;> subst h1 h2 <;> norm_num
  obtain ⟨dw1, dw2⟩ := toInt_Round_bounds (32 * (aw - 1 / (1 + Pow 10 x))) (by linarith)
    (by linarith)
  obtain ⟨db1, db2⟩ := toInt_Round_bounds (32 * (ab - (1 - 1 / (1 + Pow 10 x)))) (by linarith)
    (by linarith)
  refine ⟨dw1, dw2, db1, db2, ?_, ?_⟩
  · intro hr
    rcases h with ⟨_, h1, h2⟩ | ⟨h, _⟩ | ⟨h, _⟩
    · subst h1 h2
      refine ⟨toInt_Round_nonneg _ (by linarith), ?_⟩
      rw [← toInt_Round_neg]
      congr 2
      ring
    · rw [hr] at h
      exact absurd h (by decide)
    · rw [hr] at h
      exact absurd h (by decide)
  · intro hr
    rcases h with ⟨h, _⟩ | ⟨_, h1, h2⟩ | ⟨h, _⟩
    · rw [hr] at h
      exact absurd h (by decide)
    · subst h1 h2
      refine ⟨toInt_Round_nonneg _ (by linarith), ?_⟩
      rw [← toInt_Round_neg]
      congr 2
      ring
    · rw [hr] at h
      exact absurd h (by decide)

/-- Result of `CalculateELO` on an outcome that is none of the three known ones. -/
theorem CalculateELO_unknown (Pow : ℚ → ℚ → ℚ) (w b : Int) (result : String)
    (h1 : result ≠ "white_wins") (h2 : result ≠ "black_wins") (h3 : result ≠ "draw") :
    CalculateELO Pow w b result = (w, b) := by
  simp [CalculateELO, h1, h2, h3]

theorem clamp_delta_bound (r d : Int) (hr : 0 ≤ r) (hd : -32 ≤ d ∧ d ≤ 32) :
    |(if r + d < 0 then 0 else r + d) - r| ≤ 32 := by
  rw [abs_le]
  split_ifs <;> constructor <;> omega

theorem CalculateELO_even (Pow : ℚ → ℚ → ℚ) (h : Pow 10 0 = 1) :
    CalculateELO Pow 1200 1200 "black_wins" = (1184, 1216) := by
  rw [CalculateELO_scored Pow 1200 1200 "black_wins" 0 1 (Or.inr (Or.inl ⟨rfl, rfl, rfl⟩))]
  have h0 : wrapInt (1200 - 1200) = 0 := by decide
  rw [h0]
  norm_num [h, toInt_Round]
  decide

/-! ## Store lemmas -/

theorem findUser_some (us : List User) (id : Nat) (u : User) (h : findUser us id = some u) :
    u.ID = id ∧ u ∈ us := by
  unfold findUser at h
  have h1 := List.find?_some h
  have h2 := List.mem_of_find?_eq_some h
  exact ⟨by simpa using h1, h2⟩

theorem findGame_some (gs : List Game) (id : Nat) (g : Game) (h : findGame gs id = some g) :
    g.ID = id ∧ g ∈ gs := by
  unfold findGame at h
  have h1 := List.find?_some h
  have h2 := List.mem_of_find?_eq_some h
  exact ⟨by simpa using h1, h2⟩

theorem updateUser_mem (id : Nat) (f : User → User) (us : List User) (x : User)
    (h : x ∈ updateUser id f us) :
    x ∈ us ∨ ∃ r, findUser us id = some r ∧ x = f r := by
  induction us with
  | nil => simp [updateUser] at h
  | cons r rs ih =>
    unfold updateUser at h
    by_cases hr : r.ID = id
    · rw [if_pos hr] at h
      rcases List.mem_cons.mp h with h | h
      · right
        exact ⟨r, by simp [findUser, hr], h⟩
      · left
        exact List.mem_cons_of_mem _ h
    · rw [if_neg hr] at h
      rcases List.mem_cons.mp h with h | h
      · left
        rw [h]
        exact List.mem_cons_self _ _
      · rcases ih h with h | ⟨r', h1, h2⟩
        · left
          exact List.mem_cons_of_mem _ h
        · right
          refine ⟨r', ?_, h2⟩
          simpa [findUser, hr] using h1

theorem findUser_updateUser_self (id : Nat) (f : User → User) (hf : ∀ r, (f r).ID = r.ID)
    (us : List User) (u : User) (h : findUser us id = some u) :
    findUser (updateUser id f us) id = some (f u) := by
  induction us with
  | nil => simp [findUser] at h
  | cons r rs ih =>
    unfold updateUser
    by_cases hr : r.ID = id
    · rw [if_pos hr]
      have : r = u := by simpa [findUser, hr] using h
      subst this
      simp [findUser, hf, hr]
    · rw [if_neg hr]
      have h2 : findUser rs id = some u := by simpa [findUser, hr] using h
      have := ih h2
      simpa [findUser, hr] using this

theorem findUser_updateUser_other (id id2 : Nat) (f : User → User) (hf : ∀ r, (f r).ID = r.ID)
    (hne : id ≠ id2) (us : List User) :
    findUser (updateUser id f us) id2 = findUser us id2 := by
  induction us with
  | nil => rfl
  | cons r rs ih =>
    unfold updateUser
    by_cases hr : r.ID = id
    · rw [if_pos hr]
      have h1 : ¬ r.ID = id2 := by omega
      simp [findUser, hf, h1]
    · rw [if_neg hr]
      by_cases h2 : r.ID = id2
      · simp [findUser, h2]
      · simpa [findUser, h2] using ih

theorem findGame_replaceGame (g : Game) (gs : List Game) (old : Game)
    (h : findGame gs g.ID = some old) : findGame (replaceGame g gs) g.ID = some g := by
  induction gs with
  | nil => simp [findGame] at h
  | cons r rs ih =>
    unfold replaceGame
    by_cases hr : r.ID = g.ID
    · rw [if_pos hr]
      simp [findGame]
    · rw [if_neg hr]
      have h2 : findGame rs g.ID = some old := by simpa [findGame, hr] using h
      simpa [findGame, hr] using ih h2

theorem findGame_saveGame (gs : List Game) (g : Game) :
    findGame (saveGame gs g) g.ID = some g := by
  unfold saveGame
  split
  · next old h => exact findGame_replaceGame g gs old h
  · next h =>
    unfold findGame at h ⊢
    rw [List.find?_append, h]
    simp

/-! ## Game service: lemmas -/

theorem IsWhiteTurn_iff (L : ChessLib P G M) (e : Engine G) :
    Engine.IsWhiteTurn L e = true ↔ L.Turn (L.Position e.game) = .White := by
  unfold Engine.IsWhiteTurn Engine.GetTurn
  cases L.Turn (L.Position e.game) <;> simp [Color.str]

theorem IsBlackTurn_iff (L : ChessLib P G M) (e : Engine G) :
    Engine.IsBlackTurn L e = true ↔ L.Turn (L.Position e.game) = .Black := by
  unfold Engine.IsBlackTurn Engine.GetTurn
  cases L.Turn (L.Position e.game) <;> simp [Color.str]

theorem GetOutcome_cases (L : ChessLib P G M) (e : Engine G) :
    Engine.GetOutcome L e = "" ∨ Engine.GetOutcome L e = "white_wins" ∨
      Engine.GetOutcome L e = "black_wins" ∨ Engine.GetOutcome L e = "draw" := by
  unfold Engine.GetOutcome
  cases L.Outcome e.game <;> simp

/-- The transaction of `MakeMove`, by the storage errors that occur. -/
theorem transaction_eq (L : ChessLib P G M) (Pow : ℚ → ℚ → ℚ) (f : Faults) (db : DB)
    (game : Game) (engine : Engine G) (gameID playerID : Nat) (uci : String) (n : Nat) :
    MakeMove.transaction L Pow f db game engine gameID playerID uci n =
      if f.create = true ∨ f.save = true ∨ f.commit = true then (db, .error .storage)
      else
        ({ users := MakeMove.usersRows L Pow f game engine db.users
           games := saveGame db.games (MakeMove.gameRow L game engine)
           moves := db.moves ++ [MakeMove.moveRow L db engine gameID playerID uci n] },
          .ok (MakeMove.moveRow L db engine gameID playerID uci n)) := by
  unfold MakeMove.transaction MakeMove.usersRows MakeMove.gameRow MakeMove.moveRow
  cases f.create <;> cases f.save <;> cases f.commit <;> simp
  by_cases h : Engine.GetOutcome L engine = "" <;> simp [h]

/-- A call of `MakeMove` fails without a change of the store or runs the transaction. -/
theorem MakeMove_cases (L : ChessLib P G M) (Pow : ℚ → ℚ → ℚ) (f : Faults) (db : DB)
    (gameID playerID : Nat) (uci : String) :
    (∃ e, MakeMove L Pow f db gameID playerID uci = (db, .error e)) ∨
      ∃ game engine engine2,
        GetGame f db gameID = .ok game ∧
        (game.WhitePlayerID = some playerID ∨ game.BlackPlayerID = some playerID) ∧
        NewEngineFromFEN L game.CurrentFEN = .ok engine ∧
        Engine.MakeMove L engine uci = .ok engine2 ∧
        MakeMove L Pow f db gameID playerID uci =
          MakeMove.transaction L Pow f db game engine2 gameID playerID uci
            (if f.count then 0 else countMoves db.moves gameID) := by
  unfold MakeMove
  generalize (if f.count then 0 else countMoves db.moves gameID) = n
  cases hget : GetGame f db gameID with
  | error e => exact Or.inl ⟨e, rfl⟩
  | ok game =>
    simp only []
    split_ifs with h1
    · exact Or.inl ⟨_, rfl⟩
    · have hpart : game.WhitePlayerID = some playerID ∨ game.BlackPlayerID = some playerID := by
        by_contra hc
        push_neg at hc
        simp [hc.1, hc.2] at h1
      cases hfen : NewEngineFromFEN L game.CurrentFEN with
      | error e => exact Or.inl ⟨e, rfl⟩
      | ok engine =>
        simp only []
        split_ifs with h2 h3
        · exact Or.inl ⟨_, rfl⟩
        · exact Or.inl ⟨_, rfl⟩
        · cases hval : Engine.ValidateMove L engine uci with
          | some err => cases err <;> exact Or.inl ⟨_, rfl⟩
          | none =>
            simp only []
            cases hmv : Engine.MakeMove L engine uci with
            | error e => exact Or.inl ⟨e, rfl⟩
            | ok engine2 => exact Or.inr ⟨game, engine, engine2, rfl, hpart, hfen, hmv, rfl⟩

/-- A call of `MakeMove` leaves the store as it is and fails, or appends the
returned move row, whose ply number is the move count plus one. -/
theorem MakeMove_moves (L : ChessLib P G M) (Pow : ℚ → ℚ → ℚ) (f : Faults) (db : DB)
    (gameID playerID : Nat) (uci : String) :
    (∃ e, MakeMove L Pow f db gameID playerID uci = (db, .error e)) ∨
      ∃ db2 move, MakeMove L Pow f db gameID playerID uci = (db2, .ok move) ∧
        db2.moves = db.moves ++ [move] ∧ move.GameID = gameID ∧
        move.PlyNumber = (if f.count then 0 else countMoves db.moves gameID) + 1 := by
  rcases MakeMove_cases L Pow f db gameID playerID uci with h | ⟨game, _, engine2, _, _, _, _, h⟩
  · exact Or.inl h
  · rw [h, transaction_eq]
    generalize (if f.count then 0 else countMoves db.moves gameID) = n
    by_cases hf : f.create = true ∨ f.save = true ∨ f.commit = true
    · rw [if_pos hf]
      exact Or.inl ⟨_, rfl⟩
    · rw [if_neg hf]
      exact Or.inr ⟨_, _, rfl, rfl, rfl, rfl⟩

theorem movesOf_append (db : DB) (gid : Nat) (ms : List Move) :
    movesOf { db with moves := db.moves ++ ms } gid =
      movesOf db gid ++ ms.filter (fun m => m.GameID == gid) := by
  simp [movesOf]

theorem runMoves_movesOf (L : ChessLib P G M) (Pow : ℚ → ℚ → ℚ) (gid : Nat) :
    ∀ (calls : List MoveCall) (db : DB) (n : Nat),
      (∀ c ∈ calls, c.faults.count = false) →
      (movesOf db gid).map (fun m => m.PlyNumber) = List.range' 1 n →
      movesOf (runMoves L Pow db calls) gid =
          movesOf db gid ++ (returnedMoves L Pow db calls).filter (fun m => m.GameID == gid) ∧
        ((returnedMoves L Pow db calls).filter (fun m => m.GameID == gid)).map
            (fun m => m.PlyNumber) =
          List.range' (n + 1)
            ((returnedMoves L Pow db calls).filter (fun m => m.GameID == gid)).length := by
  intro calls
  induction calls with
  | nil =>
    intro db n _ _
    simp [runMoves, returnedMoves]
  | cons c cs ih =>
    intro db n hc hn
    have hcs : ∀ c2 ∈ cs, c2.faults.count = false := fun c2 h2 => hc c2 (List.mem_cons_of_mem _ h2)
    have hcount : c.faults.count = false := hc c (List.mem_cons_self _ _)
    rcases MakeMove_moves L Pow c.faults db c.gameID c.playerID c.uci with
      ⟨e, he⟩ | ⟨db2, move, hok, hmoves, hgid, hply⟩
    · simp only [runMoves, returnedMoves, he]
      exact ih db n hcs hn
    · simp only [runMoves, returnedMoves, hok]
      have hlen : countMoves db.moves gid = n := by
        have := congrArg List.length hn
        simpa [movesOf, countMoves] using this
      have hmv : movesOf db2 gid = movesOf db gid ++ [move].filter (fun m => m.GameID == gid) := by
        simp [movesOf, hmoves]
      by_cases hg : c.gameID = gid
      · have hmg : move.GameID = gid := by rw [hgid, hg]
        have hp : move.PlyNumber = n + 1 := by
          rw [hply, hcount, hg, hlen]
          rfl
        have hmv2 : movesOf db2 gid = movesOf db gid ++ [move] := by
          rw [hmv]
          simp [hmg]
        have hn2 : (movesOf db2 gid).map (fun m => m.PlyNumber) = List.range' 1 (n + 1) := by
          rw [hmv2, List.map_append, hn, List.range'_concat]
          simp [hp, Nat.add_comm]
        obtain ⟨ih1, ih2⟩ := ih db2 (n + 1) hcs hn2
        constructor
        · rw [ih1, hmv2]
          simp [hmg]
        · simp only [List.filter_cons, hmg, beq_self_eq_true, if_true, List.map_cons,
            List.length_cons, hp]
          rw [ih2, List.range'_succ]
      · have hmg : ¬ move.GameID = gid := by rw [hgid]; exact hg
        have hmv2 : movesOf db2 gid = movesOf db gid := by
          rw [hmv]
          simp [hmg]
        have hn2 : (movesOf db2 gid).map (fun m => m.PlyNumber) = List.range' 1 n := by
          rw [hmv2, hn]
        obtain ⟨ih1, ih2⟩ := ih db2 n hcs hn2
        constructor
        · rw [ih1, hmv2]
          simp [hmg]
        · simpa [hmg] using ih2

theorem whiteUpdates_ID (p : User) (elo : Int) (o : String) (r : User) :
    (whiteUpdates p elo o r).ID = r.ID := by
  unfold whiteUpdates
  split_ifs <;> rfl

theorem blackUpdates_ID (p : User) (elo : Int) (o : String) (r : User) :
    (blackUpdates p elo o r).ID = r.ID := by
  unfold blackUpdates
  split_ifs <;> rfl

theorem whiteUpdates_consistent (p : User) (elo : Int) (o : String)
    (ho : o = "white_wins" ∨ o = "black_wins" ∨ o = "draw") (h : p.statsConsistent) :
    (whiteUpdates p elo o p).statsConsistent := by
  unfold User.statsConsistent at h ⊢
  rcases ho with ho | ho | ho <;> subst ho <;>
    simp [whiteUpdates, GameResultWhiteWins, GameResultBlackWins, GameResultDraw] <;> omega

theorem blackUpdates_consistent (p : User) (elo : Int) (o : String)
    (ho : o = "white_wins" ∨ o = "black_wins" ∨ o = "draw") (h : p.statsConsistent) :
    (blackUpdates p elo o p).statsConsistent := by
  unfold User.statsConsistent at h ⊢
  rcases ho with ho | ho | ho <;> subst ho <;>
    simp [blackUpdates, GameResultWhiteWins, GameResultBlackWins, GameResultDraw] <;> omega

theorem playersDistinct_ne (g : Game) (w b : Nat) (h : g.playersDistinct)
    (hw : g.WhitePlayerID = some w) (hb : g.BlackPlayerID = some b) : w ≠ b := by
  intro hwb
  subst hwb
  rcases h with h | h
  · rw [hw] at h
    cases h
  · exact h (by rw [hw, hb])

/-- The rating block keeps the user invariant on every row. -/
theorem updateStats_consistent (Pow : ℚ → ℚ → ℚ) (f : Faults) (game : Game) (o : String)
    (users : List User) (hd : game.playersDistinct)
    (ho : o = "white_wins" ∨ o = "black_wins" ∨ o = "draw")
    (h : ∀ u ∈ users, u.statsConsistent) :
    ∀ u ∈ MakeMove.updateStats Pow f game o users, u.statsConsistent := by
  unfold MakeMove.updateStats
  split
  · next whiteID blackID hw hb =>
    have hne : whiteID ≠ blackID := playersDistinct_ne game whiteID blackID hd hw hb
    split
    · exact h
    · next whitePlayer hfw =>
      split
      · exact h
      · next blackPlayer hfb =>
        have hfw2 : findUser users whiteID = some whitePlayer := by
          split_ifs at hfw
          exact hfw
        have hfb2 : findUser users blackID = some blackPlayer := by
          split_ifs at hfb
          exact hfb
        obtain ⟨hwid, hwmem⟩ := findUser_some users whiteID whitePlayer hfw2
        obtain ⟨hbid, hbmem⟩ := findUser_some users blackID blackPlayer hfb2
        have step1 : ∀ u ∈ (if f.updatesWhite = true then users
            else updateUser whitePlayer.ID
              (whiteUpdates whitePlayer
                (CalculateELO Pow whitePlayer.ELORating blackPlayer.ELORating o).1 o) users),
            u.statsConsistent := by
          split_ifs
          · exact h
          · intro u hu
            rcases updateUser_mem _ _ _ _ hu with hu | ⟨r, hr, hur⟩
            · exact h u hu
            · rw [hwid, hfw2] at hr
              cases hr
              rw [hur]
              exact whiteUpdates_consistent _ _ _ ho (h _ hwmem)
        have find1 : findUser (if f.updatesWhite = true then users
            else updateUser whitePlayer.ID
              (whiteUpdates whitePlayer
                (CalculateELO Pow whitePlayer.ELORating blackPlayer.ELORating o).1 o) users)
            blackID = some blackPlayer := by
          split_ifs
          · exact hfb2
          · rw [findUser_updateUser_other _ _ _ (whiteUpdates_ID _ _ _) (by rw [hwid]; exact hne)]
            exact hfb2
        have step2 : ∀ us1 : List User, (∀ u ∈ us1, u.statsConsistent) →
            findUser us1 blackID = some blackPlayer →
            ∀ u ∈ (if f.updatesBlack = true then us1
              else updateUser blackPlayer.ID
                (blackUpdates blackPlayer
                  (CalculateELO Pow whitePlayer.ELORating blackPlayer.ELORating o).2 o) us1),
              u.statsConsistent := by
          intro us1 h1 hf1
          split_ifs
          · exact h1
          · intro u hu
            rcases updateUser_mem _ _ _ _ hu with hu | ⟨r, hr, hur⟩
            · exact h1 u hu
            · rw [hbid, hf1] at hr
              cases hr
              rw [hur]
              exact blackUpdates_consistent _ _ _ ho (h _ hbmem)
        exact step2 _ step1 find1
  · exact h

theorem gameRow_players (L : ChessLib P G M) (game : Game) (engine : Engine G) :
    (MakeMove.gameRow L game engine).WhitePlayerID = game.WhitePlayerID ∧
      (MakeMove.gameRow L game engine).BlackPlayerID = game.BlackPlayerID ∧
      (MakeMove.gameRow L game engine).ID = game.ID := by
  unfold MakeMove.gameRow
  split_ifs <;> exact ⟨rfl, rfl, rfl⟩

theorem GetGame_ok (f : Faults) (db : DB) (gameID : Nat) (game : Game)
    (h : GetGame f db gameID = .ok game) :
    f.getGame = false ∧ findGame db.games gameID = some game := by
  unfold GetGame at h
  cases hf : f.getGame
  · rw [hf] at h
    cases hg : findGame db.games gameID with
    | none => simp [hg] at h
    | some g =>
      simp [hg] at h
      exact ⟨rfl, by rw [h]⟩
  · simp [hf] at h

theorem updateStats_noFaults (Pow : ℚ → ℚ → ℚ) (game : Game) (o : String) (users : List User)
    (whiteID blackID : Nat) (wp bp : User)
    (hw : game.WhitePlayerID = some whiteID) (hb : game.BlackPlayerID = some blackID)
    (hfw : findUser users whiteID = some wp) (hfb : findUser users blackID = some bp) :
    MakeMove.updateStats Pow noFaults game o users =
      updateUser bp.ID (blackUpdates bp (CalculateELO Pow wp.ELORating bp.ELORating o).2 o)
        (updateUser wp.ID (whiteUpdates wp (CalculateELO Pow wp.ELORating bp.ELORating o).1 o)
          users) := by
  simp [MakeMove.updateStats, hw, hb, noFaults, hfw, hfb]

/-! ## Matchmaking: lemmas -/

theorem rangeFind_none (p : QueueEntry → Bool) (l : List QueueEntry) :
    rangeFind p l = none ↔ ∀ e ∈ l, p e = false := by
  induction l with
  | nil => simp [rangeFind]
  | cons a rest ih =>
    unfold rangeFind
    by_cases ha : p a = true
    · simp [ha]
    · cases hr : rangeFind p rest with
      | none =>
        have := ih.mp hr
        simpa [ha] using this
      | some r =>
        have hne : ¬ ∀ e ∈ rest, p e = false := fun h => by
          rw [ih.mpr h] at hr
          cases hr
        simpa [ha] using hne

theorem rangeFind_append (p : QueueEntry → Bool) (l1 l2 : List QueueEntry) (e : QueueEntry)
    (h1 : ∀ x ∈ l1, p x = false) (he : p e = true) :
    rangeFind p (l1 ++ e :: l2) = some (l1.length, e) := by
  induction l1 with
  | nil => simp [rangeFind, he]
  | cons a rest ih =>
    have ha : p a = false := h1 a (List.mem_cons_self _ _)
    have hrest : ∀ x ∈ rest, p x = false := fun x hx => h1 x (List.mem_cons_of_mem _ hx)
    simp [rangeFind, ha, ih hrest]

theorem rangeFind_some (p : QueueEntry → Bool) (l : List QueueEntry) (i : Nat) (e : QueueEntry)
    (h : rangeFind p l = some (i, e)) :
    ∃ l1 l2, l = l1 ++ e :: l2 ∧ l1.length = i ∧ p e = true ∧ ∀ x ∈ l1, p x = false := by
  induction l generalizing i with
  | nil => simp [rangeFind] at h
  | cons a rest ih =>
    unfold rangeFind at h
    by_cases ha : p a = true
    · rw [if_pos ha] at h
      cases h
      exact ⟨[], rest, rfl, rfl, ha, by simp⟩
    · rw [if_neg ha] at h
      cases hr : rangeFind p rest with
      | none => simp [hr] at h
      | some r =>
        obtain ⟨j, found⟩ := r
        simp only [hr, Option.some.injEq, Prod.mk.injEq] at h
        obtain ⟨hj, hf⟩ := h
        subst hj hf
        obtain ⟨l1, l2, hl, hlen, hp, hall⟩ := ih j hr
        refine ⟨a :: l1, l2, by rw [hl]; rfl, by simp [hlen], hp, ?_⟩
        intro x hx
        rcases List.mem_cons.mp hx with hx | hx
        · rw [hx]
          simpa using ha
        · exact hall x hx

theorem take_drop_middle (l1 l2 : List QueueEntry) (e : QueueEntry) :
    (l1 ++ e :: l2).take l1.length ++ (l1 ++ e :: l2).drop (l1.length + 1) = l1 ++ l2 := by
  simp

theorem set_middle (l1 l2 : List QueueEntry) (e e2 : QueueEntry) :
    (l1 ++ e :: l2).set l1.length e2 = l1 ++ e2 :: l2 := by
  simp

theorem compatible_iff (elo now : Int) (e : QueueEntry) :
    JoinQueue.compatible elo now e = true ↔ specWithinBand elo now e := by
  unfold JoinQueue.compatible specWithinBand specBand abs MaxWaitTime ExpandedELORange
    ELOMatchRange
  simp only [decide_eq_true_eq]
  rw [abs_le]
  split_ifs <;> constructor <;> intro h <;> omega

theorem freshID_gt (ids : List Nat) : ∀ id ∈ ids, id < freshID ids := by
  unfold freshID
  induction ids with
  | nil => simp
  | cons a rest ih =>
    intro id hid
    rcases List.mem_cons.mp hid with h | h
    · subst h
      simp only [List.foldr_cons]
      omega
    · have := ih id h
      simp only [List.foldr_cons]
      omega

theorem findGame_fresh (games : List Game) :
    findGame games (freshID (games.map (fun g => g.ID))) = none := by
  unfold findGame
  rw [List.find?_eq_none]
  intro g hg
  have := freshID_gt (games.map (fun g => g.ID)) g.ID (List.mem_map_of_mem _ hg)
  simp
  omega

theorem replaceGame_append_fresh (games : List Game) (g g2 : Game) (hid : g2.ID = g.ID)
    (h : findGame games g.ID = none) : replaceGame g2 (games ++ [g]) = games ++ [g2] := by
  induction games with
  | nil => simp [replaceGame, hid]
  | cons a rest ih =>
    have ha : ¬ a.ID = g.ID := by
      intro hc
      simp [findGame, hc] at h
    have hrest : findGame rest g.ID = none := by
      simpa [findGame, ha] using h
    simp [replaceGame, hid, ha, ih hrest]

theorem CreateGame_eq (L : ChessLib P G M) (f : Faults) (db : DB) (whitePlayerID : Nat)
    (timeControl : Int) :
    CreateGame L f db whitePlayerID timeControl =
      if f.create = true then (db, .error .storage)
      else
        ({ db with games := db.games ++ [CreateGame.row L db whitePlayerID timeControl] },
          .ok (CreateGame.row L db whitePlayerID timeControl)) := by
  unfold CreateGame CreateGame.row
  split_ifs <;> rfl

/-- A call of `JoinGame` fails without a change of the store or saves the loaded
waiting game with the joiner as black player and status active. -/
theorem JoinGame_cases (f : Faults) (db : DB) (gameID blackPlayerID : Nat) :
    (∃ e, JoinGame f db gameID blackPlayerID = (db, .error e)) ∨
      ∃ game, findGame db.games gameID = some game ∧ game.Status = .waiting ∧
        game.WhitePlayerID ≠ some blackPlayerID ∧ f.getGame = false ∧ f.save = false ∧
        JoinGame f db gameID blackPlayerID =
          ({ db with
              games := saveGame db.games
                { game with BlackPlayerID := some blackPlayerID, Status := .active } },
            .ok { game with BlackPlayerID := some blackPlayerID, Status := .active }) := by
  unfold JoinGame
  cases hget : GetGame f db gameID with
  | error e => exact Or.inl ⟨e, rfl⟩
  | ok game =>
    obtain ⟨hf, hfind⟩ := GetGame_ok f db gameID game hget
    simp only []
    by_cases hs : game.Status ≠ .waiting
    · rw [if_pos hs]
      exact Or.inl ⟨_, rfl⟩
    · rw [if_neg hs]
      by_cases hw : game.WhitePlayerID = some blackPlayerID
      · rw [if_pos hw]
        exact Or.inl ⟨_, rfl⟩
      · rw [if_neg hw]
        by_cases hsave : f.save = true
        · rw [if_pos hsave]
          exact Or.inl ⟨_, rfl⟩
        · rw [if_neg hsave]
          exact Or.inr ⟨game, hfind, not_not.mp hs, hw, hf, by simpa using hsave, rfl⟩

/-- A game created and then joined, without storage errors, by a joiner other
than the creator: the two calls succeed and store one new active game. -/
theorem createGame_then_joinGame (L : ChessLib P G M) (f : Faults) (db : DB)
    (whitePlayerID blackPlayerID : Nat) (timeControl : Int)
    (hcreate : f.create = false) (hget : f.getGame = false) (hsave : f.save = false)
    (hne : blackPlayerID ≠ whitePlayerID) :
    CreateGame L f db whitePlayerID timeControl =
        ({ db with games := db.games ++ [CreateGame.row L db whitePlayerID timeControl] },
          .ok (CreateGame.row L db whitePlayerID timeControl)) ∧
      JoinGame f { db with games := db.games ++ [CreateGame.row L db whitePlayerID timeControl] }
          (CreateGame.row L db whitePlayerID timeControl).ID blackPlayerID =
        ({ db with
            games := db.games ++
              [{ CreateGame.row L db whitePlayerID timeControl with
                  BlackPlayerID := some blackPlayerID, Status := .active }] },
          .ok { CreateGame.row L db whitePlayerID timeControl with
              BlackPlayerID := some blackPlayerID, Status := .active }) := by
  have hfresh : findGame db.games (CreateGame.row L db whitePlayerID timeControl).ID = none :=
    findGame_fresh db.games
  have hfind : findGame (db.games ++ [CreateGame.row L db whitePlayerID timeControl])
      (CreateGame.row L db whitePlayerID timeControl).ID =
      some (CreateGame.row L db whitePlayerID timeControl) := by
    unfold findGame at hfresh ⊢
    rw [List.find?_append, hfresh]
    simp
  constructor
  · rw [CreateGame_eq, hcreate]
    rfl
  · have hw : (CreateGame.row L db whitePlayerID timeControl).WhitePlayerID ≠
        some blackPlayerID := by
      intro h
      exact hne (Option.some.inj h).symm
    have hst : ¬ (CreateGame.row L db whitePlayerID timeControl).Status ≠ .waiting :=
      not_not.mpr rfl
    have hsave2 : ¬ f.save = true := by simp [hsave]
    unfold JoinGame GetGame
    simp only [hget, hfind, Bool.false_eq_true, if_false]
    rw [if_neg hst, if_neg hw, if_neg hsave2]
    unfold saveGame
    simp only [hfind]
    rw [replaceGame_append_fresh db.games (CreateGame.row L db whitePlayerID timeControl)
      { CreateGame.row L db whitePlayerID timeControl with
        BlackPlayerID := some blackPlayerID, Status := .active } rfl hfresh]

/-- Call of `JoinQueue` by a user who has an entry: the first entry of the user
gets the rating, nothing else changes. -/
theorem JoinQueue_refresh (L : ChessLib P G M) (f : Faults) (now timeControl : Int)
    (m : MatchmakingService) (userID : Nat) (elo : Int) (l1 l2 : List QueueEntry)
    (e : QueueEntry) (hq : m.queue = l1 ++ e :: l2) (hl1 : ∀ x ∈ l1, x.UserID ≠ userID)
    (he : e.UserID = userID) :
    JoinQueue L f now timeControl m userID elo =
      ({ m with queue := l1 ++ { e with ELO := elo } :: l2 }, .ok none) := by
  have h := rangeFind_append (fun entry => entry.UserID == userID) l1 l2 e
    (fun x hx => by simpa using hl1 x hx) (by simpa using he)
  unfold JoinQueue
  rw [hq, h]
  simp only [set_middle]

/-- Call of `JoinQueue` by a user without an entry when no entry is compatible. -/
theorem JoinQueue_append (L : ChessLib P G M) (f : Faults) (now timeControl : Int)
    (m : MatchmakingService) (userID : Nat) (elo : Int)
    (hnew : ∀ e ∈ m.queue, e.UserID ≠ userID)
    (hno : ∀ e ∈ m.queue, JoinQueue.compatible elo now e = false) :
    JoinQueue L f now timeControl m userID elo =
      ({ m with queue := m.queue ++ [{ UserID := userID, ELO := elo, EnteredAt := now }] },
        .ok none) := by
  have h1 : rangeFind (fun entry => entry.UserID == userID) m.queue = none :=
    (rangeFind_none _ _).mpr (fun x hx => by simpa using hnew x hx)
  have h2 : rangeFind (JoinQueue.compatible elo now) m.queue = none :=
    (rangeFind_none _ _).mpr hno
  unfold JoinQueue
  rw [h1, h2]

/-- Call of `JoinQueue` by a user without an entry when an entry is compatible:
the first such entry leaves the queue and the game is created and joined. -/
theorem JoinQueue_match (L : ChessLib P G M) (f : Faults) (now timeControl : Int)
    (m : MatchmakingService) (userID : Nat) (elo : Int) (l1 l2 : List QueueEntry)
    (e : QueueEntry) (hnew : ∀ x ∈ m.queue, x.UserID ≠ userID)
    (hq : m.queue = l1 ++ e :: l2)
    (hl1 : ∀ x ∈ l1, JoinQueue.compatible elo now x = false)
    (he : JoinQueue.compatible elo now e = true) :
    JoinQueue L f now timeControl m userID elo =
      match CreateGame L f m.db userID timeControl with
      | (db, .error err) => ({ queue := l1 ++ l2, db := db }, .error err)
      | (db, .ok game) =>
        match JoinGame f db game.ID e.UserID with
        | (db, .error err) => ({ queue := l1 ++ l2, db := db }, .error err)
        | (db, .ok game) => ({ queue := l1 ++ l2, db := db }, .ok (some game)) := by
  have h1 : rangeFind (fun entry => entry.UserID == userID) m.queue = none :=
    (rangeFind_none _ _).mpr (fun x hx => by simpa using hnew x hx)
  have h2 := rangeFind_append (JoinQueue.compatible elo now) l1 l2 e hl1 he
  unfold JoinQueue
  rw [h1]
  simp only []
  rw [hq, h2]
  simp only [take_drop_middle]

/-- The three ways a call of `JoinQueue` can go. -/
theorem JoinQueue_cases (now : Int) (m : MatchmakingService) (userID : Nat) (elo : Int) :
    (∃ l1 e l2, m.queue = l1 ++ e :: l2 ∧ (∀ x ∈ l1, x.UserID ≠ userID) ∧ e.UserID = userID) ∨
      ((∀ x ∈ m.queue, x.UserID ≠ userID) ∧
        ∃ l1 e l2, m.queue = l1 ++ e :: l2 ∧
          (∀ x ∈ l1, JoinQueue.compatible elo now x = false) ∧
          JoinQueue.compatible elo now e = true) ∨
      ((∀ x ∈ m.queue, x.UserID ≠ userID) ∧
        ∀ x ∈ m.queue, JoinQueue.compatible elo now x = false) := by
  cases h1 : rangeFind (fun entry => entry.UserID == userID) m.queue with
  | some r =>
    obtain ⟨i, e⟩ := r
    obtain ⟨l1, l2, hq, _, he, hl1⟩ := rangeFind_some _ _ _ _ h1
    exact Or.inl ⟨l1, e, l2, hq, fun x hx => by simpa using hl1 x hx, by simpa using he⟩
  | none =>
    have hnew : ∀ x ∈ m.queue, x.UserID ≠ userID := fun x hx => by
      simpa using (rangeFind_none _ _).mp h1 x hx
    cases h2 : rangeFind (JoinQueue.compatible elo now) m.queue with
    | some r =>
      obtain ⟨i, e⟩ := r
      obtain ⟨l1, l2, hq, _, he, hl1⟩ := rangeFind_some _ _ _ _ h2
      exact Or.inr (Or.inl ⟨hnew, l1, e, l2, hq, hl1, he⟩)
    | none => exact Or.inr (Or.inr ⟨hnew, (rangeFind_none _ _).mp h2⟩)

theorem LeaveQueue_present (m : MatchmakingService) (userID : Nat) (l1 l2 : List QueueEntry)
    (e : QueueEntry) (hq : m.queue = l1 ++ e :: l2) (hl1 : ∀ x ∈ l1, x.UserID ≠ userID)
    (he : e.UserID = userID) : LeaveQueue m userID = { m with queue := l1 ++ l2 } := by
  have h := rangeFind_append (fun entry => entry.UserID == userID) l1 l2 e
    (fun x hx => by simpa using hl1 x hx) (by simpa using he)
  unfold LeaveQueue
  rw [hq, h]
  simp only [take_drop_middle]

theorem LeaveQueue_absent (m : MatchmakingService) (userID : Nat)
    (h : ∀ x ∈ m.queue, x.UserID ≠ userID) : LeaveQueue m userID = m := by
  have h1 : rangeFind (fun entry => entry.UserID == userID) m.queue = none :=
    (rangeFind_none _ _).mpr (fun x hx => by simpa using h x hx)
  unfold LeaveQueue
  rw [h1]

theorem GetQueuePosition_present (m : MatchmakingService) (userID : Nat)
    (l1 l2 : List QueueEntry) (e : QueueEntry) (hq : m.queue = l1 ++ e :: l2)
    (hl1 : ∀ x ∈ l1, x.UserID ≠ userID) (he : e.UserID = userID) :
    GetQueuePosition m userID = l1.length + 1 := by
  have h := rangeFind_append (fun entry => entry.UserID == userID) l1 l2 e
    (fun x hx => by simpa using hl1 x hx) (by simpa using he)
  unfold GetQueuePosition
  rw [hq, h]

theorem GetQueuePosition_absent (m : MatchmakingService) (userID : Nat) :
    GetQueuePosition m userID = -1 ↔ ∀ x ∈ m.queue, x.UserID ≠ userID := by
  unfold GetQueuePosition
  cases h1 : rangeFind (fun entry => entry.UserID == userID) m.queue with
  | some r =>
    obtain ⟨i, e⟩ := r
    obtain ⟨l1, l2, hq, _, he, _⟩ := rangeFind_some _ _ _ _ h1
    simp only []
    constructor
    · intro h
      omega
    · intro h
      have := h e (by rw [hq]; simp)
      simp at he
      exact absurd he this
  | none =>
    simp only [true_iff]
    intro x hx
    simpa using (rangeFind_none _ _).mp h1 x hx

theorem nodup_middle_remove (l1 l2 : List QueueEntry) (e : QueueEntry)
    (h : ((l1 ++ e :: l2).map (fun x => x.UserID)).Nodup) :
    ((l1 ++ l2).map (fun x => x.UserID)).Nodup := by
  rw [List.map_append] at h ⊢
  rw [List.map_cons] at h
  exact (List.nodup_cons.mp (List.nodup_middle.mp h)).2

/-- The user ids of the queue stay pairwise distinct under `JoinQueue`. -/
theorem JoinQueue_nodup (L : ChessLib P G M) (f : Faults) (now timeControl : Int)
    (m : MatchmakingService) (userID : Nat) (elo : Int)
    (h : (m.queue.map (fun x => x.UserID)).Nodup) :
    ((JoinQueue L f now timeControl m userID elo).1.queue.map (fun x => x.UserID)).Nodup := by
  rcases JoinQueue_cases now m userID elo with
    ⟨l1, e, l2, hq, hl1, he⟩ | ⟨hnew, l1, e, l2, hq, hl1, he⟩ | ⟨hnew, hno⟩
  · rw [JoinQueue_refresh L f now timeControl m userID elo l1 l2 e hq hl1 he]
    rw [hq] at h
    simpa using h
  · rw [JoinQueue_match L f now timeControl m userID elo l1 l2 e hnew hq hl1 he]
    rw [hq] at h
    have h2 := nodup_middle_remove l1 l2 e h
    cases CreateGame L f m.db userID timeControl with
    | mk db r =>
      cases r with
      | error err => exact h2
      | ok game =>
        simp only []
        cases JoinGame f db game.ID e.UserID with
        | mk db2 r2 =>
          cases r2 with
          | error err => exact h2
          | ok game2 => exact h2
  · rw [JoinQueue_append L f now timeControl m userID elo hnew hno]
    simp only [List.map_append, List.map_cons, List.map_nil]
    rw [List.nodup_append]
    refine ⟨h, List.nodup_singleton _, ?_⟩
    intro a ha hb
    simp only [List.mem_singleton] at hb
    subst hb
    obtain ⟨x, hx, hxa⟩ := List.mem_map.mp ha
    exact hnew x hx hxa

/-- The user ids of the queue stay pairwise distinct under `LeaveQueue`. -/
theorem LeaveQueue_nodup (m : MatchmakingService) (userID : Nat)
    (h : (m.queue.map (fun x => x.UserID)).Nodup) :
    ((LeaveQueue m userID).queue.map (fun x => x.UserID)).Nodup := by
  rcases JoinQueue_cases 0 m userID 0 with ⟨l1, e, l2, hq, hl1, he⟩ | ⟨hnew, _⟩ | ⟨hnew, _⟩
  · rw [LeaveQueue_present m userID l1 l2 e hq hl1 he]
    rw [hq] at h
    exact nodup_middle_remove l1 l2 e h
  · rw [LeaveQueue_absent m userID hnew]
    exact h
  · rw [LeaveQueue_absent m userID hnew]
    exact h

/-- The user ids of the queue stay pairwise distinct under every sequence of calls. -/
theorem runQueue_nodup (L : ChessLib P G M) (calls : List QueueCall) :
    ∀ m : MatchmakingService, (m.queue.map (fun x => x.UserID)).Nodup →
      ((runQueue L m calls).queue.map (fun x => x.UserID)).Nodup := by
  induction calls with
  | nil =>
    intro m h
    exact h
  | cons c cs ih =>
    intro m h
    cases c with
    | join f now timeControl userID elo =>
      exact ih _ (JoinQueue_nodup L f now timeControl m userID elo h)
    | leave userID => exact ih _ (LeaveQueue_nodup m userID h)

/-- After `LeaveQueue` a user whose entries were at most one has no entry. -/
theorem LeaveQueue_removes (m : MatchmakingService) (userID : Nat)
    (h : (m.queue.map (fun x => x.UserID)).Nodup) :
    ∀ x ∈ (LeaveQueue m userID).queue, x.UserID ≠ userID := by
  rcases JoinQueue_cases 0 m userID 0 with ⟨l1, e, l2, hq, hl1, he⟩ | ⟨hnew, _⟩ | ⟨hnew, _⟩
  · rw [LeaveQueue_present m userID l1 l2 e hq hl1 he]
    rw [hq, List.map_append, List.map_cons] at h
    have hnot := (List.nodup_cons.mp (List.nodup_middle.mp h)).1
    intro x hx hxu
    apply hnot
    rw [he, ← hxu, ← List.map_append]
    exact List.mem_map_of_mem _ hx
  · rw [LeaveQueue_absent m userID hnew]
    exact hnew
  · rw [LeaveQueue_absent m userID hnew]
    exact hnew

/-- A call of `JoinQueue` that returns a game: the caller had no entry, the first
compatible entry left the queue, and the game is active with the caller as white
and the user of that entry as black. -/
theorem JoinQueue_game_inv (L : ChessLib P G M) (f : Faults) (now timeControl : Int)
    (m m2 : MatchmakingService) (userID : Nat) (elo : Int) (game : Game)
    (h : JoinQueue L f now timeControl m userID elo = (m2, .ok (some game))) :
    (∀ x ∈ m.queue, x.UserID ≠ userID) ∧
      ∃ l1 e l2, m.queue = l1 ++ e :: l2 ∧
        (∀ x ∈ l1, JoinQueue.compatible elo now x = false) ∧
        JoinQueue.compatible elo now e = true ∧ m2.queue = l1 ++ l2 ∧
        game.Status = .active ∧ game.WhitePlayerID = some userID ∧
        game.BlackPlayerID = some e.UserID := by
  rcases JoinQueue_cases now m userID elo with
    ⟨l1, e, l2, hq, hl1, he⟩ | ⟨hnew, l1, e, l2, hq, hl1, he⟩ | ⟨hnew, hno⟩
  · rw [JoinQueue_refresh L f now timeControl m userID elo l1 l2 e hq hl1 he] at h
    cases h
  · refine ⟨hnew, l1, e, l2, hq, hl1, he, ?_⟩
    rw [JoinQueue_match L f now timeControl m userID elo l1 l2 e hnew hq hl1 he,
      CreateGame_eq] at h
    by_cases hc : f.create = true
    · rw [if_pos hc] at h
      cases h
    · rw [if_neg hc] at h
      simp only [] at h
      have hfresh : findGame m.db.games (CreateGame.row L m.db userID timeControl).ID = none :=
        findGame_fresh m.db.games
      rcases JoinGame_cases f
          { m.db with games := m.db.games ++ [CreateGame.row L m.db userID timeControl] }
          (CreateGame.row L m.db userID timeControl).ID e.UserID with
        ⟨err, hj⟩ | ⟨game0, hfind, _, _, _, _, hj⟩
      · rw [hj] at h
        cases h
      · have hg0 : game0 = CreateGame.row L m.db userID timeControl := by
          unfold findGame at hfresh hfind
          simp only [] at hfind
          rw [List.find?_append, hfresh] at hfind
          simp at hfind
          exact hfind.symm
        rw [hj] at h
        simp only [Prod.mk.injEq, Except.ok.injEq, Option.some.injEq] at h
        obtain ⟨hm2, hgame⟩ := h
        subst hm2 hgame hg0
        exact ⟨rfl, rfl, rfl, rfl⟩
  · rw [JoinQueue_append L f now timeControl m userID elo hnew hno] at h
    cases h

/-! ## Status invariants: lemmas -/

/-- A call of `MakeMove` fails without a change of the store, or it passed the
turn check and stores the move row, the game row and the users of the transaction. -/
theorem MakeMove_effect (L : ChessLib P G M) (Pow : ℚ → ℚ → ℚ) (f : Faults) (db : DB)
    (gameID playerID : Nat) (uci : String) :
    (∃ e, MakeMove L Pow f db gameID playerID uci = (db, .error e)) ∨
      ∃ (game : Game) (engine engine2 : Engine G) (n : Nat),
        findGame db.games gameID = some game ∧
        (game.WhitePlayerID = some playerID ∨ game.BlackPlayerID = some playerID) ∧
        NewEngineFromFEN L game.CurrentFEN = .ok engine ∧
        (game.WhitePlayerID = some playerID → Engine.IsWhiteTurn L engine = true) ∧
        (game.BlackPlayerID = some playerID → Engine.IsBlackTurn L engine = true) ∧
        Engine.MakeMove L engine uci = .ok engine2 ∧
        MakeMove L Pow f db gameID playerID uci =
          ({ users := MakeMove.usersRows L Pow f game engine2 db.users
             games := saveGame db.games (MakeMove.gameRow L game engine2)
             moves := db.moves ++ [MakeMove.moveRow L db engine2 gameID playerID uci n] },
            .ok (MakeMove.moveRow L db engine2 gameID playerID uci n)) := by
  unfold MakeMove
  generalize (if f.count then 0 else countMoves db.moves gameID) = n
  cases hget : GetGame f db gameID with
  | error e => exact Or.inl ⟨e, rfl⟩
  | ok game =>
    simp only []
    split_ifs with h1
    · exact Or.inl ⟨_, rfl⟩
    · have hpart : game.WhitePlayerID = some playerID ∨ game.BlackPlayerID = some playerID := by
        by_contra hc
        push_neg at hc
        simp [hc.1, hc.2] at h1
      cases hfen : NewEngineFromFEN L game.CurrentFEN with
      | error e => exact Or.inl ⟨e, rfl⟩
      | ok engine =>
        simp only []
        split_ifs with h2 h3
        · exact Or.inl ⟨_, rfl⟩
        · exact Or.inl ⟨_, rfl⟩
        · cases hval : Engine.ValidateMove L engine uci with
          | some err => cases err <;> exact Or.inl ⟨_, rfl⟩
          | none =>
            simp only []
            cases hmv : Engine.MakeMove L engine uci with
            | error e => exact Or.inl ⟨e, rfl⟩
            | ok engine2 =>
              simp only []
              rw [transaction_eq]
              by_cases hf : f.create = true ∨ f.save = true ∨ f.commit = true
              · rw [if_pos hf]
                exact Or.inl ⟨_, rfl⟩
              · rw [if_neg hf]
                refine Or.inr ⟨game, engine, engine2, n, (GetGame_ok _ _ _ _ hget).2, hpart, hfen,
                  ?_, ?_, hmv, rfl⟩
                · intro hw
                  simpa [hw] using h2
                · intro hb
                  simpa [hb] using h3

theorem mem_replaceGame (g : Game) (gs : List Game) (x : Game) (h : x ∈ replaceGame g gs) :
    x = g ∨ x ∈ gs := by
  induction gs with
  | nil => simp [replaceGame] at h
  | cons r rs ih =>
    unfold replaceGame at h
    split_ifs at h
    · rcases List.mem_cons.mp h with h | h
      · exact Or.inl h
      · exact Or.inr (List.mem_cons_of_mem _ h)
    · rcases List.mem_cons.mp h with h | h
      · rw [h]
        exact Or.inr (List.mem_cons_self _ _)
      · rcases ih h with h | h
        · exact Or.inl h
        · exact Or.inr (List.mem_cons_of_mem _ h)

theorem mem_saveGame (g : Game) (gs : List Game) (x : Game) (h : x ∈ saveGame gs g) :
    x = g ∨ x ∈ gs := by
  unfold saveGame at h
  split at h
  · exact mem_replaceGame g gs x h
  · rcases List.mem_append.mp h with h | h
    · exact Or.inr h
    · exact Or.inl (by simpa using h)

theorem findGame_replaceGame_other (g : Game) (gs : List Game) (id : Nat) (hne : id ≠ g.ID) :
    findGame (replaceGame g gs) id = findGame gs id := by
  induction gs with
  | nil => rfl
  | cons r rs ih =>
    unfold replaceGame
    by_cases hr : r.ID = g.ID
    · rw [if_pos hr]
      have h1 : ¬ g.ID = id := fun h => hne h.symm
      have h2 : ¬ r.ID = id := fun h => hne (by rw [← h, hr])
      simp [findGame, h1, h2]
    · rw [if_neg hr]
      by_cases h2 : r.ID = id
      · simp [findGame, h2]
      · simpa [findGame, h2] using ih

/-- Lookup after the save of a row whose key is in the table. -/
theorem findGame_saveGame_found (gs : List Game) (g old : Game) (id : Nat)
    (h : findGame gs g.ID = some old) :
    findGame (saveGame gs g) id = if id = g.ID then some g else findGame gs id := by
  by_cases hid : id = g.ID
  · rw [if_pos hid, hid]
    exact findGame_saveGame gs g
  · rw [if_neg hid]
    unfold saveGame
    rw [h]
    exact findGame_replaceGame_other g gs id hid

theorem gameRow_status (L : ChessLib P G M) (game : Game) (engine : Engine G) :
    (MakeMove.gameRow L game engine).Status = .finished ∨
      (MakeMove.gameRow L game engine).Status = game.Status := by
  unfold MakeMove.gameRow
  split_ifs
  · exact Or.inl rfl
  · exact Or.inr rfl

theorem CreateGame_row_serviceInvariant (L : ChessLib P G M) (db : DB) (whitePlayerID : Nat)
    (timeControl : Int) : (CreateGame.row L db whitePlayerID timeControl).serviceInvariant L := by
  unfold Game.serviceInvariant Game.playersDistinct CreateGame.row
  simp

/-- The game row saved by `MakeMove` keeps the invariant of the service. -/
theorem gameRow_serviceInvariant (L : ChessLib P G M) (hL : L.firstMoveSound) (game : Game)
    (engine engine2 : Engine G) (playerID : Nat) (uci : String)
    (hinv : game.serviceInvariant L)
    (hpart : game.WhitePlayerID = some playerID ∨ game.BlackPlayerID = some playerID)
    (hfen : NewEngineFromFEN L game.CurrentFEN = .ok engine)
    (hturn : game.WhitePlayerID = some playerID → Engine.IsWhiteTurn L engine = true)
    (hmv : Engine.MakeMove L engine uci = .ok engine2) :
    (MakeMove.gameRow L game engine2).serviceInvariant L := by
  obtain ⟨hW, hD, hwait, hact, hfin⟩ := hinv
  -- a waiting game that accepts a move is in the starting position
  have hstart : game.Status = .waiting →
      Engine.GetOutcome L engine2 = "" ∧
        ∀ engine3, NewEngineFromFEN L (Engine.GetFEN L engine2) = .ok engine3 →
          Engine.IsWhiteTurn L engine3 = false := by
    intro hs
    obtain ⟨hB, _, hpos⟩ := hwait hs
    have hw : game.WhitePlayerID = some playerID := by
      rcases hpart with h | h
      · exact h
      · rw [hB] at h
        cases h
    rcases hpos with hpos | hpos
    · rw [hpos] at hfen
      exact hL engine engine2 uci hfen hmv
    · have := hpos engine hfen
      rw [hturn hw] at this
      cases this
  unfold MakeMove.gameRow
  by_cases ho : Engine.GetOutcome L engine2 = ""
  · rw [if_neg (not_not.mpr ho)]
    refine ⟨hW, hD, ?_, hact, hfin⟩
    intro hs
    obtain ⟨hB, hR, _⟩ := hwait hs
    exact ⟨hB, hR, Or.inr (hstart hs).2⟩
  · rw [if_pos ho]
    refine ⟨hW, hD, ?_, ?_, ?_⟩
    · intro hs
      cases hs
    · intro hs
      cases hs
    · intro _
      refine ⟨?_, ho⟩
      cases hs : game.Status with
      | waiting => exact absurd (hstart hs).1 ho
      | active => exact (hact hs).1
      | finished => exact (hfin hs).1

/-- Every call of the game service keeps the invariant of the service on every
game row. -/
theorem ServiceCall_run_serviceInvariant (L : ChessLib P G M) (Pow : ℚ → ℚ → ℚ)
    (hL : L.firstMoveSound) (db : DB) (c : ServiceCall)
    (h : ∀ g ∈ db.games, g.serviceInvariant L) :
    ∀ g ∈ (c.run L Pow db).games, g.serviceInvariant L := by
  cases c with
  | createGame f whitePlayerID timeControl =>
    simp only [ServiceCall.run]
    rw [CreateGame_eq]
    split_ifs
    · exact h
    · intro g hg
      rcases List.mem_append.mp hg with hg | hg
      · exact h g hg
      · rw [List.mem_singleton.mp hg]
        exact CreateGame_row_serviceInvariant L db whitePlayerID timeControl
  | joinGame f gameID blackPlayerID =>
    simp only [ServiceCall.run]
    rcases JoinGame_cases f db gameID blackPlayerID with
      ⟨e, he⟩ | ⟨game, hfind, hs, hw, _, _, hj⟩
    · rw [he]
      exact h
    · rw [hj]
      intro g hg
      rcases mem_saveGame _ _ _ hg with hg | hg
      · obtain ⟨hW, _, hwait, _, _⟩ := h game (findGame_some _ _ _ hfind).2
        obtain ⟨_, hR, _⟩ := hwait hs
        rw [hg]
        refine ⟨hW, Or.inr hw, ?_, ?_, ?_⟩
        · intro h2
          cases h2
        · intro _
          exact ⟨by simp, hR⟩
        · intro h2
          cases h2
      · exact h g hg
  | makeMove f gameID playerID uci =>
    simp only [ServiceCall.run]
    rcases MakeMove_effect L Pow f db gameID playerID uci with
      ⟨e, he⟩ | ⟨game, engine, engine2, n, hfind, hpart, hfen, hwt, _, hmv, hm⟩
    · rw [he]
      exact h
    · rw [hm]
      intro g hg
      rcases mem_saveGame _ _ _ hg with hg | hg
      · rw [hg]
        exact gameRow_serviceInvariant L hL game engine engine2 playerID uci
          (h game (findGame_some _ _ _ hfind).2) hpart hfen hwt hmv
      · exact h g hg

theorem runCalls_serviceInvariant (L : ChessLib P G M) (Pow : ℚ → ℚ → ℚ)
    (hL : L.firstMoveSound) (calls : List ServiceCall) :
    ∀ db : DB, (∀ g ∈ db.games, g.serviceInvariant L) →
      ∀ g ∈ (runCalls L Pow db calls).games, g.serviceInvariant L := by
  induction calls with
  | nil =>
    intro db h
    exact h
  | cons c cs ih =>
    intro db h
    exact ih _ (ServiceCall_run_serviceInvariant L Pow hL db c h)

theorem statusInvariant_of_serviceInvariant (L : ChessLib P G M) (g : Game)
    (h : g.serviceInvariant L) : g.statusInvariant := by
  obtain ⟨hW, hD, _, hact, hfin⟩ := h
  refine ⟨?_, ?_, hD⟩
  · intro hs
    obtain ⟨hB, hR⟩ := hact hs
    refine ⟨hW, hB, ?_, hR⟩
    rcases hD with hD | hD
    · exact absurd hD hW
    · exact hD
  · intro hs
    obtain ⟨hB, hR⟩ := hfin hs
    exact ⟨hW, hB, hR⟩

/-- Every call of the game service keeps, on every game row, the waiting-game
invariant up to the first stored move. -/
theorem ServiceCall_run_waitingUntilMove (L : ChessLib P G M) (Pow : ℚ → ℚ → ℚ) (db : DB)
    (c : ServiceCall) (h : ∀ g ∈ db.games, g.waitingUntilMove L db) :
    ∀ g ∈ (c.run L Pow db).games, g.waitingUntilMove L (c.run L Pow db) := by
  cases c with
  | createGame f whitePlayerID timeControl =>
    simp only [ServiceCall.run]
    rw [CreateGame_eq]
    split_ifs
    · exact h
    · intro g hg
      rcases List.mem_append.mp hg with hg | hg
      · exact h g hg
      · rw [List.mem_singleton.mp hg]
        intro _
        exact ⟨rfl, rfl, fun _ => rfl⟩
  | joinGame f gameID blackPlayerID =>
    simp only [ServiceCall.run]
    rcases JoinGame_cases f db gameID blackPlayerID with
      ⟨e, he⟩ | ⟨game, hfind, hs, hw, _, _, hj⟩
    · rw [he]
      exact h
    · rw [hj]
      intro g hg
      rcases mem_saveGame _ _ _ hg with hg | hg
      · rw [hg]
        intro h2
        cases h2
      · exact h g hg
  | makeMove f gameID playerID uci =>
    simp only [ServiceCall.run]
    rcases MakeMove_effect L Pow f db gameID playerID uci with
      ⟨e, he⟩ | ⟨game, engine, engine2, n, hfind, _, _, _, _, _, hm⟩
    · rw [he]
      exact h
    · rw [hm]
      obtain ⟨hgid, hmem⟩ := findGame_some _ _ _ hfind
      intro g hg
      rcases mem_saveGame _ _ _ hg with hg | hg
      · rw [hg]
        intro hs
        have hst : game.Status = .waiting := by
          rcases gameRow_status L game engine2 with h2 | h2
          · rw [h2] at hs
            cases hs
          · rw [← h2]
            exact hs
        have hout : Engine.GetOutcome L engine2 = "" := by
          by_contra ho
          unfold MakeMove.gameRow at hs
          rw [if_pos ho] at hs
          cases hs
        obtain ⟨hB, hR, _⟩ := h game hmem hst
        refine ⟨?_, ?_, ?_⟩
        · rw [(gameRow_players L game engine2).2.1]
          exact hB
        · unfold MakeMove.gameRow
          rw [if_neg (not_not.mpr hout)]
          exact hR
        · intro hno
          exfalso
          rw [(gameRow_players L game engine2).2.2, hgid] at hno
          simp [movesOf, MakeMove.moveRow] at hno
      · intro hs
        obtain ⟨hB, hR, hpos⟩ := h g hg hs
        refine ⟨hB, hR, ?_⟩
        intro hno
        apply hpos
        simp only [movesOf, List.filter_append, List.append_eq_nil] at hno
        exact hno.1

theorem runCalls_waitingUntilMove (L : ChessLib P G M) (Pow : ℚ → ℚ → ℚ)
    (calls : List ServiceCall) :
    ∀ db : DB, (∀ g ∈ db.games, g.waitingUntilMove L db) →
      ∀ g ∈ (runCalls L Pow db calls).games, g.waitingUntilMove L (runCalls L Pow db calls) := by
  induction calls with
  | nil =>
    intro db h
    exact h
  | cons c cs ih =>
    intro db h
    exact ih _ (ServiceCall_run_waitingUntilMove L Pow db c h)

/-- The rules of the Fool's mate line satisfy the facts about the first move. -/
theorem lineLib_firstMoveSound : lineLib.firstMoveSound := by
  intro engine engine2 uci hfen hmv
  have he : engine = { game := { pos := fen0, log := [] } } := by
    have h0 : NewEngineFromFEN lineLib (Engine.GetFEN lineLib (NewEngine lineLib)) =
        .ok { game := { pos := fen0, log := [] } } := by decide
    rw [h0] at hfen
    cases hfen
    rfl
  subst he
  by_cases hu : uci = "f2f3"
  · subst hu
    have h1 : Engine.MakeMove lineLib { game := { pos := fen0, log := [] } } "f2f3" =
        .ok { game := { pos := fen1, log := ["f2f3"] } } := by decide
    rw [h1] at hmv
    cases hmv
    refine ⟨by decide, ?_⟩
    intro engine3 h3
    have h4 : NewEngineFromFEN lineLib
        (Engine.GetFEN lineLib { game := { pos := fen1, log := ["f2f3"] } }) =
        .ok { game := { pos := fen1, log := [] } } := by decide
    rw [h4] at h3
    cases h3
    decide
  · exfalso
    have hne : ("f2f3" == uci) = false := by
      simpa using fun h => hu h.symm
    unfold Engine.MakeMove at hmv
    simp only [lineLib, lineTable, fen0, fen1, fen2, fen3, fen4] at hmv
    simp [List.find?, hne] at hmv
    split at hmv
    · cases hmv
    · next heq =>
      split_ifs at heq
      cases heq
      simp [hne] at hmv

/-- A call of `MakeMove` by a participant on a game whose position loads as a game
that has ended: the store is unchanged; the answer is `ErrNotYourTurn` when a
colour of the participant is not the side to move, `ErrGameFinished` otherwise. -/
theorem MakeMove_ended (L : ChessLib P G M) (Pow : ℚ → ℚ → ℚ) (f : Faults) (db : DB)
    (gameID playerID : Nat) (uci : String) (game : Game) (engine : Engine G)
    (hget : GetGame f db gameID = .ok game)
    (hpart : game.WhitePlayerID = some playerID ∨ game.BlackPlayerID = some playerID)
    (hfen : NewEngineFromFEN L game.CurrentFEN = .ok engine)
    (hfin : L.Outcome engine.game ≠ .NoOutcome) :
    MakeMove L Pow f db gameID playerID uci =
      (db, .error
        (if game.WhitePlayerID = some playerID ∧ L.Turn (L.Position engine.game) ≠ .White ∨
            game.BlackPlayerID = some playerID ∧ L.Turn (L.Position engine.game) ≠ .Black
          then .ErrNotYourTurn else .ErrGameFinished)) := by
  unfold MakeMove
  rw [hget]
  simp only []
  rw [hfen]
  simp only []
  have h1 : (!decide (game.WhitePlayerID = some playerID) &&
      !decide (game.BlackPlayerID = some playerID)) = false := by
    rcases hpart with h | h <;> simp [h]
  have h4 : Engine.ValidateMove L engine uci = some .chessErrGameFinished := by
    simp [Engine.ValidateMove, hfin]
  rw [h1, h4]
  simp only [Bool.false_eq_true, if_false]
  by_cases hw : game.WhitePlayerID = some playerID ∧ L.Turn (L.Position engine.game) ≠ .White
  · have ht : Engine.IsWhiteTurn L engine = false := by
      rw [← Bool.not_eq_true, IsWhiteTurn_iff]
      exact hw.2
    simp [hw.1, ht, hw.2]
  · have h2 : (decide (game.WhitePlayerID = some playerID) && !Engine.IsWhiteTurn L engine) =
        false := by
      by_cases h : game.WhitePlayerID = some playerID
      · have := (IsWhiteTurn_iff L engine).mpr (not_not.mp (fun hc => hw ⟨h, hc⟩))
        simp [h, this]
      · simp [h]
    rw [h2]
    simp only [Bool.false_eq_true, if_false]
    by_cases hb : game.BlackPlayerID = some playerID ∧ L.Turn (L.Position engine.game) ≠ .Black
    · have ht : Engine.IsBlackTurn L engine = false := by
        rw [← Bool.not_eq_true, IsBlackTurn_iff]
        exact hb.2
      simp [hb.1, ht, hb.2]
    · have h3 : (decide (game.BlackPlayerID = some playerID) && !Engine.IsBlackTurn L engine) =
          false := by
        by_cases h : game.BlackPlayerID = some playerID
        · have := (IsBlackTurn_iff L engine).mpr (not_not.mp (fun hc => hb ⟨h, hc⟩))
          simp [h, this]
        · simp [h]
      rw [h3]
      simp only [Bool.false_eq_true, if_false, hw, hb, or_self]

/-- The game row saved by `MakeMove` keeps the invariant of finished games. -/
theorem gameRow_finishedTerminal (L : ChessLib P G M) (hL : L.finalPositionSound) (game : Game)
    (engine engine2 : Engine G) (uci : String)
    (hinv : game.finishedTerminal L)
    (hfen : NewEngineFromFEN L game.CurrentFEN = .ok engine)
    (hmv : Engine.MakeMove L engine uci = .ok engine2) :
    (MakeMove.gameRow L game engine2).finishedTerminal L := by
  intro hs
  by_cases hout : Engine.GetOutcome L engine2 ≠ ""
  · obtain ⟨engine3, h3, ho⟩ := hL game.CurrentFEN engine engine2 uci hfen hmv hout
    refine ⟨engine3, ?_, ho⟩
    unfold MakeMove.gameRow
    rw [if_pos hout]
    exact h3
  · exfalso
    unfold MakeMove.gameRow at hs
    rw [if_neg hout] at hs
    obtain ⟨engine0, h0, ho⟩ := hinv hs
    rw [hfen] at h0
    cases h0
    unfold Engine.MakeMove at hmv
    rw [if_pos ho] at hmv
    cases hmv

/-- Every call of the game service keeps the invariant of finished games on every
game row. -/
theorem ServiceCall_run_finishedTerminal (L : ChessLib P G M) (Pow : ℚ → ℚ → ℚ)
    (hL : L.finalPositionSound) (db : DB) (c : ServiceCall)
    (h : ∀ g ∈ db.games, g.finishedTerminal L) :
    ∀ g ∈ (c.run L Pow db).games, g.finishedTerminal L := by
  cases c with
  | createGame f whitePlayerID timeControl =>
    simp only [ServiceCall.run]
    rw [CreateGame_eq]
    split_ifs
    · exact h
    · intro g hg
      rcases List.mem_append.mp hg with hg | hg
      · exact h g hg
      · rw [List.mem_singleton.mp hg]
        intro hs
        cases hs
  | joinGame f gameID blackPlayerID =>
    simp only [ServiceCall.run]
    rcases JoinGame_cases f db gameID blackPlayerID with
      ⟨e, he⟩ | ⟨game, hfind, hs, hw, _, _, hj⟩
    · rw [he]
      exact h
    · rw [hj]
      intro g hg
      rcases mem_saveGame _ _ _ hg with hg | hg
      · rw [hg]
        intro h2
        cases h2
      · exact h g hg
  | makeMove f gameID playerID uci =>
    simp only [ServiceCall.run]
    rcases MakeMove_effect L Pow f db gameID playerID uci with
      ⟨e, he⟩ | ⟨game, engine, engine2, n, hfind, hpart, hfen, hwt, _, hmv, hm⟩
    · rw [he]
      exact h
    · rw [hm]
      intro g hg
      rcases mem_saveGame _ _ _ hg with hg | hg
      · rw [hg]
        exact gameRow_finishedTerminal L hL game engine engine2 uci
          (h game (findGame_some _ _ _ hfind).2) hfen hmv
      · exact h g hg

theorem runCalls_finishedTerminal (L : ChessLib P G M) (Pow : ℚ → ℚ → ℚ)
    (hL : L.finalPositionSound) (calls : List ServiceCall) :
    ∀ db : DB, (∀ g ∈ db.games, g.finishedTerminal L) →
      ∀ g ∈ (runCalls L Pow db calls).games, g.finishedTerminal L := by
  induction calls with
  | nil =>
    intro db h
    exact h
  | cons c cs ih =>
    intro db h
    exact ih _ (ServiceCall_run_finishedTerminal L Pow hL db c h)

/-- The rules of the Fool's mate line satisfy the fact about final positions. -/
theorem lineLib_finalPositionSound : lineLib.finalPositionSound := by
  intro fen engine engine2 uci _ _ hout
  have hpos : engine2.game.pos = fen4 := by
    by_contra hne
    apply hout
    simp [Engine.GetOutcome, lineLib, hne]
  refine ⟨{ game := { pos := fen4, log := [] } }, ?_, by decide⟩
  have : Engine.GetFEN lineLib engine2 = fen4 := hpos
  rw [this]
  decide

/-! ## Session hub: lemmas -/

theorem deliver_open (Data : Frame) (h : Hub) (client : Client)
    (hopen : (h.Send client).closed = false) :
    Hub.deliver Data h client = .ok
      (if (h.Send client).buf.length < (h.Send client).cap then
        { h with
          Send := Function.update h.Send client
            { h.Send client with buf := (h.Send client).buf ++ [Data] } }
      else
        { clients := Hub.delete h.clients client
          Send := Function.update h.Send client { h.Send client with closed := true } }) := by
  unfold Hub.deliver Chan.trySend Chan.close
  by_cases hroom : (h.Send client).buf.length < (h.Send client).cap
  · simp only [hopen, Bool.false_eq_true, if_false, hroom, if_true]
  · simp only [hopen, Bool.false_eq_true, if_false, hroom]

theorem delete_filter (clients : Nat → Option (List Client)) (c : Client) (g : Nat) :
    Hub.delete clients c g =
      (clients g).map (List.filter (fun x => decide (¬ (x = c ∧ x.GameID = g)))) := by
  unfold Hub.delete
  cases hcl : clients c.GameID with
  | none =>
    simp only []
    cases hg : clients g with
    | none => rfl
    | some l =>
      simp only [Option.map_some']
      congr 1
      symm
      rw [List.filter_eq_self]
      intro x _
      simp only [decide_eq_true_eq]
      rintro ⟨rfl, hx⟩
      rw [hx, hg] at hcl
      cases hcl
  | some inner =>
    simp only []
    by_cases hg : g = c.GameID
    · subst hg
      simp only [Function.update_same, hcl, Option.map_some']
      congr 1
      apply List.filter_congr
      intro x _
      by_cases hx : x = c
      · subst hx
        simp
      · simp [hx]
    · rw [Function.update_noteq hg]
      cases clients g with
      | none => rfl
      | some l =>
        simp only [Option.map_some']
        congr 1
        symm
        rw [List.filter_eq_self]
        intro x _
        simp only [decide_eq_true_eq]
        rintro ⟨rfl, hx⟩
        exact hg hx.symm

/-- One delivery to a client with an open channel, in terms of the registry. -/
theorem deliver_spec (Data : Frame) (h : Hub) (c : Client)
    (hopen : (h.Send c).closed = false) :
    ∃ h1, Hub.deliver Data h c = .ok h1 ∧
      (∀ x, x ≠ c → h1.Send x = h.Send x) ∧
      (h1.Send c =
        if (h.Send c).buf.length < (h.Send c).cap then
          { h.Send c with buf := (h.Send c).buf ++ [Data] }
        else { h.Send c with closed := true }) ∧
      ∀ g, ∃ p : Client → Bool,
        h1.clients g = (h.clients g).map (List.filter p) ∧
        ∀ x, p x = true ↔
          ¬ (x = c ∧ x.GameID = g ∧ ¬ (h.Send x).buf.length < (h.Send x).cap) := by
  refine ⟨_, deliver_open Data h c hopen, ?_, ?_, ?_⟩
  · intro x hx
    split_ifs <;> simp [Function.update_noteq hx]
  · split_ifs <;> simp
  · intro g
    by_cases hroom : (h.Send c).buf.length < (h.Send c).cap
    · rw [if_pos hroom]
      refine ⟨fun _ => true, ?_, ?_⟩
      · cases h.clients g <;> simp
      · intro x
        simp only [true_iff]
        rintro ⟨rfl, _, hx⟩
        exact hx hroom
    · rw [if_neg hroom]
      refine ⟨fun x => decide (¬ (x = c ∧ x.GameID = g)), delete_filter h.clients c g, ?_⟩
      intro x
      simp only [decide_eq_true_eq]
      constructor
      · rintro hx ⟨h1, h2, _⟩
        exact hx ⟨h1, h2⟩
      · rintro hx ⟨rfl, h2⟩
        exact hx ⟨rfl, h2, hroom⟩

/-- Effect of the loop over a snapshot without repetition whose channels are open:
no panic; the channel of a client of the snapshot gets the frame when it has room
and is closed when it is full; each inner map loses the clients of the snapshot
that belong to its game and were full. -/
theorem deliverAll_spec (Data : Frame) (l : List Client) :
    ∀ h : Hub, l.Nodup → (∀ c ∈ l, (h.Send c).closed = false) →
      ∃ h2, Hub.deliverAll Data h l = .ok h2 ∧
        (∀ c, h2.Send c =
          if c ∈ l then
            if (h.Send c).buf.length < (h.Send c).cap then
              { h.Send c with buf := (h.Send c).buf ++ [Data] }
            else { h.Send c with closed := true }
          else h.Send c) ∧
        ∀ g, ∃ p : Client → Bool,
          h2.clients g = (h.clients g).map (List.filter p) ∧
          ∀ x, p x = true ↔
            ¬ (x ∈ l ∧ x.GameID = g ∧ ¬ (h.Send x).buf.length < (h.Send x).cap) := by
  induction l with
  | nil =>
    intro h _ _
    refine ⟨h, rfl, fun c => by simp, fun g => ⟨fun _ => true, ?_, by simp⟩⟩
    cases h.clients g <;> simp
  | cons c rest ih =>
    intro h hnd hopen
    have hc : c ∉ rest := (List.nodup_cons.mp hnd).1
    have hrest : rest.Nodup := (List.nodup_cons.mp hnd).2
    have hco : (h.Send c).closed = false := hopen c (List.mem_cons_self _ _)
    obtain ⟨h1, hd, hs1, hs1c, hc1⟩ := deliver_spec Data h c hco
    obtain ⟨h2, hrun, hsend, hcl⟩ := ih h1 hrest (fun x hx => by
      have hxc : x ≠ c := fun e => hc (e ▸ hx)
      rw [hs1 x hxc]
      exact hopen x (List.mem_cons_of_mem _ hx))
    refine ⟨h2, ?_, ?_, ?_⟩
    · unfold Hub.deliverAll
      rw [hd]
      exact hrun
    · intro x
      rw [hsend x]
      by_cases hxc : x = c
      · subst hxc
        simp [hc, hs1c]
      · rw [hs1 x hxc]
        simp [hxc]
    · intro g
      obtain ⟨p1, hp1, hp1s⟩ := hcl g
      obtain ⟨p0, hp0, hp0s⟩ := hc1 g
      refine ⟨fun x => p0 x && p1 x, ?_, ?_⟩
      · rw [hp1, hp0]
        cases h.clients g with
        | none => rfl
        | some cl => simp [List.filter_filter, Bool.and_comm]
      · intro x
        simp only [Bool.and_eq_true, hp0s, hp1s, List.mem_cons]
        by_cases hxc : x = c
        · subst hxc
          simp [hc]
        · rw [hs1 x hxc]
          simp [hxc]

/-- The loop of a broadcast does not depend on the order in which the snapshot
lists the clients. -/
theorem deliverAll_perm (Data : Frame) (h : Hub) (l1 l2 : List Client) (hperm : l1.Perm l2)
    (hnd : l1.Nodup) (hopen : ∀ c ∈ l1, (h.Send c).closed = false) :
    ∃ h1 h2, Hub.deliverAll Data h l1 = .ok h1 ∧ Hub.deliverAll Data h l2 = .ok h2 ∧
      h1.Send = h2.Send ∧ h1.clients = h2.clients := by
  obtain ⟨h1, hrun1, hs1, hc1⟩ := deliverAll_spec Data l1 h hnd hopen
  obtain ⟨h2, hrun2, hs2, hc2⟩ := deliverAll_spec Data l2 h (hperm.nodup_iff.mp hnd)
    (fun c hc => hopen c (hperm.mem_iff.mpr hc))
  refine ⟨h1, h2, hrun1, hrun2, ?_, ?_⟩
  · funext c
    rw [hs1 c, hs2 c]
    simp only [hperm.mem_iff]
  · funext g
    obtain ⟨p1, hp1, hps1⟩ := hc1 g
    obtain ⟨p2, hp2, hps2⟩ := hc2 g
    rw [hp1, hp2]
    cases h.clients g with
    | none => rfl
    | some l =>
      simp only [Option.map_some', Option.some.injEq]
      apply List.filter_congr
      intro x _
      rw [Bool.eq_iff_iff, hps1 x, hps2 x, hperm.mem_iff]

theorem registered_iff (h : Hub) (g : Nat) (c : Client) :
    h.registered g c ↔ ∃ l, h.clients g = some l ∧ c ∈ l := by
  unfold Hub.registered
  cases h.clients g <;> simp

/-- A broadcast on a well-formed registry does not panic; its effect on the
channels and on the inner maps. -/
theorem onBroadcast_spec (h : Hub) (message : BroadcastMessage) (hwf : h.wellFormed) :
    ∃ h2, h.onBroadcast message = .ok h2 ∧
      (∀ c, h2.Send c =
        if h.registered message.GameID c then
          if (h.Send c).buf.length < (h.Send c).cap then
            { h.Send c with buf := (h.Send c).buf ++ [message.Data] }
          else { h.Send c with closed := true }
        else h.Send c) ∧
      ∀ g, ∃ p : Client → Bool,
        h2.clients g = (h.clients g).map (List.filter p) ∧
        ∀ x, p x = true ↔
          ¬ (h.registered message.GameID x ∧ x.GameID = g ∧
            ¬ (h.Send x).buf.length < (h.Send x).cap) := by
  unfold Hub.onBroadcast
  cases hcl : h.clients message.GameID with
  | none =>
    have hreg : ∀ x, ¬ h.registered message.GameID x := by
      intro x
      simp [Hub.registered, hcl]
    obtain ⟨h2, hrun, hs, hc⟩ := deliverAll_spec message.Data [] h List.nodup_nil (by simp)
    refine ⟨h2, hrun, ?_, ?_⟩
    · intro c
      rw [hs c]
      simp [hreg c]
    · intro g
      obtain ⟨p, hp, hps⟩ := hc g
      refine ⟨p, hp, fun x => ?_⟩
      rw [hps x]
      simp [hreg x]
  | some l =>
    have hreg : ∀ x, h.registered message.GameID x ↔ x ∈ l := by
      intro x
      simp [Hub.registered, hcl]
    obtain ⟨hnd, hl⟩ := hwf _ _ hcl
    obtain ⟨h2, hrun, hs, hc⟩ := deliverAll_spec message.Data l h hnd (fun c hc => (hl c hc).2)
    refine ⟨h2, hrun, ?_, ?_⟩
    · intro c
      rw [hs c]
      simp only [hreg c]
    · intro g
      obtain ⟨p, hp, hps⟩ := hc g
      refine ⟨p, hp, fun x => ?_⟩
      rw [hps x, hreg x]

theorem invariant_mono (h : Hub) (seen seen2 : List Client) (hsub : ∀ c ∈ seen, c ∈ seen2)
    (hinv : h.invariant seen) : h.invariant seen2 :=
  ⟨hinv.1, fun g l hg c hc => hsub c (hinv.2.1 g l hg c hc),
    fun c hc => hsub c (hinv.2.2 c hc)⟩

theorem onBroadcast_invariant (h : Hub) (message : BroadcastMessage) (seen : List Client)
    (hinv : h.invariant seen) :
    ∃ h2, h.onBroadcast message = .ok h2 ∧ h2.invariant seen := by
  obtain ⟨hwf, hreg, hclosed⟩ := hinv
  obtain ⟨h2, hrun, hs, hc⟩ := onBroadcast_spec h message hwf
  refine ⟨h2, hrun, ?_, ?_, ?_⟩
  · intro g l2 hg
    obtain ⟨p, hp, hps⟩ := hc g
    rw [hg] at hp
    cases hcl : h.clients g with
    | none => simp [hcl] at hp
    | some l =>
      rw [hcl, Option.map_some', Option.some.injEq] at hp
      obtain ⟨hnd, hl⟩ := hwf g l hcl
      subst hp
      refine ⟨hnd.filter _, ?_⟩
      intro c hcm
      obtain ⟨hcl2, hpc⟩ := List.mem_filter.mp hcm
      refine ⟨(hl c hcl2).1, ?_⟩
      rw [hs c]
      have hnot := (hps c).mp hpc
      by_cases hr : h.registered message.GameID c
      · rw [if_pos hr]
        by_cases hroom : (h.Send c).buf.length < (h.Send c).cap
        · rw [if_pos hroom]
          exact (hl c hcl2).2
        · exfalso
          exact hnot ⟨hr, (hl c hcl2).1, hroom⟩
      · rw [if_neg hr]
        exact (hl c hcl2).2
  · intro g l2 hg c hcm
    obtain ⟨p, hp, _⟩ := hc g
    rw [hg] at hp
    cases hcl : h.clients g with
    | none => simp [hcl] at hp
    | some l =>
      rw [hcl, Option.map_some', Option.some.injEq] at hp
      subst hp
      exact hreg g l hcl c (List.mem_filter.mp hcm).1
  · intro c hcc
    rw [hs c] at hcc
    by_cases hr : h.registered message.GameID c
    · obtain ⟨l, hl, hcl⟩ := (registered_iff h _ c).mp hr
      exact hreg _ l hl c hcl
    · rw [if_neg hr] at hcc
      exact hclosed c hcc

theorem onRegister_invariant (h : Hub) (c : Client) (seen : List Client)
    (hinv : h.invariant seen) (hnew : c ∉ seen) : (h.onRegister c).invariant (c :: seen) := by
  obtain ⟨hwf, hreg, hclosed⟩ := hinv
  have hopen : (h.Send c).closed = false := by
    cases hcc : (h.Send c).closed with
    | false => rfl
    | true => exact absurd (hclosed c hcc) hnew
  have key : ∀ g l2, (h.onRegister c).clients g = some l2 →
      (g ≠ c.GameID ∧ h.clients g = some l2) ∨
        (g = c.GameID ∧ ∃ l, (h.clients g = some l ∨ (h.clients g = none ∧ l = [])) ∧
          l2 = if c ∈ l then l else l ++ [c]) := by
    intro g l2 hg
    unfold Hub.onRegister at hg
    by_cases hgc : g = c.GameID
    · subst hgc
      right
      refine ⟨rfl, ?_⟩
      simp only [Function.update_same, Option.some.injEq] at hg
      cases hcl : h.clients c.GameID with
      | none =>
        rw [hcl] at hg
        exact ⟨[], Or.inr ⟨rfl, rfl⟩, hg.symm⟩
      | some l =>
        rw [hcl] at hg
        exact ⟨l, Or.inl rfl, hg.symm⟩
    · left
      simp only [Function.update_noteq hgc] at hg
      exact ⟨hgc, hg⟩
  have hS : (h.onRegister c).Send = h.Send := rfl
  have hl0 : ∀ g l, (h.clients g = some l ∨ (h.clients g = none ∧ l = [])) →
      l.Nodup ∧ (∀ x ∈ l, (x.GameID = g ∧ (h.Send x).closed = false) ∧ x ∈ seen) := by
    intro g l hl
    rcases hl with hl | ⟨_, rfl⟩
    · exact ⟨(hwf g l hl).1, fun x hx => ⟨(hwf g l hl).2 x hx, hreg g l hl x hx⟩⟩
    · exact ⟨List.nodup_nil, by simp⟩
  refine ⟨?_, ?_, ?_⟩
  · intro g l2 hg
    rw [hS]
    rcases key g l2 hg with ⟨_, hl⟩ | ⟨rfl, l, hl, rfl⟩
    · exact hwf g l2 hl
    · obtain ⟨hnd, hx⟩ := hl0 _ l hl
      by_cases hcl : c ∈ l
      · rw [if_pos hcl]
        exact ⟨hnd, fun x hxl => (hx x hxl).1⟩
      · rw [if_neg hcl]
        refine ⟨?_, ?_⟩
        · rw [List.nodup_append]
          refine ⟨hnd, List.nodup_singleton c, ?_⟩
          intro a ha hb
          rw [List.mem_singleton] at hb
          exact hcl (hb ▸ ha)
        · intro x hxl
          rcases List.mem_append.mp hxl with hxl | hxl
          · exact (hx x hxl).1
          · rw [List.mem_singleton] at hxl
            subst hxl
            exact ⟨rfl, hopen⟩
  · intro g l2 hg x hx
    rcases key g l2 hg with ⟨_, hl⟩ | ⟨rfl, l, hl, rfl⟩
    · exact List.mem_cons_of_mem _ (hreg g l2 hl x hx)
    · obtain ⟨_, hxs⟩ := hl0 _ l hl
      by_cases hcl : c ∈ l
      · rw [if_pos hcl] at hx
        exact List.mem_cons_of_mem _ (hxs x hx).2
      · rw [if_neg hcl] at hx
        rcases List.mem_append.mp hx with hx | hx
        · exact List.mem_cons_of_mem _ (hxs x hx).2
        · rw [List.mem_singleton] at hx
          subst hx
          exact List.mem_cons_self _ _
  · intro x hx
    rw [hS] at hx
    exact List.mem_cons_of_mem _ (hclosed x hx)

theorem onUnregister_present (h : Hub) (c : Client) (l : List Client)
    (hl : h.clients c.GameID = some l) (hc : c ∈ l) (hopen : (h.Send c).closed = false) :
    h.onUnregister c = .ok
      { clients :=
          Function.update h.clients c.GameID
            (if l.filter (fun x => x ≠ c) = [] then none
              else some (l.filter (fun x => x ≠ c)))
        Send := Function.update h.Send c { h.Send c with closed := true } } := by
  unfold Hub.onUnregister Chan.close
  simp only [hl, hc, if_true, hopen, Bool.false_eq_true, if_false, List.length_eq_zero]
  split_ifs <;> rfl

theorem onUnregister_absent (h : Hub) (c : Client) (hc : ¬ h.registered c.GameID c) :
    h.onUnregister c = .ok h := by
  unfold Hub.registered at hc
  unfold Hub.onUnregister
  cases hl : h.clients c.GameID with
  | none => rfl
  | some l =>
    rw [hl] at hc
    have hc2 : c ∉ l := hc
    simp only [hc2, if_false]

theorem onUnregister_invariant (h : Hub) (c : Client) (seen : List Client)
    (hinv : h.invariant seen) :
    ∃ h2, h.onUnregister c = .ok h2 ∧ h2.invariant seen := by
  by_cases hr : h.registered c.GameID c
  · obtain ⟨hwf, hreg, hclosed⟩ := hinv
    obtain ⟨l, hl, hcl⟩ := (registered_iff h _ c).mp hr
    obtain ⟨hnd, hlx⟩ := hwf _ l hl
    refine ⟨_, onUnregister_present h c l hl hcl (hlx c hcl).2, ?_, ?_, ?_⟩
    · intro g l2 hg
      by_cases hgc : g = c.GameID
      · subst hgc
        simp only [Function.update_same] at hg
        split_ifs at hg with hempty
        rw [Option.some.injEq] at hg
        subst hg
        refine ⟨hnd.filter _, ?_⟩
        intro x hx
        obtain ⟨hxl, hxc⟩ := List.mem_filter.mp hx
        have hxc2 : x ≠ c := by simpa using hxc
        refine ⟨(hlx x hxl).1, ?_⟩
        simp only [Function.update_noteq hxc2]
        exact (hlx x hxl).2
      · simp only [Function.update_noteq hgc] at hg
        obtain ⟨hnd2, hlx2⟩ := hwf g l2 hg
        refine ⟨hnd2, ?_⟩
        intro x hx
        refine ⟨(hlx2 x hx).1, ?_⟩
        have hxc2 : x ≠ c := by
          rintro rfl
          exact hgc (hlx2 x hx).1.symm
        simp only [Function.update_noteq hxc2]
        exact (hlx2 x hx).2
    · intro g l2 hg x hx
      by_cases hgc : g = c.GameID
      · subst hgc
        simp only [Function.update_same] at hg
        split_ifs at hg with hempty
        rw [Option.some.injEq] at hg
        subst hg
        exact hreg _ l hl x (List.mem_filter.mp hx).1
      · simp only [Function.update_noteq hgc] at hg
        exact hreg g l2 hg x hx
    · intro x hx
      by_cases hxc : x = c
      · subst hxc
        exact hreg _ l hl x hcl
      · simp only [Function.update_noteq hxc] at hx
        exact hclosed x hx
  · exact ⟨h, onUnregister_absent h c hr, hinv⟩

theorem NewHub_invariant (Send : Client → Chan) (hopen : ∀ c, (Send c).closed = false) :
    (NewHub Send).invariant [] := by
  refine ⟨?_, ?_, ?_⟩
  · intro g l hg
    simp [NewHub] at hg
  · intro g l hg
    simp [NewHub] at hg
  · intro c hc
    rw [show (NewHub Send).Send c = Send c from rfl, hopen c] at hc
    cases hc

/-- A run in which no client is registered twice, from a state that satisfies the
invariant for clients that are not registered again: no step panics and the
invariant holds at the end. -/
theorem Run_invariant (events : List HubEvent) :
    ∀ (h : Hub) (seen : List Client), h.invariant seen → (registrations events).Nodup →
      (∀ c ∈ registrations events, c ∉ seen) →
      ∃ h2 seen2, Hub.Run h events = .ok h2 ∧ h2.invariant seen2 := by
  induction events with
  | nil =>
    intro h seen hinv _ _
    exact ⟨h, seen, rfl, hinv⟩
  | cons e rest ih =>
    intro h seen hinv hnd hnew
    cases e with
    | register c =>
      simp only [registrations, List.nodup_cons] at hnd
      have hnew2 : ∀ x ∈ registrations rest, x ∉ c :: seen := by
        intro x hx hmem
        rcases List.mem_cons.mp hmem with rfl | hmem
        · exact hnd.1 hx
        · exact hnew x (by simp [registrations, hx]) hmem
      obtain ⟨h2, seen2, hrun, hinv2⟩ := ih (h.onRegister c) (c :: seen)
        (onRegister_invariant h c seen hinv (hnew c (by simp [registrations]))) hnd.2 hnew2
      exact ⟨h2, seen2, by simpa [Hub.Run, Hub.step] using hrun, hinv2⟩
    | unregister c =>
      simp only [registrations] at hnd hnew
      obtain ⟨h1, hstep, hinv1⟩ := onUnregister_invariant h c seen hinv
      obtain ⟨h2, seen2, hrun, hinv2⟩ := ih h1 seen hinv1 hnd hnew
      refine ⟨h2, seen2, ?_, hinv2⟩
      simp only [Hub.Run, Hub.step, hstep]
      exact hrun
    | broadcast message =>
      simp only [registrations] at hnd hnew
      obtain ⟨h1, hstep, hinv1⟩ := onBroadcast_invariant h message seen hinv
      obtain ⟨h2, seen2, hrun, hinv2⟩ := ih h1 seen hinv1 hnd hnew
      refine ⟨h2, seen2, ?_, hinv2⟩
      simp only [Hub.Run, Hub.step, hstep]
      exact hrun

theorem registrations_take (events : List HubEvent) :
    ∀ n, (registrations (events.take n)).Sublist (registrations events) := by
  induction events with
  | nil =>
    intro n
    simp [registrations]
  | cons e rest ih =>
    intro n
    cases n with
    | zero => simp [registrations]
    | succ n =>
      cases e with
      | register c =>
        simp only [List.take_succ_cons, registrations]
        exact (ih n).cons₂ c
      | unregister c =>
        simp only [List.take_succ_cons, registrations]
        exact ih n
      | broadcast message =>
        simp only [List.take_succ_cons, registrations]
        exact ih n

/-! ## Session endpoint: lemmas -/

theorem ValidateRefreshToken_ok (J : JWTLib) (tokenString secret : String) (claims : Claims)
    (h : ValidateRefreshToken J tokenString secret = .ok claims) :
    ValidateToken J tokenString secret = .ok claims ∧ claims.TokenType = TokenTypeRefresh := by
  unfold ValidateRefreshToken at h
  cases hv : ValidateToken J tokenString secret with
  | error err =>
    rw [hv] at h
    cases h
  | ok c =>
    rw [hv] at h
    simp only [] at h
    split_ifs at h with ht
    cases h
    exact ⟨rfl, not_not.mp ht⟩

/-- The answers of `HandleWebSocket` that end the request before the upgrade: the
hub is as before, so no client is registered and no frame is put on a channel. -/
theorem HandleWebSocket_rejects (J : JWTLib) (f : Faults) (upgrade : Bool) (addr : Nat)
    (h : WSHandler) (id token : String) (gameID : Nat) (hid : ParseUint id 32 = some gameID) :
    (token = "" →
      HandleWebSocket J f upgrade addr h id token =
        (h.hub, .json StatusUnauthorized "token required")) ∧
    (token ≠ "" → (∃ err, ValidateToken J token h.JWTSecret = .error err) →
      HandleWebSocket J f upgrade addr h id token =
        (h.hub, .json StatusUnauthorized "invalid token")) ∧
    (∀ claims, token ≠ "" → ValidateToken J token h.JWTSecret = .ok claims →
      (∃ err, GetGame f h.service gameID = .error err) →
      HandleWebSocket J f upgrade addr h id token =
        (h.hub, .json StatusNotFound "game not found")) ∧
    (∀ claims game, token ≠ "" → ValidateToken J token h.JWTSecret = .ok claims →
      GetGame f h.service gameID = .ok game →
      game.WhitePlayerID ≠ some claims.UserID → game.BlackPlayerID ≠ some claims.UserID →
      HandleWebSocket J f upgrade addr h id token =
        (h.hub, .json StatusForbidden "not a player in this game")) := by
  refine ⟨?_, ?_, ?_, ?_⟩
  · intro ht
    unfold HandleWebSocket
    simp only [hid, ht, if_true]
  · rintro ht ⟨err, hv⟩
    unfold HandleWebSocket
    simp only [hid, ht, if_false, hv]
  · rintro claims ht hv ⟨err, hg⟩
    unfold HandleWebSocket
    simp only [hid, ht, if_false, hv, hg]
  · intro claims game ht hv hg hw hb
    unfold HandleWebSocket
    simp only [hid, ht, if_false, hv, hg]
    simp [hw, hb]

/-! ## Claims -/

/-- C1: on a stored game whose position loads, a participant whose colour is not
the side to move gets `ErrNotYourTurn` for every move string, and the store
after the call is the store before it (same position, no move row). -/
theorem makeMove_out_of_turn (L : ChessLib P G M) (Pow : ℚ → ℚ → ℚ) (f : Faults) (db : DB)
    (gameID playerID : Nat) (uci : String) (game : Game) (engine : Engine G)
    (hget : GetGame f db gameID = .ok game)
    (hfen : NewEngineFromFEN L game.CurrentFEN = .ok engine)
    (hturn : game.WhitePlayerID = some playerID ∧ L.Turn (L.Position engine.game) ≠ .White ∨
      game.BlackPlayerID = some playerID ∧ L.Turn (L.Position engine.game) ≠ .Black) :
    MakeMove L Pow f db gameID playerID uci = (db, .error .ErrNotYourTurn) := by
  unfold MakeMove
  rw [hget]
  simp only []
  rw [hfen]
  simp only []
  rcases hturn with ⟨hw, ht⟩ | ⟨hb, ht⟩
  · have hturn : Engine.IsWhiteTurn L engine = false := by
      rw [← Bool.not_eq_true, IsWhiteTurn_iff]
      exact ht
    simp [hw, hturn]
  · have hturn : Engine.IsBlackTurn L engine = false := by
      rw [← Bool.not_eq_true, IsBlackTurn_iff]
      exact ht
    simp [hb, hturn]

theorem makeMove_out_of_turn_witness :
    GetGame noFaults dbPly1 1 = .ok (game1 (some 2) .active "" fen1 "f2f3") ∧
      MakeMove lineLib powFloor noFaults dbPly1 1 1 "f3f4" = (dbPly1, .error .ErrNotYourTurn) :=
  ⟨by decide,
    makeMove_out_of_turn lineLib powFloor noFaults dbPly1 1 1 "f3f4"
      (game1 (some 2) .active "" fen1 "f2f3") { game := { pos := fen1, log := [] } }
      (by decide) (by decide) (Or.inl ⟨by decide, by decide⟩)⟩

/-- C2, as stated, fails: game 1 is finished by the mate and white is to move in
its position; a move of black, a participant, is answered with `ErrNotYourTurn`,
not with `ErrGameFinished`. -/
theorem makeMove_finished_not_on_turn :
    GetGame noFaults dbMate 1 = .ok (game1 (some 2) .finished "black_wins" fen4 "d8h4") ∧
      MakeMove lineLib powFloor noFaults dbMate 1 2 "a7a6" = (dbMate, .error .ErrNotYourTurn) := by
  decide

/-- C2, amended: the rules library loads the position in which a move ended a game
as the position of a game that has ended. In a store reached from a store without
games by calls of `CreateGame`, `JoinGame` and `MakeMove`, on a game whose status
is finished, for every participant and every move string, `MakeMove` leaves the
store unchanged and returns `ErrGameFinished` when the colour of the participant
is the side to move in the final position, and `ErrNotYourTurn` when it is not. -/
theorem makeMove_finished_game (L : ChessLib P G M) (hL : L.finalPositionSound)
    (Pow : ℚ → ℚ → ℚ) (db0 : DB) (h0 : db0.games = []) (calls : List ServiceCall) (f : Faults)
    (gameID playerID : Nat) (uci : String) (game : Game)
    (hget : GetGame f (runCalls L Pow db0 calls) gameID = .ok game)
    (hfin : game.Status = .finished)
    (hpart : game.WhitePlayerID = some playerID ∨ game.BlackPlayerID = some playerID) :
    ∃ engine, NewEngineFromFEN L game.CurrentFEN = .ok engine ∧
      MakeMove L Pow f (runCalls L Pow db0 calls) gameID playerID uci =
        (runCalls L Pow db0 calls, .error
          (if game.WhitePlayerID = some playerID ∧ L.Turn (L.Position engine.game) ≠ .White ∨
              game.BlackPlayerID = some playerID ∧ L.Turn (L.Position engine.game) ≠ .Black
            then .ErrNotYourTurn else .ErrGameFinished)) := by
  have hmem := (findGame_some _ _ _ (GetGame_ok _ _ _ _ hget).2).2
  obtain ⟨engine, hfen, hout⟩ := runCalls_finishedTerminal L Pow hL calls db0
    (by rw [h0]; simp) game hmem hfin
  exact ⟨engine, hfen, MakeMove_ended L Pow f _ gameID playerID uci game engine hget hpart hfen
    hout⟩

theorem makeMove_finished_game_witness :
    runCalls lineLib powFloor dbUsers mateCalls = dbMate ∧
      MakeMove lineLib powFloor noFaults dbMate 1 1 "e1f2" = (dbMate, .error .ErrGameFinished) ∧
      ∃ engine, NewEngineFromFEN lineLib fen4 = .ok engine ∧
        MakeMove lineLib powFloor noFaults (runCalls lineLib powFloor dbUsers mateCalls) 1 1
            "e1f2" =
          (runCalls lineLib powFloor dbUsers mateCalls, .error
            (if (some 1 : Option Nat) = some 1 ∧
                  lineLib.Turn (lineLib.Position engine.game) ≠ .White ∨
                (some 2 : Option Nat) = some 1 ∧
                  lineLib.Turn (lineLib.Position engine.game) ≠ .Black
              then .ErrNotYourTurn else .ErrGameFinished)) :=
  ⟨by decide!, by decide,
    makeMove_finished_game lineLib lineLib_finalPositionSound powFloor dbUsers rfl mateCalls
      noFaults 1 1 "e1f2" (game1 (some 2) .finished "black_wins" fen4 "d8h4") (by decide!) rfl
      (Or.inl rfl)⟩

/-- C3 fails on the code: on game 1 without move rows white moves `f2f3`, then
black moves `e7e5` in a call whose `Count` query fails. `MakeMove` does not look at
the error of `Count` and takes the count to be 0: both calls succeed, the second
returns ply number 1 again, and the move rows of the game have the ply numbers
1 and 1. -/
theorem count_error_repeats_ply_number :
    returnedMoves lineLib powFloor dbActive
        [{ faults := noFaults, gameID := 1, playerID := 1, uci := "f2f3" },
         { faults := { noFaults with count := true }, gameID := 1, playerID := 2,
           uci := "e7e5" }] =
      [move1, { move2 with PlyNumber := 1 }] ∧
    (movesOf
        (runMoves lineLib powFloor dbActive
          [{ faults := noFaults, gameID := 1, playerID := 1, uci := "f2f3" },
           { faults := { noFaults with count := true }, gameID := 1, playerID := 2,
             uci := "e7e5" }]) 1).map (fun m => m.PlyNumber) = [1, 1] := by
  decide!

/-- Ply numbers when every `Count` query succeeds: after a sequence of `MakeMove`
calls whose move counts are read without error, on a game that had no move row,
the ply numbers of the game's move rows are
`1, 2, ..., N` in insertion order, `N` being the number of successful calls on that
game; the rows are the records those calls returned, so the k-th successful call
produced ply number `k`; and every successful call returns the move count plus one. -/
theorem ply_numbers_contiguous (L : ChessLib P G M) (Pow : ℚ → ℚ → ℚ) (db : DB)
    (calls : List MoveCall) (gid : Nat)
    (hcount : ∀ c ∈ calls, c.faults.count = false)
    (hempty : movesOf db gid = []) :
    movesOf (runMoves L Pow db calls) gid =
        (returnedMoves L Pow db calls).filter (fun m => m.GameID == gid) ∧
      (movesOf (runMoves L Pow db calls) gid).map (fun m => m.PlyNumber) =
        List.range' 1 ((returnedMoves L Pow db calls).filter (fun m => m.GameID == gid)).length ∧
      ∀ (f : Faults) (d d2 : DB) (playerID : Nat) (uci : String) (move : Move),
        f.count = false → MakeMove L Pow f d gid playerID uci = (d2, .ok move) →
        move.PlyNumber = countMoves d.moves gid + 1 := by
  obtain ⟨h1, h2⟩ := runMoves_movesOf L Pow gid calls db 0 hcount (by rw [hempty]; rfl)
  rw [hempty, List.nil_append] at h1
  refine ⟨h1, ?_, ?_⟩
  · rw [h1, h2]
  · intro f d d2 playerID uci move hf hok
    rcases MakeMove_moves L Pow f d gid playerID uci with ⟨e, he⟩ | ⟨d3, move3, hok3, _, _, hply⟩
    · rw [he] at hok
      cases hok
    · rw [hok3] at hok
      cases hok
      rw [hply, hf]
      rfl

theorem ply_numbers_contiguous_witness :
    movesOf dbActive 1 = [] ∧
      (movesOf (runMoves lineLib powFloor dbActive lineCalls) 1).map (fun m => m.PlyNumber) =
        [1, 2, 3, 4] ∧
      returnedMoves lineLib powFloor dbActive lineCalls = [move1, move2, move3, move4] :=
  ⟨by decide,
    (ply_numbers_contiguous lineLib powFloor dbActive lineCalls 1 (by decide)
      (by decide)).2.1.trans (by decide!),
    by decide!⟩

/-- C4, at the failing inputs: black mates with `d8h4`. When the `Updates` call on
the white player row fails, and when the white player row fails to load, `MakeMove`
returns the move record and the store holds the move row and the finished game,
with white's row as before the call (and black's row too in the second case). -/
theorem makeMove_commits_without_stats :
    MakeMove lineLib powFloor { noFaults with updatesWhite := true } dbPly3 1 2 "d8h4" =
        ({ dbMate with
            users := [alice, { bob with ELORating := 1216, GamesPlayed := 1, Wins := 1 }] },
          .ok move4) ∧
      MakeMove lineLib powFloor { noFaults with firstWhite := true } dbPly3 1 2 "d8h4" =
        ({ dbMate with users := [alice, bob] }, .ok move4) := by
  decide!

/-- C5 fails on the code: black mates with `d8h4` in a call whose `Updates` on the
black player row fails. `MakeMove` does not look at the result of `Updates`: the
call succeeds, the stored game is finished with result `black_wins` and the row of
white has the new rating 1184, one game played and one loss, but the row of black
is as before the call, with rating 1200 and no game played, where `CalculateELO`
gives black 1216. When instead the load of the black player row fails, the call
succeeds, the game is finished and both player rows are as before the call. -/
theorem makeMove_terminal_without_black_stats :
    MakeMove lineLib powFloor { noFaults with updatesBlack := true } dbPly3 1 2 "d8h4" =
        ({ dbMate with
            users := [{ alice with ELORating := 1184, GamesPlayed := 1, Losses := 1 }, bob] },
          .ok move4) ∧
      MakeMove lineLib powFloor { noFaults with firstBlack := true } dbPly3 1 2 "d8h4" =
        ({ dbMate with users := [alice, bob] }, .ok move4) ∧
      findGame dbMate.games 1 = some (game1 (some 2) .finished "black_wins" fen4 "d8h4") ∧
      CalculateELO powFloor alice.ELORating bob.ELORating "black_wins" = (1184, 1216) ∧
      bob.ELORating = 1200 ∧ bob.GamesPlayed = 0 := by
  decide!

/-- Effects of a terminal move when no storage call fails: a successful `MakeMove`
without storage errors, in a game of two distinct stored players, after which the
engine reports an outcome: the outcome is one of
`white_wins`, `black_wins`, `draw`; the stored game is finished with that result;
each player row has the rating computed by `CalculateELO` from the two old ratings,
`games_played` raised by one and the one counter of the outcome raised by one, all
other columns as before. Two ratings of 1200 and a win of black give 1184 and 1216. -/
theorem makeMove_terminal_effects (L : ChessLib P G M) (Pow : ℚ → ℚ → ℚ) (db db2 : DB)
    (gameID playerID : Nat) (uci : String) (move : Move) (game : Game) (engine engine2 : Engine G)
    (whiteID blackID : Nat) (whitePlayer blackPlayer : User)
    (hgame : findGame db.games gameID = some game)
    (hwhite : game.WhitePlayerID = some whiteID) (hblack : game.BlackPlayerID = some blackID)
    (hne : whiteID ≠ blackID)
    (hfw : findUser db.users whiteID = some whitePlayer)
    (hfb : findUser db.users blackID = some blackPlayer)
    (hfen : NewEngineFromFEN L game.CurrentFEN = .ok engine)
    (hmv : Engine.MakeMove L engine uci = .ok engine2)
    (hout : Engine.GetOutcome L engine2 ≠ "")
    (hok : MakeMove L Pow noFaults db gameID playerID uci = (db2, .ok move)) :
    (Engine.GetOutcome L engine2 = "white_wins" ∨ Engine.GetOutcome L engine2 = "black_wins" ∨
        Engine.GetOutcome L engine2 = "draw") ∧
      findGame db2.games gameID =
        some { game with
          CurrentFEN := Engine.GetFEN L engine2
          PGN := Engine.GetPGN L engine2
          Status := .finished
          Result := Engine.GetOutcome L engine2 } ∧
      findUser db2.users whiteID =
        some { whitePlayer with
          ELORating := (CalculateELO Pow whitePlayer.ELORating blackPlayer.ELORating
            (Engine.GetOutcome L engine2)).1
          GamesPlayed := whitePlayer.GamesPlayed + 1
          Wins := whitePlayer.Wins + (if Engine.GetOutcome L engine2 = "white_wins" then 1 else 0)
          Losses :=
            whitePlayer.Losses + (if Engine.GetOutcome L engine2 = "black_wins" then 1 else 0)
          Draws := whitePlayer.Draws + (if Engine.GetOutcome L engine2 = "draw" then 1 else 0) } ∧
      findUser db2.users blackID =
        some { blackPlayer with
          ELORating := (CalculateELO Pow whitePlayer.ELORating blackPlayer.ELORating
            (Engine.GetOutcome L engine2)).2
          GamesPlayed := blackPlayer.GamesPlayed + 1
          Wins := blackPlayer.Wins + (if Engine.GetOutcome L engine2 = "black_wins" then 1 else 0)
          Losses :=
            blackPlayer.Losses + (if Engine.GetOutcome L engine2 = "white_wins" then 1 else 0)
          Draws := blackPlayer.Draws + (if Engine.GetOutcome L engine2 = "draw" then 1 else 0) } ∧
      (Pow 10 0 = 1 → CalculateELO Pow 1200 1200 "black_wins" = (1184, 1216)) := by
  have ho3 : Engine.GetOutcome L engine2 = "white_wins" ∨
      Engine.GetOutcome L engine2 = "black_wins" ∨ Engine.GetOutcome L engine2 = "draw" := by
    rcases GetOutcome_cases L engine2 with h0 | h0
    · exact absurd h0 hout
    · exact h0
  obtain ⟨hgid, _⟩ := findGame_some _ _ _ hgame
  obtain ⟨hwid, _⟩ := findUser_some _ _ _ hfw
  obtain ⟨hbid, _⟩ := findUser_some _ _ _ hfb
  rcases MakeMove_cases L Pow noFaults db gameID playerID uci with
    ⟨e, he⟩ | ⟨game1, engine1, engine3, hget, _, hfen1, hmv1, h⟩
  · rw [he] at hok
    cases hok
  · have hg : game1 = game := by
      have := (GetGame_ok _ _ _ _ hget).2
      rw [hgame] at this
      cases this
      rfl
    subst hg
    rw [hfen] at hfen1
    cases hfen1
    rw [hmv] at hmv1
    cases hmv1
    have hnf : ¬ (noFaults.create = true ∨ noFaults.save = true ∨ noFaults.commit = true) := by
      decide
    rw [h, transaction_eq, if_neg hnf] at hok
    simp only [Prod.mk.injEq] at hok
    obtain ⟨hdb, _⟩ := hok
    subst hdb
    have hrow : MakeMove.gameRow L game1 engine2 =
        { game1 with
          CurrentFEN := Engine.GetFEN L engine2
          PGN := Engine.GetPGN L engine2
          Status := .finished
          Result := Engine.GetOutcome L engine2 } := by
      unfold MakeMove.gameRow
      rw [if_pos hout]
    refine ⟨ho3, ?_, ?_, ?_, CalculateELO_even Pow⟩
    · have := findGame_saveGame db.games (MakeMove.gameRow L game1 engine2)
      rw [(gameRow_players L game1 engine2).2.2, hgid] at this
      rw [← hrow]
      exact this
    · simp only [MakeMove.usersRows, if_pos hout]
      rw [updateStats_noFaults Pow _ _ _ whiteID blackID whitePlayer blackPlayer
        (by rw [(gameRow_players L game1 engine2).1]; exact hwhite)
        (by rw [(gameRow_players L game1 engine2).2.1]; exact hblack) hfw hfb]
      rw [findUser_updateUser_other _ _ _ (blackUpdates_ID _ _ _) (by rw [hbid]; exact hne.symm),
        hwid, findUser_updateUser_self _ _ (whiteUpdates_ID _ _ _) _ _ hfw]
      rcases ho3 with ho | ho | ho <;> rw [ho] <;>
        simp [whiteUpdates, GameResultWhiteWins, GameResultBlackWins, GameResultDraw, hwid]
    · simp only [MakeMove.usersRows, if_pos hout]
      rw [updateStats_noFaults Pow _ _ _ whiteID blackID whitePlayer blackPlayer
        (by rw [(gameRow_players L game1 engine2).1]; exact hwhite)
        (by rw [(gameRow_players L game1 engine2).2.1]; exact hblack) hfw hfb]
      have hfb2 : findUser (updateUser whitePlayer.ID
          (whiteUpdates whitePlayer
            (CalculateELO Pow whitePlayer.ELORating blackPlayer.ELORating
              (Engine.GetOutcome L engine2)).1 (Engine.GetOutcome L engine2)) db.users) blackID =
          some blackPlayer := by
        rw [findUser_updateUser_other _ _ _ (whiteUpdates_ID _ _ _) (by rw [hwid]; exact hne)]
        exact hfb
      rw [hbid, findUser_updateUser_self _ _ (blackUpdates_ID _ _ _) _ _ hfb2]
      rcases ho3 with ho | ho | ho <;> rw [ho] <;>
        simp [blackUpdates, GameResultWhiteWins, GameResultBlackWins, GameResultDraw, hbid]

theorem makeMove_terminal_effects_witness :
    MakeMove lineLib powFloor noFaults dbPly3 1 2 "d8h4" = (dbMate, .ok move4) ∧
      findGame dbMate.games 1 = some (game1 (some 2) .finished "black_wins" fen4 "d8h4") ∧
      findUser dbMate.users 1 =
        some { alice with ELORating := 1184, GamesPlayed := 1, Losses := 1 } ∧
      findUser dbMate.users 2 = some { bob with ELORating := 1216, GamesPlayed := 1, Wins := 1 } := by
  have hok : MakeMove lineLib powFloor noFaults dbPly3 1 2 "d8h4" = (dbMate, .ok move4) := by
    decide!
  have h := makeMove_terminal_effects lineLib powFloor dbPly3 dbMate 1 2 "d8h4" move4
    (game1 (some 2) .active "" fen3 "g2g4") { game := { pos := fen3, log := [] } }
    { game := { pos := fen4, log := ["d8h4"] } } 1 2 alice bob (by decide) (by decide)
    (by decide) (by decide) (by decide) (by decide) (by decide) (by decide) (by decide) hok
  exact ⟨hok, h.2.1, h.2.2.1.trans (by decide!), h.2.2.2.1.trans (by decide!)⟩

/-- C6: the user that `Register` creates satisfies
`games_played = wins + losses + draws` and `Register` keeps it on the stored rows;
every call of `MakeMove`, under any storage errors and whatever it returns, keeps
it on every stored user row, in a store whose games have distinct players. -/
theorem stats_invariant_preserved (L : ChessLib P G M) (Pow : ℚ → ℚ → ℚ) :
    (∀ (env : AuthEnv) (f : RegisterFaults) (db db2 : DB) (username email password : String)
        (user : User),
        Register env f db username email password = (db2, .ok user) →
        user.statsConsistent ∧
          ((∀ u ∈ db.users, u.statsConsistent) → ∀ u ∈ db2.users, u.statsConsistent)) ∧
      ∀ (f : Faults) (db : DB) (gameID playerID : Nat) (uci : String),
        (∀ g ∈ db.games, g.playersDistinct) →
        (∀ u ∈ db.users, u.statsConsistent) →
        ∀ u ∈ (MakeMove L Pow f db gameID playerID uci).1.users, u.statsConsistent := by
  constructor
  · intro env f db db2 username email password user h
    unfold Register at h
    simp only [] at h
    split_ifs at h
    iterate 5 cases h
    · split at h <;> cases h
    split at h
    · cases h
    simp only [Prod.mk.injEq, Except.ok.injEq] at h
    obtain ⟨h1, h2⟩ := h
    subst h1 h2
    refine ⟨by simp [User.statsConsistent], ?_⟩
    intro hall u hu
    simp only [List.mem_append, List.mem_singleton] at hu
    rcases hu with hu | hu
    · exact hall u hu
    · rw [hu]
      simp [User.statsConsistent]
  · intro f db gameID playerID uci hgames husers
    rcases MakeMove_cases L Pow f db gameID playerID uci with
      ⟨e, he⟩ | ⟨game, _, engine2, hget, _, _, _, h⟩
    · rw [he]
      exact husers
    · rw [h, transaction_eq]
      generalize (if f.count then 0 else countMoves db.moves gameID) = n
      by_cases hf : f.create = true ∨ f.save = true ∨ f.commit = true
      · rw [if_pos hf]
        exact husers
      · rw [if_neg hf]
        simp only [MakeMove.usersRows]
        by_cases ho : Engine.GetOutcome L engine2 = ""
        · rw [if_neg (not_not.mpr ho)]
          exact husers
        · rw [if_pos ho]
          have hmem := (findGame_some _ _ _ (GetGame_ok _ _ _ _ hget).2).2
          have hd : (MakeMove.gameRow L game engine2).playersDistinct := by
            unfold Game.playersDistinct
            rw [(gameRow_players L game engine2).1, (gameRow_players L game engine2).2.1]
            exact hgames game hmem
          have ho3 : Engine.GetOutcome L engine2 = "white_wins" ∨
              Engine.GetOutcome L engine2 = "black_wins" ∨
              Engine.GetOutcome L engine2 = "draw" := by
            rcases GetOutcome_cases L engine2 with h0 | h0
            · exact absurd h0 ho
            · exact h0
          exact updateStats_consistent Pow f _ _ _ hd ho3 husers

theorem stats_invariant_preserved_witness :
    (∀ u ∈ dbPly3.users, u.statsConsistent) ∧
      ∀ u ∈ (MakeMove lineLib powFloor noFaults dbPly3 1 2 "d8h4").1.users, u.statsConsistent :=
  ⟨by decide,
    (stats_invariant_preserved lineLib powFloor).2 noFaults dbPly3 1 2 "d8h4" (by decide)
      (by decide)⟩

/-- C8, as stated, fails: from ratings 0 and 0 a win of black leaves white at the
floor 0 and raises black to 16, so the deltas sum to 16; and from two ratings
`MaxInt` a win of white makes the sum for white wrap around to a negative number,
which the floor turns into 0, while black goes down by 16. -/
theorem elo_floor_breaks_zero_sum :
    CalculateELO powFloor 0 0 "black_wins" = (0, 16) ∧
      ((CalculateELO powFloor 0 0 "black_wins").1 - 0) +
        ((CalculateELO powFloor 0 0 "black_wins").2 - 0) ≠ 0 ∧
      CalculateELO powFloor MaxInt MaxInt "white_wins" = (0, MaxInt - 16) ∧
      ((CalculateELO powFloor MaxInt MaxInt "white_wins").1 - MaxInt) +
        ((CalculateELO powFloor MaxInt MaxInt "white_wins").2 - MaxInt) ≠ 0 := by
  decide!

/-- C8, amended: for ratings that are Go integers and not negative and a non-draw
outcome, when the rating of the loser is at least 32 and the rating of the winner
at most `MaxInt - 32`, the two rating deltas returned by `CalculateELO` sum to
zero. The power function is any function with non-negative values at base 10. -/
theorem elo_zero_sum_above_floor (Pow : ℚ → ℚ → ℚ) (hPow : ∀ x, 0 ≤ Pow 10 x) (w b : Int)
    (hw : 0 ≤ w) (hb : 0 ≤ b) (hw2 : w ≤ MaxInt) (hb2 : b ≤ MaxInt) (result : String)
    (hres : result = "white_wins" ∧ 32 ≤ b ∧ w ≤ MaxInt - 32 ∨
      result = "black_wins" ∧ 32 ≤ w ∧ b ≤ MaxInt - 32) :
    ((CalculateELO Pow w b result).1 - w) + ((CalculateELO Pow w b result).2 - b) = 0 := by
  rw [MaxInt_eq] at hw2 hb2 hres
  rcases hres with ⟨h, hl, hu⟩ | ⟨h, hl, hu⟩
  · obtain ⟨d1, d2, d3, d4, hsw, _⟩ := delta_bounds Pow hPow ((wrapInt (b - w) : ℚ) / 400)
      result 1 0 (Or.inl ⟨h, rfl, rfl⟩)
    obtain ⟨d5, d6⟩ := hsw h
    rw [CalculateELO_scored Pow w b result 1 0 (Or.inl ⟨h, rfl, rfl⟩),
      wrapInt_eq (w + _) (by omega) (by omega), wrapInt_eq (b + _) (by omega) (by omega)]
    simp only []
    split_ifs <;> omega
  · obtain ⟨d1, d2, d3, d4, _, hsb⟩ := delta_bounds Pow hPow ((wrapInt (b - w) : ℚ) / 400)
      result 0 1 (Or.inr (Or.inl ⟨h, rfl, rfl⟩))
    obtain ⟨d5, d6⟩ := hsb h
    rw [CalculateELO_scored Pow w b result 0 1 (Or.inr (Or.inl ⟨h, rfl, rfl⟩)),
      wrapInt_eq (w + _) (by omega) (by omega), wrapInt_eq (b + _) (by omega) (by omega)]
    simp only []
    split_ifs <;> omega

theorem elo_zero_sum_above_floor_witness :
    (32 : Int) ≤ 1200 ∧ (1200 : Int) ≤ MaxInt - 32 ∧
      ((CalculateELO powFloor 1200 1200 "black_wins").1 - 1200) +
        ((CalculateELO powFloor 1200 1200 "black_wins").2 - 1200) = 0 :=
  ⟨by decide, by decide,
    elo_zero_sum_above_floor powFloor powFloor_nonneg 1200 1200 (by decide) (by decide)
      (by decide) (by decide) "black_wins" (Or.inr ⟨rfl, by decide, by decide⟩)⟩

/-- C9, as stated, fails: from two ratings `MaxInt` a win of white makes the sum
for white wrap around to a negative number, which the floor turns into 0, so the
rating of white changes by `MaxInt`. -/
theorem elo_overflow_breaks_delta_bound :
    (0 : Int) ≤ MaxInt ∧
      CalculateELO powFloor MaxInt MaxInt "white_wins" = (0, MaxInt - 16) ∧
      ¬ |(CalculateELO powFloor MaxInt MaxInt "white_wins").1 - MaxInt| ≤ 32 := by
  decide!

/-- C9, amended: for ratings that are not negative and at most `MaxInt - 32`, so
that no sum overflows, and every outcome string, each rating returned by
`CalculateELO` differs from the rating given by at most 32. The power function is
any function with non-negative values at base 10. -/
theorem elo_delta_abs_le_32 (Pow : ℚ → ℚ → ℚ) (hPow : ∀ x, 0 ≤ Pow 10 x) (w b : Int)
    (hw : 0 ≤ w) (hb : 0 ≤ b) (hw2 : w ≤ MaxInt - 32) (hb2 : b ≤ MaxInt - 32)
    (result : String) :
    |(CalculateELO Pow w b result).1 - w| ≤ 32 ∧ |(CalculateELO Pow w b result).2 - b| ≤ 32 := by
  rw [MaxInt_eq] at hw2 hb2
  have key : ∀ aw ab : ℚ,
      (result = "white_wins" ∧ aw = 1 ∧ ab = 0 ∨ result = "black_wins" ∧ aw = 0 ∧ ab = 1 ∨
        result = "draw" ∧ aw = 1 / 2 ∧ ab = 1 / 2) →
      |(CalculateELO Pow w b result).1 - w| ≤ 32 ∧
        |(CalculateELO Pow w b result).2 - b| ≤ 32 := by
    intro aw ab h
    obtain ⟨d1, d2, d3, d4, _, _⟩ := delta_bounds Pow hPow ((wrapInt (b - w) : ℚ) / 400)
      result aw ab h
    rw [CalculateELO_scored Pow w b result aw ab h,
      wrapInt_eq (w + _) (by omega) (by omega), wrapInt_eq (b + _) (by omega) (by omega)]
    exact ⟨clamp_delta_bound w _ hw ⟨d1, d2⟩, clamp_delta_bound b _ hb ⟨d3, d4⟩⟩
  by_cases h1 : result = "white_wins"
  · exact key 1 0 (Or.inl ⟨h1, rfl, rfl⟩)
  · by_cases h2 : result = "black_wins"
    · exact key 0 1 (Or.inr (Or.inl ⟨h2, rfl, rfl⟩))
    · by_cases h3 : result = "draw"
      · exact key (1 / 2) (1 / 2) (Or.inr (Or.inr ⟨h3, rfl, rfl⟩))
      · rw [CalculateELO_unknown Pow w b result h1 h2 h3]
        simp

theorem elo_delta_abs_le_32_witness :
    (0 : Int) ≤ 1200 ∧ (1200 : Int) ≤ MaxInt - 32 ∧
      |(CalculateELO powFloor 1200 1200 "black_wins").1 - 1200| ≤ 32 ∧
      |(CalculateELO powFloor 1200 1200 "black_wins").2 - 1200| ≤ 32 :=
  ⟨by decide, by decide,
    elo_delta_abs_le_32 powFloor powFloor_nonneg 1200 1200 (by decide) (by decide) (by decide)
      (by decide) "black_wins"⟩

/-- C10: on an existing game, with the game row saved without error, `JoinGame`
fails with one of the two `GameNotJoinable` errors exactly when the status is not
waiting or the joiner is the white player, and the store is then unchanged;
otherwise it returns the game with the joiner as black player and status active,
every other field as loaded, and that is the stored game afterwards; users and
moves are unchanged. -/
theorem joinGame_outcomes (f : Faults) (db : DB) (gameID joiner : Nat) (game : Game)
    (hget : GetGame f db gameID = .ok game) (hsave : f.save = false) :
    ((∃ e, (JoinGame f db gameID joiner).2 = .error e ∧ e.isGameNotJoinable = true) ↔
        (game.Status ≠ .waiting ∨ game.WhitePlayerID = some joiner)) ∧
      ((game.Status ≠ .waiting ∨ game.WhitePlayerID = some joiner) →
        (JoinGame f db gameID joiner).1 = db) ∧
      (¬ (game.Status ≠ .waiting ∨ game.WhitePlayerID = some joiner) →
        (JoinGame f db gameID joiner).2 =
            .ok { game with BlackPlayerID := some joiner, Status := .active } ∧
          findGame (JoinGame f db gameID joiner).1.games gameID =
            some { game with BlackPlayerID := some joiner, Status := .active } ∧
          (JoinGame f db gameID joiner).1.users = db.users ∧
          (JoinGame f db gameID joiner).1.moves = db.moves) := by
  obtain ⟨hgid, _⟩ := findGame_some _ _ _ (GetGame_ok _ _ _ _ hget).2
  unfold JoinGame
  rw [hget]
  simp only []
  by_cases hs : game.Status ≠ .waiting
  · rw [if_pos hs]
    exact ⟨⟨fun _ => Or.inl hs, fun _ => ⟨_, rfl, rfl⟩⟩, fun _ => rfl,
      fun hn => absurd (Or.inl hs) hn⟩
  · rw [if_neg hs]
    by_cases hw : game.WhitePlayerID = some joiner
    · rw [if_pos hw]
      exact ⟨⟨fun _ => Or.inr hw, fun _ => ⟨_, rfl, rfl⟩⟩, fun _ => rfl,
        fun hn => absurd (Or.inr hw) hn⟩
    · have hsave2 : ¬ f.save = true := by simp [hsave]
      rw [if_neg hw, if_neg hsave2]
      refine ⟨⟨?_, ?_⟩, ?_, ?_⟩
      · rintro ⟨e, he, _⟩
        cases he
      · rintro (h | h)
        · exact absurd h hs
        · exact absurd h hw
      · rintro (h | h)
        · exact absurd h hs
        · exact absurd h hw
      · intro _
        refine ⟨rfl, ?_, rfl, rfl⟩
        have := findGame_saveGame db.games
          { game with BlackPlayerID := some joiner, Status := .active }
        rw [← hgid]
        exact this

theorem joinGame_outcomes_witness :
    GetGame noFaults dbWaiting 1 = .ok (game1 none .waiting "" fen0 "") ∧
      JoinGame noFaults dbWaiting 1 2 = (dbActive, .ok (game1 (some 2) .active "" fen0 "")) ∧
      findGame (JoinGame noFaults dbWaiting 1 2).1.games 1 =
        some { game1 none .waiting "" fen0 "" with BlackPlayerID := some 2, Status := .active } :=
  ⟨by decide, by decide,
    ((joinGame_outcomes noFaults dbWaiting 1 2 (game1 none .waiting "" fen0 "") (by decide)
      (by decide)).2.2 (by decide)).2.1⟩

/-- C11, as stated, fails: alice creates game 1 and moves `f2f3` in it before
anyone has joined; the game is still waiting and its position is no longer the
starting position. -/
theorem waiting_game_after_first_move :
    runCalls lineLib powFloor dbUsers
        [.createGame noFaults 1 600, .makeMove noFaults 1 1 "f2f3"] = dbWaitingMoved ∧
      game1 none .waiting "" fen1 "f2f3" ∈ dbWaitingMoved.games ∧
      ¬ (game1 none .waiting "" fen1 "f2f3").waitingInvariant lineLib := by
  decide

/-- C11, amended: in every state reached from a store without games by calls of
`CreateGame`, `JoinGame` and `MakeMove`, under any storage errors, every waiting game
has no black player and no result, and it has the canonical starting position as
long as no move row of the game is stored. -/
theorem waiting_invariant_until_first_move (L : ChessLib P G M) (Pow : ℚ → ℚ → ℚ) (db0 : DB)
    (calls : List ServiceCall) (h0 : db0.games = []) :
    ∀ g ∈ (runCalls L Pow db0 calls).games, g.waitingUntilMove L (runCalls L Pow db0 calls) :=
  runCalls_waitingUntilMove L Pow calls db0 (by
    intro g hg
    rw [h0] at hg
    cases hg)

theorem waiting_invariant_until_first_move_witness :
    dbUsers.games = [] ∧
      ∀ g ∈ (runCalls lineLib powFloor dbUsers
          [.createGame noFaults 1 600, .makeMove noFaults 1 1 "f2f3"]).games,
        g.waitingUntilMove lineLib
          (runCalls lineLib powFloor dbUsers
            [.createGame noFaults 1 600, .makeMove noFaults 1 1 "f2f3"]) :=
  ⟨rfl, waiting_invariant_until_first_move lineLib powFloor dbUsers _ rfl⟩

/-- C12: with a rules library in which the first move neither ends the game nor
leaves white to move, in every state reached from a store without games by calls of
`CreateGame`, `JoinGame` and `MakeMove`, under any storage errors, an active game has
both players set, distinct, and no result; a finished game has both players set and
a result; and the two players of every game differ when both are set. -/
theorem status_invariants_reachable (L : ChessLib P G M) (Pow : ℚ → ℚ → ℚ)
    (hL : L.firstMoveSound) (db0 : DB) (calls : List ServiceCall) (h0 : db0.games = []) :
    ∀ g ∈ (runCalls L Pow db0 calls).games, g.statusInvariant := by
  intro g hg
  apply statusInvariant_of_serviceInvariant L
  exact runCalls_serviceInvariant L Pow hL calls db0 (by
    intro x hx
    rw [h0] at hx
    cases hx) g hg

theorem status_invariants_reachable_witness :
    dbUsers.games = [] ∧
      ∀ g ∈ (runCalls lineLib powFloor dbUsers
          [.createGame noFaults 1 600, .joinGame noFaults 1 2, .makeMove noFaults 1 1 "f2f3",
            .makeMove noFaults 1 2 "e7e5", .makeMove noFaults 1 1 "g2g4",
            .makeMove noFaults 1 2 "d8h4"]).games,
        g.statusInvariant :=
  ⟨rfl, status_invariants_reachable lineLib powFloor lineLib_firstMoveSound dbUsers _ rfl⟩

/-- C13: after every call of `CreateGame`, `JoinGame` or `MakeMove`, whatever it
returns and under any storage errors, every game of the store is still in the store
and its status is not before its old status in the order waiting, active,
finished. -/
theorem status_never_regresses (L : ChessLib P G M) (Pow : ℚ → ℚ → ℚ) (db : DB)
    (c : ServiceCall) (id : Nat) (g : Game) (h : findGame db.games id = some g) :
    ∃ g2, findGame (c.run L Pow db).games id = some g2 ∧ g.Status.rank ≤ g2.Status.rank := by
  cases c with
  | createGame f whitePlayerID timeControl =>
    simp only [ServiceCall.run]
    rw [CreateGame_eq]
    split_ifs
    · exact ⟨g, h, le_refl _⟩
    · refine ⟨g, ?_, le_refl _⟩
      unfold findGame at h ⊢
      simp only []
      rw [List.find?_append, h]
      rfl
  | joinGame f gameID blackPlayerID =>
    simp only [ServiceCall.run]
    rcases JoinGame_cases f db gameID blackPlayerID with
      ⟨e, he⟩ | ⟨game, hfind, hs, _, _, _, hj⟩
    · rw [he]
      exact ⟨g, h, le_refl _⟩
    · rw [hj]
      obtain ⟨hgid, _⟩ := findGame_some _ _ _ hfind
      simp only []
      rw [findGame_saveGame_found db.games
        { game with BlackPlayerID := some blackPlayerID, Status := .active } game id
        (by rw [← hgid] at hfind; exact hfind)]
      by_cases hid : id = game.ID
      · rw [if_pos hid]
        refine ⟨_, rfl, ?_⟩
        have hge : game = g := by
          rw [hid, hgid, hfind] at h
          exact Option.some.inj h
        rw [← hge, hs]
        exact Nat.zero_le _
      · rw [if_neg hid]
        exact ⟨g, h, le_refl _⟩
  | makeMove f gameID playerID uci =>
    simp only [ServiceCall.run]
    rcases MakeMove_effect L Pow f db gameID playerID uci with
      ⟨e, he⟩ | ⟨game, engine, engine2, n, hfind, _, _, _, _, _, hm⟩
    · rw [he]
      exact ⟨g, h, le_refl _⟩
    · rw [hm]
      obtain ⟨hgid, _⟩ := findGame_some _ _ _ hfind
      have hrid := (gameRow_players L game engine2).2.2
      simp only []
      rw [findGame_saveGame_found db.games (MakeMove.gameRow L game engine2) game id
        (by rw [hrid, hgid]; exact hfind)]
      by_cases hid : id = (MakeMove.gameRow L game engine2).ID
      · rw [if_pos hid]
        refine ⟨_, rfl, ?_⟩
        have hge : game = g := by
          rw [hid, hrid, hgid, hfind] at h
          exact Option.some.inj h
        rw [← hge]
        rcases gameRow_status L game engine2 with hst | hst
        · rw [hst]
          cases game.Status <;> decide
        · rw [hst]
      · rw [if_neg hid]
        exact ⟨g, h, le_refl _⟩

theorem status_never_regresses_witness :
    findGame dbWaiting.games 1 = some (game1 none .waiting "" fen0 "") ∧
      ∃ g2, findGame ((ServiceCall.joinGame noFaults 1 2).run lineLib powFloor dbWaiting).games 1 =
          some g2 ∧
        (game1 none .waiting "" fen0 "").Status.rank ≤ g2.Status.rank :=
  ⟨by decide,
    status_never_regresses lineLib powFloor dbWaiting (.joinGame noFaults 1 2) 1
      (game1 none .waiting "" fen0 "") (by decide)⟩

/-- C14: a user without a queue entry calls `JoinQueue` with rating `elo` at time
`now`. When no entry is within its band (200 after a wait of strictly more than 30
seconds, else 100) the entry of the caller is appended, the store is unchanged and
the call returns still waiting. When some entry is, the earliest such entry leaves
the queue and the game returned is the one that `CreateGame` for the caller and
`JoinGame` for the user of that entry produce. -/
theorem joinQueue_first_in_band (L : ChessLib P G M) (f : Faults) (now timeControl : Int)
    (m : MatchmakingService) (userID : Nat) (elo : Int)
    (hnew : ∀ e ∈ m.queue, e.UserID ≠ userID) :
    ((∀ e ∈ m.queue, ¬ specWithinBand elo now e) →
        JoinQueue L f now timeControl m userID elo =
          ({ m with
              queue := m.queue ++ [{ UserID := userID, ELO := elo, EnteredAt := now }] },
            .ok none)) ∧
      ∀ (l1 l2 : List QueueEntry) (e : QueueEntry),
        m.queue = l1 ++ e :: l2 → (∀ x ∈ l1, ¬ specWithinBand elo now x) →
        specWithinBand elo now e →
        (JoinQueue L f now timeControl m userID elo).1.queue = l1 ++ l2 ∧
          ∀ (db1 db2 : DB) (game1 game2 : Game),
            CreateGame L f m.db userID timeControl = (db1, .ok game1) →
            JoinGame f db1 game1.ID e.UserID = (db2, .ok game2) →
            JoinQueue L f now timeControl m userID elo =
              ({ queue := l1 ++ l2, db := db2 }, .ok (some game2)) := by
  constructor
  · intro hno
    exact JoinQueue_append L f now timeControl m userID elo hnew (fun e he => by
      rw [← Bool.not_eq_true, compatible_iff]
      exact hno e he)
  · intro l1 l2 e hq hl1 he
    have hm := JoinQueue_match L f now timeControl m userID elo l1 l2 e hnew hq
      (fun x hx => by
        rw [← Bool.not_eq_true, compatible_iff]
        exact hl1 x hx)
      ((compatible_iff elo now e).mpr he)
    constructor
    · rw [hm]
      cases CreateGame L f m.db userID timeControl with
      | mk db r =>
        cases r with
        | error err => rfl
        | ok game =>
          simp only []
          cases JoinGame f db game.ID e.UserID with
          | mk db2 r2 =>
            cases r2 with
            | error err => rfl
            | ok game2 => rfl
    · intro db1 db2 game1 game2 hc hj
      rw [hm, hc]
      simp only []
      rw [hj]

theorem joinQueue_first_in_band_witness :
    JoinQueue lineLib noFaults (5 * Second) 600 { queue := [entryA], db := dbUsers } 2 1700 =
        ({ queue := [entryA, { UserID := 2, ELO := 1700, EnteredAt := 5 * Second }],
           db := dbUsers }, .ok none) ∧
      (JoinQueue lineLib noFaults (5 * Second) 600 { queue := [entryA], db := dbUsers } 2
        1550).1.queue = [] :=
  ⟨(joinQueue_first_in_band lineLib noFaults (5 * Second) 600
      { queue := [entryA], db := dbUsers } 2 1700 (by decide)).1 (by decide),
    ((joinQueue_first_in_band lineLib noFaults (5 * Second) 600
      { queue := [entryA], db := dbUsers } 2 1550 (by decide)).2 [] [] entryA rfl (by decide)
      (by decide)).1⟩

/-- C15: a user without a queue entry calls `JoinQueue`, an entry `e` is the
first within its band, and the `Create` and `Save` calls and the load of the game
row do not fail. The queue afterwards is the old queue without `e`; the returned
game is the row that `CreateGame` made for the caller after `JoinGame` for the
user of `e`: status active, white the caller, black the user of `e`. -/
theorem joinQueue_pairing_result (L : ChessLib P G M) (f : Faults) (now timeControl : Int)
    (m : MatchmakingService) (userID : Nat) (elo : Int) (l1 l2 : List QueueEntry)
    (e : QueueEntry)
    (hcreate : f.create = false) (hget : f.getGame = false) (hsave : f.save = false)
    (hnew : ∀ x ∈ m.queue, x.UserID ≠ userID)
    (hq : m.queue = l1 ++ e :: l2) (hl1 : ∀ x ∈ l1, ¬ specWithinBand elo now x)
    (he : specWithinBand elo now e) :
    ∃ (db1 db2 : DB) (game1 game2 : Game),
      CreateGame L f m.db userID timeControl = (db1, .ok game1) ∧
      JoinGame f db1 game1.ID e.UserID = (db2, .ok game2) ∧
      JoinQueue L f now timeControl m userID elo =
        ({ queue := l1 ++ l2, db := db2 }, .ok (some game2)) ∧
      game2.Status = .active ∧ game2.WhitePlayerID = some userID ∧
      game2.BlackPlayerID = some e.UserID ∧
      db2.games = m.db.games ++ [game2] := by
  have hne : e.UserID ≠ userID := hnew e (by rw [hq]; simp)
  obtain ⟨hc, hj⟩ := createGame_then_joinGame L f m.db userID e.UserID timeControl hcreate hget
    hsave hne
  refine ⟨_, _, _, _, hc, hj, ?_, rfl, rfl, rfl, rfl⟩
  rw [JoinQueue_match L f now timeControl m userID elo l1 l2 e hnew hq
    (fun x hx => by
      rw [← Bool.not_eq_true, compatible_iff]
      exact hl1 x hx)
    ((compatible_iff elo now e).mpr he), hc]
  simp only []
  rw [hj]

theorem joinQueue_pairing_result_witness :
    ∃ (db1 db2 : DB) (game1 game2 : Game),
      CreateGame lineLib noFaults dbUsers 2 600 = (db1, .ok game1) ∧
      JoinGame noFaults db1 game1.ID entryA.UserID = (db2, .ok game2) ∧
      JoinQueue lineLib noFaults (5 * Second) 600 { queue := [entryA], db := dbUsers } 2 1550 =
        ({ queue := [] ++ [], db := db2 }, .ok (some game2)) ∧
      game2.Status = .active ∧ game2.WhitePlayerID = some 2 ∧
      game2.BlackPlayerID = some entryA.UserID ∧
      db2.games = dbUsers.games ++ [game2] :=
  joinQueue_pairing_result lineLib noFaults (5 * Second) 600
    { queue := [entryA], db := dbUsers } 2 1550 [] [] entryA rfl rfl rfl (by decide) rfl
    (by decide) (by decide)

/-- C16, as stated, fails: user 1 enqueues with rating 1500 and waits at position
1; user 2 enqueues with rating 1550 and is paired; in the returned game white is
user 2, the caller, not user 1, the earlier enqueued. -/
theorem joinQueue_scenario_caller_white :
    JoinQueue lineLib noFaults 0 600 { queue := [], db := dbUsers } 1 1500 =
        ({ queue := [entryA], db := dbUsers }, .ok none) ∧
      GetQueuePosition { queue := [entryA], db := dbUsers } 1 = 1 ∧
      JoinQueue lineLib noFaults (5 * Second) 600 { queue := [entryA], db := dbUsers } 2 1550 =
        ({ queue := [], db := dbPaired }, .ok (some gamePaired)) ∧
      gamePaired.WhitePlayerID = some 2 ∧ gamePaired.BlackPlayerID = some 1 := by
  decide

/-- C16, amended: with an empty queue, A enqueues with rating 1500, gets still
waiting and has position 1; then B enqueues with rating 1550 and is paired; the
returned game is active with white B, the caller, and black A, the earlier enqueued.
In general a game returned by `JoinQueue` is active, its white player is the caller
and its black player is the user of a queue entry other than the caller. -/
theorem joinQueue_caller_is_white (L : ChessLib P G M) (db : DB) (timeControl t0 t1 : Int)
    (A B : Nat) (hAB : A ≠ B) :
    JoinQueue L noFaults t0 timeControl { queue := [], db := db } A 1500 =
        ({ queue := [{ UserID := A, ELO := 1500, EnteredAt := t0 }], db := db }, .ok none) ∧
      GetQueuePosition { queue := [{ UserID := A, ELO := 1500, EnteredAt := t0 }], db := db } A =
        1 ∧
      (∃ (db2 : DB) (game : Game),
        JoinQueue L noFaults t1 timeControl
            { queue := [{ UserID := A, ELO := 1500, EnteredAt := t0 }], db := db } B 1550 =
          ({ queue := [], db := db2 }, .ok (some game)) ∧
        game.WhitePlayerID = some B ∧ game.BlackPlayerID = some A ∧ game.Status = .active) ∧
      ∀ (f : Faults) (now : Int) (m m2 : MatchmakingService) (userID : Nat) (elo : Int)
        (game : Game),
        JoinQueue L f now timeControl m userID elo = (m2, .ok (some game)) →
        game.WhitePlayerID = some userID ∧ game.Status = .active ∧
          ∃ e ∈ m.queue, e.UserID ≠ userID ∧ game.BlackPlayerID = some e.UserID := by
  refine ⟨?_, ?_, ?_, ?_⟩
  · exact JoinQueue_append L noFaults t0 timeControl _ A 1500 (by simp) (by simp)
  · exact GetQueuePosition_present _ A [] [] _ rfl (by simp) rfl
  · have hcompat : JoinQueue.compatible 1550 t1 { UserID := A, ELO := 1500, EnteredAt := t0 } =
        true := by
      unfold JoinQueue.compatible abs ExpandedELORange ELOMatchRange
      simp only [decide_eq_true_eq]
      split_ifs <;> omega
    obtain ⟨hc, hj⟩ := createGame_then_joinGame L noFaults db B A timeControl rfl rfl rfl hAB
    refine ⟨{ db with
        games := db.games ++
          [{ CreateGame.row L db B timeControl with
              BlackPlayerID := some A, Status := .active }] },
      { CreateGame.row L db B timeControl with BlackPlayerID := some A, Status := .active },
      ?_, rfl, rfl, rfl⟩
    rw [JoinQueue_match L noFaults t1 timeControl _ B 1550 [] []
      { UserID := A, ELO := 1500, EnteredAt := t0 } (by simpa using hAB) rfl (by simp) hcompat,
      hc]
    simp only []
    rw [hj]
    rfl
  · intro f now m m2 userID elo game h
    obtain ⟨hnew, l1, e, l2, hq, _, _, _, hs, hw, hb⟩ :=
      JoinQueue_game_inv L f now timeControl m m2 userID elo game h
    exact ⟨hw, hs, e, by rw [hq]; simp, hnew e (by rw [hq]; simp), hb⟩

theorem joinQueue_caller_is_white_witness :
    (1 : Nat) ≠ 2 ∧
      ∃ (db2 : DB) (game : Game),
        JoinQueue lineLib noFaults (5 * Second) 600
            { queue := [{ UserID := 1, ELO := 1500, EnteredAt := 0 }], db := dbUsers } 2 1550 =
          ({ queue := [], db := db2 }, .ok (some game)) ∧
        game.WhitePlayerID = some 2 ∧ game.BlackPlayerID = some 1 ∧ game.Status = .active :=
  ⟨by decide,
    (joinQueue_caller_is_white lineLib dbUsers 600 0 (5 * Second) 1 2 (by decide)).2.2.1⟩

/-- C17, as stated, fails: user 1 enqueues with rating 1500 and user 2 with
rating 1700, both at instant 0, and both wait; the call of user 2 at 31 seconds
returns still waiting, pairs nobody and leaves the queue as it is. -/
theorem joinQueue_reenqueue_not_paired :
    JoinQueue lineLib noFaults 0 600 { queue := [entryA], db := dbUsers } 2 1700 =
        ({ queue := [entryA, entryB], db := dbUsers }, .ok none) ∧
      JoinQueue lineLib noFaults (31 * Second) 600
          { queue := [entryA, entryB], db := dbUsers } 2 1700 =
        ({ queue := [entryA, entryB], db := dbUsers }, .ok none) := by
  decide

/-- C17, amended: with an empty queue, A enqueues with rating 1500 and B, within
30 seconds, with rating 1700; B gets still waiting and is queued behind A. A
further call of B, at any time, returns still waiting and leaves queue and store as
they are, because B has an entry. After B has left the queue, a call of B more than
30 seconds after A entered returns an active game of B (white) with A (black) and
empties the queue: the widened band accepts the difference of exactly 200. -/
theorem joinQueue_widened_band (L : ChessLib P G M) (f : Faults) (db : DB)
    (timeControl t0 t1 t2 t3 : Int) (A B : Nat) (hAB : A ≠ B)
    (h1 : t1 - t0 ≤ MaxWaitTime) (h3 : t3 - t0 > MaxWaitTime) :
    JoinQueue L f t0 timeControl { queue := [], db := db } A 1500 =
        ({ queue := [{ UserID := A, ELO := 1500, EnteredAt := t0 }], db := db }, .ok none) ∧
      JoinQueue L f t1 timeControl
          { queue := [{ UserID := A, ELO := 1500, EnteredAt := t0 }], db := db } B 1700 =
        ({ queue := [{ UserID := A, ELO := 1500, EnteredAt := t0 },
                     { UserID := B, ELO := 1700, EnteredAt := t1 }], db := db }, .ok none) ∧
      JoinQueue L f t2 timeControl
          { queue := [{ UserID := A, ELO := 1500, EnteredAt := t0 },
                      { UserID := B, ELO := 1700, EnteredAt := t1 }], db := db } B 1700 =
        ({ queue := [{ UserID := A, ELO := 1500, EnteredAt := t0 },
                     { UserID := B, ELO := 1700, EnteredAt := t1 }], db := db }, .ok none) ∧
      LeaveQueue
          { queue := [{ UserID := A, ELO := 1500, EnteredAt := t0 },
                      { UserID := B, ELO := 1700, EnteredAt := t1 }], db := db } B =
        { queue := [{ UserID := A, ELO := 1500, EnteredAt := t0 }], db := db } ∧
      ∃ (db2 : DB) (game : Game),
        JoinQueue L noFaults t3 timeControl
            { queue := [{ UserID := A, ELO := 1500, EnteredAt := t0 }], db := db } B 1700 =
          ({ queue := [], db := db2 }, .ok (some game)) ∧
        game.WhitePlayerID = some B ∧ game.BlackPlayerID = some A ∧ game.Status = .active := by
  refine ⟨?_, ?_, ?_, ?_, ?_⟩
  · exact JoinQueue_append L f t0 timeControl _ A 1500 (by simp) (by simp)
  · have hno : JoinQueue.compatible 1700 t1 { UserID := A, ELO := 1500, EnteredAt := t0 } =
        false := by
      unfold JoinQueue.compatible abs ExpandedELORange ELOMatchRange
      simp only [decide_eq_false_iff_not]
      split_ifs <;> omega
    exact JoinQueue_append L f t1 timeControl _ B 1700 (by simpa using hAB) (by simpa using hno)
  · exact JoinQueue_refresh L f t2 timeControl _ B 1700
      [{ UserID := A, ELO := 1500, EnteredAt := t0 }] []
      { UserID := B, ELO := 1700, EnteredAt := t1 } rfl (by simpa using hAB) rfl
  · exact LeaveQueue_present _ B [{ UserID := A, ELO := 1500, EnteredAt := t0 }] []
      { UserID := B, ELO := 1700, EnteredAt := t1 } rfl (by simpa using hAB) rfl
  · have hcompat : JoinQueue.compatible 1700 t3 { UserID := A, ELO := 1500, EnteredAt := t0 } =
        true := by
      unfold JoinQueue.compatible abs ExpandedELORange ELOMatchRange
      simp only [decide_eq_true_eq]
      split_ifs <;> omega
    obtain ⟨hc, hj⟩ := createGame_then_joinGame L noFaults db B A timeControl rfl rfl rfl hAB
    refine ⟨{ db with
        games := db.games ++
          [{ CreateGame.row L db B timeControl with
              BlackPlayerID := some A, Status := .active }] },
      { CreateGame.row L db B timeControl with BlackPlayerID := some A, Status := .active },
      ?_, rfl, rfl, rfl⟩
    rw [JoinQueue_match L noFaults t3 timeControl _ B 1700 [] []
      { UserID := A, ELO := 1500, EnteredAt := t0 } (by simpa using hAB) rfl (by simp) hcompat,
      hc]
    simp only []
    rw [hj]
    rfl

theorem joinQueue_widened_band_witness :
    (0 : Int) - 0 ≤ MaxWaitTime ∧ 31 * Second - 0 > MaxWaitTime ∧
      ∃ (db2 : DB) (game : Game),
        JoinQueue lineLib noFaults (31 * Second) 600
            { queue := [{ UserID := 1, ELO := 1500, EnteredAt := 0 }], db := dbUsers } 2 1700 =
          ({ queue := [], db := db2 }, .ok (some game)) ∧
        game.WhitePlayerID = some 2 ∧ game.BlackPlayerID = some 1 ∧ game.Status = .active :=
  ⟨by decide, by decide,
    (joinQueue_widened_band lineLib noFaults dbUsers 600 0 0 (31 * Second) (31 * Second) 1 2
      (by decide) (by decide) (by decide)).2.2.2.2⟩

/-- C18: when user `u` has a queue entry, `JoinQueue(u, r)` returns still waiting,
leaves the store as it is and changes the queue only in the rating of the first
entry of `u`, which becomes `r`: same length, same users and same entry times in
the same order. A second `JoinQueue(u, r)` after one that returned still waiting
returns still waiting and leaves the service, and so the queue length, as it is. -/
theorem joinQueue_requeue_idempotent (L : ChessLib P G M) (u : Nat) (r : Int) :
    (∀ (f : Faults) (now timeControl : Int) (m : MatchmakingService)
        (l1 l2 : List QueueEntry) (e : QueueEntry),
        m.queue = l1 ++ e :: l2 → (∀ x ∈ l1, x.UserID ≠ u) → e.UserID = u →
        JoinQueue L f now timeControl m u r =
            ({ m with queue := l1 ++ { e with ELO := r } :: l2 }, .ok none) ∧
          (JoinQueue L f now timeControl m u r).1.queue.length = m.queue.length ∧
          (JoinQueue L f now timeControl m u r).1.queue.map (fun x => (x.UserID, x.EnteredAt)) =
            m.queue.map (fun x => (x.UserID, x.EnteredAt))) ∧
      ∀ (f f2 : Faults) (now now2 timeControl timeControl2 : Int) (m m1 : MatchmakingService),
        JoinQueue L f now timeControl m u r = (m1, .ok none) →
        JoinQueue L f2 now2 timeControl2 m1 u r = (m1, .ok none) ∧
          (JoinQueue L f2 now2 timeControl2 m1 u r).1.queue.length = m1.queue.length := by
  constructor
  · intro f now timeControl m l1 l2 e hq hl1 he
    have h := JoinQueue_refresh L f now timeControl m u r l1 l2 e hq hl1 he
    refine ⟨h, ?_, ?_⟩
    · rw [h, hq]
      simp
    · rw [h, hq]
      simp
  · intro f f2 now now2 timeControl timeControl2 m m1 h
    have key : ∃ l1 e l2, m1.queue = l1 ++ e :: l2 ∧ (∀ x ∈ l1, x.UserID ≠ u) ∧ e.UserID = u ∧
        e.ELO = r := by
      rcases JoinQueue_cases now m u r with
        ⟨l1, e, l2, hq, hl1, he⟩ | ⟨hnew, l1, e, l2, hq, hl1, he⟩ | ⟨hnew, hno⟩
      · rw [JoinQueue_refresh L f now timeControl m u r l1 l2 e hq hl1 he] at h
        cases h
        exact ⟨l1, { e with ELO := r }, l2, rfl, hl1, he, rfl⟩
      · rw [JoinQueue_match L f now timeControl m u r l1 l2 e hnew hq hl1 he] at h
        exfalso
        cases hc : CreateGame L f m.db u timeControl with
        | mk db res =>
          rw [hc] at h
          cases res with
          | error err => cases h
          | ok game =>
            simp only [] at h
            cases hj : JoinGame f db game.ID e.UserID with
            | mk db2 res2 =>
              rw [hj] at h
              cases res2 with
              | error err => cases h
              | ok game2 => cases h
      · rw [JoinQueue_append L f now timeControl m u r hnew hno] at h
        cases h
        exact ⟨m.queue, { UserID := u, ELO := r, EnteredAt := now }, [], rfl, hnew, rfl, rfl⟩
    obtain ⟨l1, e, l2, hq, hl1, he, hr⟩ := key
    have h2 := JoinQueue_refresh L f2 now2 timeControl2 m1 u r l1 l2 e hq hl1 he
    have hsame : ({ e with ELO := r } : QueueEntry) = e := by
      cases e
      simp only [QueueEntry.mk.injEq, true_and, and_true]
      exact hr.symm
    rw [hsame, ← hq] at h2
    exact ⟨h2, by rw [h2]⟩

theorem joinQueue_requeue_idempotent_witness :
    JoinQueue lineLib noFaults (31 * Second) 600
        { queue := [entryA, entryB], db := dbUsers } 2 1650 =
      ({ queue := [entryA, { entryB with ELO := 1650 }], db := dbUsers }, .ok none) :=
  ((joinQueue_requeue_idempotent lineLib 2 1650).1 noFaults (31 * Second) 600
    { queue := [entryA, entryB], db := dbUsers } [entryA] [] entryB rfl (by decide) rfl).1

/-- C19: `GetQueuePosition(u)` is one more than the number of entries before the
first entry of `u`, and it is -1 exactly when `u` has no entry; after a call of
`JoinQueue` by a user without an entry that returns still waiting, the position of
that user is the length of the queue. -/
theorem getQueuePosition_index (L : ChessLib P G M) (m : MatchmakingService) (u : Nat) :
    (∀ (l1 l2 : List QueueEntry) (e : QueueEntry),
        m.queue = l1 ++ e :: l2 → (∀ x ∈ l1, x.UserID ≠ u) → e.UserID = u →
        GetQueuePosition m u = l1.length + 1) ∧
      (GetQueuePosition m u = -1 ↔ ∀ x ∈ m.queue, x.UserID ≠ u) ∧
      ∀ (f : Faults) (now timeControl r : Int) (m1 : MatchmakingService),
        (∀ x ∈ m.queue, x.UserID ≠ u) →
        JoinQueue L f now timeControl m u r = (m1, .ok none) →
        GetQueuePosition m1 u = m1.queue.length := by
  refine ⟨fun l1 l2 e hq hl1 he => GetQueuePosition_present m u l1 l2 e hq hl1 he,
    GetQueuePosition_absent m u, ?_⟩
  intro f now timeControl r m1 hnew h
  rcases JoinQueue_cases now m u r with
    ⟨l1, e, l2, hq, _, he⟩ | ⟨_, l1, e, l2, hq, hl1, he⟩ | ⟨_, hno⟩
  · exact absurd he (hnew e (by rw [hq]; simp))
  · rw [JoinQueue_match L f now timeControl m u r l1 l2 e hnew hq hl1 he] at h
    exfalso
    cases hc : CreateGame L f m.db u timeControl with
    | mk db res =>
      rw [hc] at h
      cases res with
      | error err => cases h
      | ok game =>
        simp only [] at h
        cases hj : JoinGame f db game.ID e.UserID with
        | mk db2 res2 =>
          rw [hj] at h
          cases res2 with
          | error err => cases h
          | ok game2 => cases h
  · rw [JoinQueue_append L f now timeControl m u r hnew hno] at h
    cases h
    rw [GetQueuePosition_present _ u m.queue [] { UserID := u, ELO := r, EnteredAt := now } rfl
      hnew rfl]
    simp

theorem getQueuePosition_index_witness :
    GetQueuePosition { queue := [entryA, entryB], db := dbUsers } 2 = 2 ∧
      GetQueuePosition { queue := [entryA, entryB], db := dbUsers } 3 = -1 :=
  ⟨(getQueuePosition_index lineLib { queue := [entryA, entryB], db := dbUsers } 2).1 [entryA] []
      entryB rfl (by decide) rfl,
    (getQueuePosition_index lineLib { queue := [entryA, entryB], db := dbUsers } 3).2.1.mpr
      (by decide)⟩

/-- C20: `LeaveQueue(u)` removes the first entry of `u` and leaves the other
entries as they are, in their order; it leaves the service as it is when `u` has no
entry; and in every queue built from the empty queue by calls of `JoinQueue` and
`LeaveQueue`, the position of `u` after `LeaveQueue(u)` is -1. -/
theorem leaveQueue_effect (L : ChessLib P G M) (u : Nat) :
    (∀ (m : MatchmakingService) (l1 l2 : List QueueEntry) (e : QueueEntry),
        m.queue = l1 ++ e :: l2 → (∀ x ∈ l1, x.UserID ≠ u) → e.UserID = u →
        LeaveQueue m u = { m with queue := l1 ++ l2 }) ∧
      (∀ m : MatchmakingService, (∀ x ∈ m.queue, x.UserID ≠ u) → LeaveQueue m u = m) ∧
      ∀ (m0 : MatchmakingService) (calls : List QueueCall), m0.queue = [] →
        GetQueuePosition (LeaveQueue (runQueue L m0 calls) u) u = -1 := by
  refine ⟨fun m l1 l2 e hq hl1 he => LeaveQueue_present m u l1 l2 e hq hl1 he,
    fun m h => LeaveQueue_absent m u h, ?_⟩
  intro m0 calls h0
  rw [GetQueuePosition_absent]
  exact LeaveQueue_removes _ u (runQueue_nodup L calls m0 (by rw [h0]; exact List.nodup_nil))

theorem leaveQueue_effect_witness :
    LeaveQueue { queue := [entryA, entryB], db := dbUsers } 1 =
        { queue := [entryB], db := dbUsers } ∧
      GetQueuePosition
        (LeaveQueue
          (runQueue lineLib { queue := [], db := dbUsers }
            [.join noFaults 0 600 1 1500, .join noFaults 0 600 2 1700]) 1) 1 = -1 :=
  ⟨(leaveQueue_effect lineLib 1).1 { queue := [entryA, entryB], db := dbUsers } [] [entryB]
      entryA rfl (by decide) rfl,
    (leaveQueue_effect lineLib 1).2.2 { queue := [], db := dbUsers } _ rfl⟩

/-- C21: the caller has no queue entry and `e` is the first entry within its band,
so `JoinQueue` selects `e`. When `CreateGame` fails, or `CreateGame` succeeds and
`JoinGame` for the user of `e` fails, `JoinQueue` returns that error and no game;
the queue afterwards is the old queue without `e`, no entry of it is the caller's
and, the user ids of the old queue being pairwise distinct, none is of the user
of `e`. -/
theorem joinQueue_storage_failure (L : ChessLib P G M) (f : Faults) (now timeControl : Int)
    (m : MatchmakingService) (userID : Nat) (elo : Int) (l1 l2 : List QueueEntry)
    (e : QueueEntry) (err : Error)
    (hnew : ∀ x ∈ m.queue, x.UserID ≠ userID)
    (hq : m.queue = l1 ++ e :: l2) (hl1 : ∀ x ∈ l1, ¬ specWithinBand elo now x)
    (he : specWithinBand elo now e)
    (hfail : (∃ db, CreateGame L f m.db userID timeControl = (db, .error err)) ∨
      ∃ db1 game db2, CreateGame L f m.db userID timeControl = (db1, .ok game) ∧
        JoinGame f db1 game.ID e.UserID = (db2, .error err)) :
    (∃ db, JoinQueue L f now timeControl m userID elo =
        ({ queue := l1 ++ l2, db := db }, .error err)) ∧
      (∀ x ∈ l1 ++ l2, x.UserID ≠ userID) ∧
      ((m.queue.map (fun x => x.UserID)).Nodup → ∀ x ∈ l1 ++ l2, x.UserID ≠ e.UserID) := by
  have hm := JoinQueue_match L f now timeControl m userID elo l1 l2 e hnew hq
    (fun x hx => by
      rw [← Bool.not_eq_true, compatible_iff]
      exact hl1 x hx)
    ((compatible_iff elo now e).mpr he)
  refine ⟨?_, ?_, ?_⟩
  · rcases hfail with ⟨db, hc⟩ | ⟨db1, game, db2, hc, hj⟩
    · refine ⟨db, ?_⟩
      rw [hm, hc]
    · refine ⟨db2, ?_⟩
      rw [hm, hc]
      simp only []
      rw [hj]
  · intro x hx
    apply hnew x
    rw [hq]
    rcases List.mem_append.mp hx with h | h
    · exact List.mem_append_left _ h
    · exact List.mem_append_right _ (List.mem_cons_of_mem _ h)
  · intro hnd x hx hxe
    rw [hq, List.map_append, List.map_cons] at hnd
    apply (List.nodup_cons.mp (List.nodup_middle.mp hnd)).1
    rw [← hxe, ← List.map_append]
    exact List.mem_map_of_mem _ hx

theorem joinQueue_storage_failure_witness :
    (∃ db, JoinQueue lineLib { noFaults with save := true } (5 * Second) 600
        { queue := [entryB, { UserID := 3, ELO := 1500, EnteredAt := 0 }], db := dbUsers }
        1 1650 =
        ({ queue := [] ++ [{ UserID := 3, ELO := 1500, EnteredAt := 0 }], db := db },
          .error .storage)) ∧
      (∀ x ∈ [] ++ [({ UserID := 3, ELO := 1500, EnteredAt := 0 } : QueueEntry)],
        x.UserID ≠ 1) ∧
      ((([entryB, { UserID := 3, ELO := 1500, EnteredAt := 0 }] : List QueueEntry).map
          (fun x => x.UserID)).Nodup →
        ∀ x ∈ [] ++ [({ UserID := 3, ELO := 1500, EnteredAt := 0 } : QueueEntry)],
          x.UserID ≠ entryB.UserID) :=
  joinQueue_storage_failure lineLib { noFaults with save := true } (5 * Second) 600
    { queue := [entryB, { UserID := 3, ELO := 1500, EnteredAt := 0 }], db := dbUsers } 1 1650
    [] [{ UserID := 3, ELO := 1500, EnteredAt := 0 }] entryB .storage
    (by decide) rfl (by decide) (by decide)
    (Or.inr ⟨dbWaiting, game1 none .waiting "" fen0 "", dbWaiting, by decide, by decide⟩)

/-- C22: a broadcast for a game on a well-formed registry does not panic. A client
registered for the game whose channel has room (fewer pending frames than its
capacity, which is 256 for the channels that `HandleWebSocket` makes) gets the
payload appended to its channel and stays registered. A client registered for the
game whose channel is full gets nothing: its channel is closed with its pending
frames as they were, and the client is in no inner map afterwards. For every other
client the channel and its registrations are as before. -/
theorem broadcast_effect (h : Hub) (message : BroadcastMessage) (hwf : h.wellFormed) :
    ∃ h2, h.onBroadcast message = .ok h2 ∧
      ∀ client,
        (h.registered message.GameID client →
          (h.Send client).buf.length < (h.Send client).cap →
          h2.Send client =
              { h.Send client with buf := (h.Send client).buf ++ [message.Data] } ∧
            h2.registered message.GameID client) ∧
        (h.registered message.GameID client →
          ¬ (h.Send client).buf.length < (h.Send client).cap →
          h2.Send client = { h.Send client with closed := true } ∧
            ∀ g, ¬ h2.registered g client) ∧
        (¬ h.registered message.GameID client →
          h2.Send client = h.Send client ∧
            ∀ g, h2.registered g client ↔ h.registered g client) := by
  obtain ⟨h2, hrun, hs, hc⟩ := onBroadcast_spec h message hwf
  have hmem : ∀ g x, h2.registered g x ↔
      h.registered g x ∧ ¬ (h.registered message.GameID x ∧ x.GameID = g ∧
        ¬ (h.Send x).buf.length < (h.Send x).cap) := by
    intro g x
    obtain ⟨p, hp, hps⟩ := hc g
    rw [registered_iff, registered_iff, hp]
    cases h.clients g with
    | none => simp
    | some l => simp [List.mem_filter, hps]
  refine ⟨h2, hrun, fun client => ⟨?_, ?_, ?_⟩⟩
  · intro hr hroom
    refine ⟨?_, ?_⟩
    · rw [hs client, if_pos hr, if_pos hroom]
    · rw [hmem]
      exact ⟨hr, fun hc => hc.2.2 hroom⟩
  · intro hr hfull
    refine ⟨?_, ?_⟩
    · rw [hs client, if_pos hr, if_neg hfull]
    · intro g hg
      rw [hmem] at hg
      obtain ⟨l, hl, hcl⟩ := (registered_iff h g client).mp hg.1
      exact hg.2 ⟨hr, ((hwf g l hl).2 client hcl).1, hfull⟩
  · intro hr
    refine ⟨?_, ?_⟩
    · rw [hs client, if_neg hr]
    · intro g
      rw [hmem]
      exact ⟨fun hg => hg.1, fun hg => ⟨hg, fun hc => hr hc.1⟩⟩

theorem broadcast_effect_witness :
    ∃ h2, hubSlow.onBroadcast ⟨1, frameErr⟩ = .ok h2 ∧
      ∀ client,
        (hubSlow.registered 1 client →
          (hubSlow.Send client).buf.length < (hubSlow.Send client).cap →
          h2.Send client =
              { hubSlow.Send client with buf := (hubSlow.Send client).buf ++ [frameErr] } ∧
            h2.registered 1 client) ∧
        (hubSlow.registered 1 client →
          ¬ (hubSlow.Send client).buf.length < (hubSlow.Send client).cap →
          h2.Send client = { hubSlow.Send client with closed := true } ∧
            ∀ g, ¬ h2.registered g client) ∧
        (¬ hubSlow.registered 1 client →
          h2.Send client = hubSlow.Send client ∧
            ∀ g, h2.registered g client ↔ hubSlow.registered g client) :=
  broadcast_effect hubSlow ⟨1, frameErr⟩
    (onRegister_invariant _ clientB [clientA]
      (onRegister_invariant _ clientA []
        (NewHub_invariant heapSlow (fun c => by unfold heapSlow; split_ifs <;> rfl))
        (by simp))
      (by decide)).1

/-- C23: unregistering a registered client with an open channel removes it from
the inner map of its game, closes its channel and drops the key of the game when
the inner map becomes empty; no other inner map and no other channel changes.
Unregistering a client that is not in the inner map of its game changes nothing.
After an unregister a second one of the same client changes nothing. -/
theorem unregister_effect (h : Hub) (client : Client) :
    (∀ l, h.clients client.GameID = some l → client ∈ l →
      (h.Send client).closed = false →
      h.onUnregister client = .ok
        { clients :=
            Function.update h.clients client.GameID
              (if l.filter (fun c => c ≠ client) = [] then none
                else some (l.filter (fun c => c ≠ client)))
          Send := Function.update h.Send client { h.Send client with closed := true } }) ∧
    (¬ h.registered client.GameID client → h.onUnregister client = .ok h) ∧
    (∀ h2, h.onUnregister client = .ok h2 → h2.onUnregister client = .ok h2) := by
  refine ⟨fun l hl hc hopen => onUnregister_present h client l hl hc hopen,
    onUnregister_absent h client, ?_⟩
  intro h2 hrun
  apply onUnregister_absent
  by_cases hr : h.registered client.GameID client
  · obtain ⟨l, hl, hcl⟩ := (registered_iff h _ client).mp hr
    cases hopen : (h.Send client).closed with
    | true =>
      simp [Hub.onUnregister, hl, hcl, Chan.close, hopen] at hrun
    | false =>
      rw [onUnregister_present h client l hl hcl hopen] at hrun
      cases hrun
      rw [registered_iff]
      rintro ⟨l2, hl2, hc2⟩
      simp only [Function.update_same] at hl2
      split_ifs at hl2
      rw [Option.some.injEq] at hl2
      subst hl2
      simpa using (List.mem_filter.mp hc2).2
  · rw [onUnregister_absent h client hr] at hrun
    cases hrun
    exact hr

theorem unregister_effect_witness :
    hubPair.onUnregister clientA = .ok hubLeft ∧
      (NewHub heapFresh).onUnregister clientA = .ok (NewHub heapFresh) ∧
      hubLeft.onUnregister clientA = .ok hubLeft :=
  ⟨(unregister_effect hubPair clientA).1 [clientA, clientB] rfl (by decide) rfl,
    (unregister_effect (NewHub heapFresh) clientA).2.1 (by decide),
    (unregister_effect hubPair clientA).2.2 hubLeft
      ((unregister_effect hubPair clientA).1 [clientA, clientB] rfl (by decide) rfl)⟩

/-- C24 fails on the code: `HandleWebSocket` validates the token with
`ValidateToken`, which does not look at the type of the token. For a request with
a token that `ValidateRefreshToken` accepts, sent by a player of the game,
`ValidateAccessToken` rejects the token, yet the handler registers a client for
the user and puts the first frame on its channel. -/
theorem handleWebSocket_accepts_refresh_token (J : JWTLib) (f : Faults) (addr : Nat)
    (h : WSHandler) (id token : String) (gameID : Nat) (claims : Claims) (game : Game)
    (hid : ParseUint id 32 = some gameID) (htoken : token ≠ "")
    (hrefresh : ValidateRefreshToken J token h.JWTSecret = .ok claims)
    (hgame : GetGame f h.service gameID = .ok game)
    (hplayer : game.WhitePlayerID = some claims.UserID ∨
      game.BlackPlayerID = some claims.UserID) :
    ValidateAccessToken J token h.JWTSecret = .error .ErrTokenInvalidClaims ∧
      (HandleWebSocket J f true addr h id token).2 =
        .session { addr := addr, GameID := gameID, UserID := claims.UserID } ∧
      (HandleWebSocket J f true addr h id token).1.registered gameID
        { addr := addr, GameID := gameID, UserID := claims.UserID } ∧
      (HandleWebSocket J f true addr h id token).1.Send
          { addr := addr, GameID := gameID, UserID := claims.UserID } =
        { buf := [.gameState game.ID game.CurrentFEN game.Status game.Result
            game.WhitePlayerID game.BlackPlayerID
            (decide (game.WhitePlayerID = some claims.UserID))]
          cap := 256
          closed := false } := by
  obtain ⟨hv, htype⟩ := ValidateRefreshToken_ok J token h.JWTSecret claims hrefresh
  have hnot : ¬ (game.WhitePlayerID ≠ some claims.UserID ∧
      game.BlackPlayerID ≠ some claims.UserID) := by
    rintro ⟨hw, hb⟩
    rcases hplayer with hp | hp
    · exact hw hp
    · exact hb hp
  refine ⟨?_, ?_, ?_, ?_⟩
  · unfold ValidateAccessToken
    rw [hv]
    simp only [htype]
    rfl
  · unfold HandleWebSocket
    simp only [hid, htoken, if_false, hv, hgame]
    simp [hnot]
  · unfold HandleWebSocket
    simp only [hid, htoken, if_false, hv, hgame]
    simp [hnot, Hub.registered, Hub.onRegister]
    split <;> simp_all
  · unfold HandleWebSocket
    simp only [hid, htoken, if_false, hv, hgame]
    simp [hnot, Hub.onRegister, Chan.make]

theorem handleWebSocket_accepts_refresh_token_witness :
    ValidateAccessToken tokenLib "r1" wsHandler.JWTSecret = .error .ErrTokenInvalidClaims ∧
      (HandleWebSocket tokenLib noFaults true 1 wsHandler "1" "r1").2 = .session clientA ∧
      (HandleWebSocket tokenLib noFaults true 1 wsHandler "1" "r1").1.registered 1 clientA ∧
      (HandleWebSocket tokenLib noFaults true 1 wsHandler "1" "r1").1.Send clientA =
        { buf := [.gameState 1 fen0 .active "" (some 1) (some 2) true]
          cap := 256
          closed := false } :=
  handleWebSocket_accepts_refresh_token tokenLib noFaults 1 wsHandler "1" "r1" 1
    { UserID := 1, Username := "alice", TokenType := "refresh" }
    (game1 (some 2) .active "" fen0 "") (by decide) (by decide) (by decide) (by decide)
    (by decide)

/-- C25 fails on the code: from the empty registry, a client registers for game 1
with a fresh channel of capacity 256 and does not drain it; 256 broadcasts for the
game fill the channel and the next one evicts the client. The registry then still
has the key of game 1, mapped to the empty set: the eviction removes the client
from the inner map and, unlike the unregister branch, leaves the empty inner map
in the registry. -/
theorem eviction_leaves_empty_inner_map :
    (Hub.Run (NewHub heapFresh)
        (.register clientA :: List.replicate 257 (.broadcast ⟨1, frameErr⟩))).map
      (fun h => (h.clients 1, (h.Send clientA).closed)) = .ok (some [], true) := by
  decide!

/-- C26: the hub starts with the empty registry and every channel open, and no
client is registered twice. Then no step of the loop panics, so no step closes a
channel that is closed already, and after every number of events the channel of
every registered client is open, that is, no client with a closed channel is in
the registry. -/
theorem channel_closed_at_most_once (Send : Client → Chan)
    (hopen : ∀ c, (Send c).closed = false) (events : List HubEvent)
    (honce : (registrations events).Nodup) (n : Nat) :
    ∃ h, Hub.Run (NewHub Send) (events.take n) = .ok h ∧
      ∀ g c, h.registered g c → (h.Send c).closed = false := by
  obtain ⟨h, seen, hrun, hinv⟩ := Run_invariant (events.take n) (NewHub Send) []
    (NewHub_invariant Send hopen) ((registrations_take events n).nodup honce) (by simp)
  refine ⟨h, hrun, ?_⟩
  intro g c hr
  obtain ⟨l, hl, hcl⟩ := (registered_iff h g c).mp hr
  exact ((hinv.1 g l hl).2 c hcl).2

theorem channel_closed_at_most_once_witness :
    ∃ h, Hub.Run (NewHub heapSlow)
        ([HubEvent.register clientA, .register clientB, .broadcast ⟨1, frameErr⟩,
          .unregister clientA, .unregister clientB, .unregister clientA].take 6) = .ok h ∧
      ∀ g c, h.registered g c → (h.Send c).closed = false :=
  channel_closed_at_most_once heapSlow (fun c => by unfold heapSlow; split_ifs <;> rfl)
    [.register clientA, .register clientB, .broadcast ⟨1, frameErr⟩,
      .unregister clientA, .unregister clientB, .unregister clientA] (by decide) 6

/-- C27: after every sequence of `JoinQueue` and `LeaveQueue` calls from the empty
queue the user ids of the queue entries are pairwise distinct; a call of
`JoinQueue` on that queue that returns a game has removed an entry of another
user than the caller, and the game has the caller as white player and that other
user as black player, so white and black differ. -/
theorem queue_user_ids_distinct (L : ChessLib P G M) (db : DB) (calls : List QueueCall) :
    ((runQueue L { queue := [], db := db } calls).queue.map (fun x => x.UserID)).Nodup ∧
      ∀ (f : Faults) (now timeControl : Int) (userID : Nat) (elo : Int)
        (m2 : MatchmakingService) (game : Game),
        JoinQueue L f now timeControl (runQueue L { queue := [], db := db } calls) userID elo =
          (m2, .ok (some game)) →
        ∃ l1 e l2, (runQueue L { queue := [], db := db } calls).queue = l1 ++ e :: l2 ∧
          m2.queue = l1 ++ l2 ∧ e.UserID ≠ userID ∧
          game.WhitePlayerID = some userID ∧ game.BlackPlayerID = some e.UserID ∧
          game.WhitePlayerID ≠ game.BlackPlayerID := by
  refine ⟨runQueue_nodup L calls _ (by simp), ?_⟩
  intro f now timeControl userID elo m2 game h
  obtain ⟨hnew, l1, e, l2, hq, _, _, hq2, _, hw, hb⟩ :=
    JoinQueue_game_inv L f now timeControl _ m2 userID elo game h
  have hne : e.UserID ≠ userID := hnew e (by rw [hq]; simp)
  refine ⟨l1, e, l2, hq, hq2, hne, hw, hb, ?_⟩
  rw [hw, hb]
  intro hc
  exact hne (Option.some.inj hc).symm

theorem queue_user_ids_distinct_witness :
    ((runQueue lineLib { queue := [], db := dbUsers }
        [.join noFaults 0 600 1 1500, .join noFaults 0 600 2 1700, .leave 1,
          .join noFaults 0 600 2 1650]).queue.map (fun x => x.UserID)).Nodup ∧
      ∀ (f : Faults) (now timeControl : Int) (userID : Nat) (elo : Int)
        (m2 : MatchmakingService) (game : Game),
        JoinQueue lineLib f now timeControl
            (runQueue lineLib { queue := [], db := dbUsers }
              [.join noFaults 0 600 1 1500, .join noFaults 0 600 2 1700, .leave 1,
                .join noFaults 0 600 2 1650]) userID elo =
          (m2, .ok (some game)) →
        ∃ l1 e l2,
          (runQueue lineLib { queue := [], db := dbUsers }
              [.join noFaults 0 600 1 1500, .join noFaults 0 600 2 1700, .leave 1,
                .join noFaults 0 600 2 1650]).queue = l1 ++ e :: l2 ∧
          m2.queue = l1 ++ l2 ∧ e.UserID ≠ userID ∧
          game.WhitePlayerID = some userID ∧ game.BlackPlayerID = some e.UserID ∧
          game.WhitePlayerID ≠ game.BlackPlayerID :=
  queue_user_ids_distinct lineLib dbUsers
    [.join noFaults 0 600 1 1500, .join noFaults 0 600 2 1700, .leave 1,
      .join noFaults 0 600 2 1650]

end ChessGame
